import Mathlib

/-!
NTag: hit clusters and the capture-candidate search.

A shallow embedding of `PMTHit`, `PMTHitCluster` (src/src/PMTHitCluster/PMTHitCluster.cc,
src/src/var/PMTHitCluster/PMTHit/PMTHit.cc) and of `NTagEventInfo`
(src/src/NTagEventInfo.cc): the peak search, the vertex fit by minimisation of the time
RMS, the external vertex fit of a candidate, the truth matching, the angular statistics,
the hit ingestion and `Clear()`.

Conventions of the embedding.

* `float` / `Float` values are exact rationals (`ℚ`): the comparisons and the
  additions of the source are kept, rounding is not modelled.
* `int` channel identifiers and hit counts are `Int`; indices into the hit vectors
  are `Nat`.
* `std::vector` is `List`; `push_back` appends at the end.
* The detector constants that come from headers outside the repository
  (`MAXPM`, `MAXPMA`, the PMT position table, `std::numeric_limits<Float>::min()`)
  are fields of `Geometry`; the tank constants, the square root and the travel time of
  `NTagEventInfo` are fields of `Tank`.
* External routines (`bonsai_fit_`, the classifier) are parameters of the definitions
  that call them.  So is `std::sort`: the cluster methods that sort take the routine as the
  argument `stdSort`, and `SortContract` is what the C++ standard guarantees of it (a
  permutation in non-descending order; the order of hits of equal time is left open).
  `stableSort` and `unstableSort` are two routines that meet the contract.
* Where a statement is about a division by zero or a read past the end of a vector, the
  value concerned is an `Option` or the memory past the end is a parameter: the memory
  behind the table `hitTime` of `ApplyDeadtime` is the argument `beyond`.
* A method whose behaviour is undefined on some inputs returns an `Option` and has no
  result (`none`) on those inputs (`MinimizeTRMS`).
* Closed facts about concrete hit sequences are evaluated by the kernel (`decide!`).

The file has three parts: the definitions (the embedding and the vocabulary of the
statements), the lemmas, and the properties `C1`, `C2`, … of the specification.
-/

namespace NTag

/-! ## Data model -/

/-- ROOT's `TVector3`, with rational coordinates; `TVector3()` is the zero vector. -/
structure TVector3 where
  x : ℚ
  y : ℚ
  z : ℚ
deriving DecidableEq

/-- The default-constructed vector `TVector3()`. -/
def TVector3.zero : TVector3 := ⟨0, 0, 0⟩

/-- Detector context used by the hit cluster.  `MAXPM` and `MAXPMA` are the macros of
`geotnkC.h`; `tof v i` is the light travel time from vertex `v` to the PMT of channel `i`
(`|fPMTPosition - v| / C_WATER`, a square root, hence kept abstract) and `dir v i` the unit
vector from `v` to that PMT; `floatMin` is `std::numeric_limits<Float>::min()`. -/
structure Geometry where
  MAXPM : Int
  MAXPMA : Int
  tof : TVector3 → Int → ℚ
  dir : TVector3 → Int → TVector3
  floatMin : ℚ

/-- A single PMT hit (`PMTHit`).  `fPMTPosition` is a function of `fPMTID` (set once in the
constructor from the position table) and is reached through `Geometry.tof` / `Geometry.dir`. -/
structure PMTHit where
  fT : ℚ
  fToF : ℚ
  fQ : ℚ
  fPMTID : Int
  fFlag : Int
  fIsSignal : Bool
  fIsBurst : Bool
  fHitDirection : TVector3
deriving DecidableEq

/-- The constructor `PMTHit::PMTHit(t, q, i, f)`. -/
def PMTHit.mk4 (t q : ℚ) (i f : Int) : PMTHit :=
  { fT := t, fToF := 0, fQ := q, fPMTID := i, fFlag := f,
    fIsSignal := false, fIsBurst := false, fHitDirection := TVector3.zero }

/-- The accessor `PMTHit::t()`. -/
def PMTHit.t (h : PMTHit) : ℚ := h.fT

/-- The accessor `PMTHit::i()`. -/
def PMTHit.i (h : PMTHit) : Int := h.fPMTID

/-- Modelled from the spec: `PMTHit::SetToFAndDirection` is declared in `PMTHit.hh`, which is
not among the sources.  The spec's hit carries a ToF-corrected time derived from the attached
vertex: the time of flight from the vertex is stored and subtracted from the hit time, and
the direction from the vertex is recorded. -/
def PMTHit.SetToFAndDirection (g : Geometry) (v : TVector3) (h : PMTHit) : PMTHit :=
  { h with fToF := g.tof v h.fPMTID, fT := h.fT - g.tof v h.fPMTID,
           fHitDirection := g.dir v h.fPMTID }

/-- Modelled from the spec: `PMTHit::UnsetToFAndDirection` is declared in `PMTHit.hh`, which is
not among the sources.  Removing the vertex clears the correction: the stored time of flight
is added back to the hit time and reset, and the direction is cleared. -/
def PMTHit.UnsetToFAndDirection (h : PMTHit) : PMTHit :=
  { h with fT := h.fT + h.fToF, fToF := 0, fHitDirection := TVector3.zero }

/-- The operator `operator+(const PMTHit&, const Float&)`: a copy of the hit with `fT += time`. -/
def PMTHit.addTime (h : PMTHit) (time : ℚ) : PMTHit :=
  { h with fT := h.fT + time }

/-- What the C++ standard guarantees of the library routine `std::sort` called with the
comparison `hit1.t() < hit2.t()`: the result holds the same hits, and no hit stands before a
hit with a smaller time.  The order of hits with equal times is not fixed. -/
def SortContract (stdSort : List PMTHit → List PMTHit) : Prop :=
  ∀ l, (stdSort l).Perm l ∧ (stdSort l).Pairwise (fun hit1 hit2 => hit1.t ≤ hit2.t)

/-- A routine that meets the contract of `std::sort` and keeps hits of equal time in the
order in which it finds them (insertion sort). -/
def stableSort (l : List PMTHit) : List PMTHit :=
  l.insertionSort (fun hit1 hit2 => hit1.t ≤ hit2.t)

/-- A routine that meets the contract of `std::sort` and leaves hits of equal time in the
reverse of the order in which it finds them (insertion sort from the back). -/
def unstableSort (l : List PMTHit) : List PMTHit :=
  l.reverse.insertionSort (fun hit1 hit2 => hit1.t ≤ hit2.t)

/-- The hit cluster `PMTHitCluster`: the element vector and the three state fields. -/
structure PMTHitCluster where
  fElement : List PMTHit
  fIsSorted : Bool
  fHasVertex : Bool
  fVertex : TVector3
deriving DecidableEq

namespace PMTHitCluster

/-- The constructor `PMTHitCluster::PMTHitCluster()`. -/
def empty : PMTHitCluster :=
  { fElement := [], fIsSorted := false, fHasVertex := false, fVertex := TVector3.zero }

/-- The method `PMTHitCluster::Append(const PMTHit&)`: only hits with a meaningful PMT ID are appended. -/
def Append (g : Geometry) (c : PMTHitCluster) (hit : PMTHit) : PMTHitCluster :=
  let i := hit.i
  if (1 ≤ i ∧ i ≤ g.MAXPM) ∨ (20001 ≤ i ∧ i ≤ 20000 + g.MAXPMA) then
    { c with fElement := c.fElement ++ [hit] }
  else c

/-- The method `PMTHitCluster::SetToF(bool unset)`: without a vertex only a warning is printed; with a
vertex the sorted flag is cleared and every hit is corrected (or un-corrected). -/
def SetToF (g : Geometry) (c : PMTHitCluster) (unset : Bool) : PMTHitCluster :=
  if !c.fHasVertex then c
  else
    { c with
      fIsSorted := false
      fElement := c.fElement.map (fun hit =>
        if unset then hit.UnsetToFAndDirection else hit.SetToFAndDirection g c.fVertex) }

/-- The method `PMTHitCluster::Sort()` (`Sort` is a reserved word of Lean).  The library
routine `std::sort`, called with the comparison `hit1.t() < hit2.t()`, is the parameter
`stdSort`: the C++ standard leaves the relative order of hits with equal times open. -/
def SortHits (stdSort : List PMTHit → List PMTHit) (c : PMTHitCluster) : PMTHitCluster :=
  { c with
    fElement := stdSort c.fElement
    fIsSorted := true }

/-- The method `PMTHitCluster::RemoveVertex()`. -/
def RemoveVertex (g : Geometry) (c : PMTHitCluster) : PMTHitCluster :=
  if c.fHasVertex then
    let c1 := SetToF g c true
    { c1 with fVertex := TVector3.zero, fHasVertex := false }
  else c

/-- The method `PMTHitCluster::SetVertex(const TVector3&)`. -/
def SetVertex (stdSort : List PMTHit → List PMTHit) (g : Geometry) (c : PMTHitCluster)
    (inVertex : TVector3) : PMTHitCluster :=
  if !c.fHasVertex ∨ c.fVertex ≠ inVertex then
    let c1 := if c.fHasVertex then RemoveVertex g c else c
    let c2 := { c1 with fVertex := inVertex, fHasVertex := true }
    SortHits stdSort (SetToF g c2 false)
  else c

/-- The method `PMTHitCluster::AddTimeOffset(Float)`. -/
def AddTimeOffset (c : PMTHitCluster) (tOffset : ℚ) : PMTHitCluster :=
  { c with fElement := c.fElement.map (fun hit => hit.addTime tOffset) }

/-- The table `hitTime` of `ApplyDeadtime` after `hitTime.fill(min())`, as a map from the
index used by the loop (the channel ID) to the stored time.  The C++ table is a
`std::array<Float, MAXPM>`: `fill` sets its entries `0..MAXPM-1`.  The loop also uses the
index `MAXPM`, one past the end of the table; `beyond` is what the memory there holds when
the loop starts. -/
def hitTimeInit (g : Geometry) (beyond : ℚ) : Int → ℚ :=
  fun i => if 0 ≤ i ∧ i < g.MAXPM then g.floatMin else beyond

/-- One iteration of the loop of `ApplyDeadtime` over `fElement`: the state is the table
`hitTime` (with the memory cell behind it, which a hit on channel `MAXPM` reads and writes)
and the vector `dtCorrectedHits`. -/
def deadtimeStep (g : Geometry) (deadtime : ℚ) (st : (Int → ℚ) × List PMTHit) (hit : PMTHit) :
    (Int → ℚ) × List PMTHit :=
  let hitPMTID := hit.i
  if 1 ≤ hitPMTID ∧ hitPMTID ≤ g.MAXPM then
    if hit.t - st.1 hitPMTID > deadtime then
      (Function.update st.1 hitPMTID hit.t, st.2 ++ [hit])
    else st
  else st

/-- The method `PMTHitCluster::ApplyDeadtime(Float deadtime)`, with the library routine
`std::sort` and the content `beyond` of the memory behind the table `hitTime` as
parameters. -/
def ApplyDeadtime (stdSort : List PMTHit → List PMTHit) (g : Geometry) (beyond : ℚ)
    (c : PMTHitCluster) (deadtime : ℚ) : PMTHitCluster :=
  let tempVertex := if c.fHasVertex then c.fVertex else TVector3.zero
  let bHadVertex := c.fHasVertex
  let c1 := if c.fHasVertex then RemoveVertex g c else c
  let c2 := if !c1.fIsSorted then SortHits stdSort c1 else c1
  let dtCorrectedHits :=
    (c2.fElement.foldl (deadtimeStep g deadtime) (hitTimeInit g beyond, [])).2
  let c3 := { c2 with fElement := dtCorrectedHits }
  if bHadVertex then SetVertex stdSort g c3 tempVertex else c3

/-- Element access `fElement[i]`.  An index outside the vector reads a default hit in the
model; the loop of `Slice` only reads inside the vector. -/
def elemOf (fElement : List PMTHit) (i : Nat) : PMTHit :=
  fElement.getD i (PMTHit.mk4 0 0 0 0)

/-- The hits that the loop of `ApplyDeadtime` pushes to `dtCorrectedHits` when it runs over
the hits `L` from the table `hitTime`, by recursion on the remaining hits. -/
def deadtimeKeep (g : Geometry) (deadtime : ℚ) : (Int → ℚ) → List PMTHit → List PMTHit
  | _, [] => []
  | hitTime, hit :: rest =>
    if 1 ≤ hit.i ∧ hit.i ≤ g.MAXPM ∧ hit.t - hitTime hit.i > deadtime then
      hit :: deadtimeKeep g deadtime (Function.update hitTime hit.i hit.t) rest
    else deadtimeKeep g deadtime hitTime rest

/-- Two hits are on different channels or more than `w` apart in time. -/
def deadtimeApart (w : ℚ) (h1 h2 : PMTHit) : Prop :=
  h1.fPMTID = h2.fPMTID → w < |h1.fT - h2.fT|

/-- The channel test of `Append`: the hit is on an inner-detector or an outer-detector
channel. -/
def accepted (g : Geometry) (h : PMTHit) : Prop :=
  (1 ≤ h.fPMTID ∧ h.fPMTID ≤ g.MAXPM) ∨ (20001 ≤ h.fPMTID ∧ h.fPMTID ≤ 20000 + g.MAXPMA)

instance (g : Geometry) (h : PMTHit) : Decidable (accepted g h) := by
  unfold accepted; infer_instance

/-- The element vector over which the loop of `ApplyDeadtime` runs: the hits after
`RemoveVertex()` (when a vertex was attached) and after `Sort()` (when the cluster was not
flagged sorted). -/
def deadtimeInput (stdSort : List PMTHit → List PMTHit) (c : PMTHitCluster) : List PMTHit :=
  if c.fHasVertex then stdSort (c.fElement.map PMTHit.UnsetToFAndDirection)
  else if c.fIsSorted then c.fElement
  else stdSort c.fElement

/-- A hit without ToF correction: `fToF` is zero and the direction is cleared. -/
def isRaw (h : PMTHit) : Prop := h.fToF = 0 ∧ h.fHitDirection = TVector3.zero

end PMTHitCluster

/-- A concrete detector context for evaluating the model on examples: the channel counts of
Super-Kamiokande (11146 inner and 1885 outer PMTs), `FLT_MIN = 2^-126`, and a stand-in
travel time that depends on the vertex and the channel. -/
def exampleGeometry : Geometry :=
  { MAXPM := 11146, MAXPMA := 1885,
    tof := fun v i => (|v.x| + |v.y| + |v.z|) / 20 + (i : ℚ) / 1000,
    dir := fun v _ => v, floatMin := 1 / 2 ^ 126 }

/-! ## The peak search of `NTagEventInfo` -/

/-- The tunable thresholds of `NTagEventInfo` used by the peak search
(`SetN10Limits`, `SetN200Max`, `SetT0Limits`, `SetTPeakSeparation`). -/
structure Settings where
  N10TH : Int
  N10MX : Int
  N200MX : Int
  T0TH : ℚ
  TMINPEAKSEP : ℚ

/-- The members of `NTagEventInfo` read or written by the peak search.  `vN10`, `vN200`,
`vQSum10`, `vReconCT` and `vTSpread10` are the vectors of `TMVATools.fVariables` with these
keys.  `vBeta14_10` and `TRMS10` (angular moments and a square root) are not modelled. -/
structure NTagEventInfo where
  nqiskz : Nat
  vSortedT_ToF : List ℚ
  vSortedQ : List ℚ
  firstHitTime_ToF : ℚ
  maxN200 : Int
  maxN200Time : ℚ
  nCandidates : Int
  vFirstHitID : List Nat
  vN10 : List Int
  vN200 : List Int
  vQSum10 : List ℚ
  vReconCT : List ℚ
  vTSpread10 : List ℚ

namespace NTagEventInfo

/-- Element access `T[i]` of a `std::vector<float>`; an index outside the vector reads `0`
in the model. -/
def elemAt (T : List ℚ) (i : Nat) : ℚ := T.getD i 0

/-- The `while (1)` loop of `GetNhitsFromStartIndex`, with the number of iterations still
allowed as first argument; the result is the final `searchIndex`. -/
def GetNhitsLoop (T : List ℚ) (startIndex : Nat) (tWidth : ℚ) : Nat → Nat → Nat
  | 0, searchIndex => searchIndex
  | fuel + 1, searchIndex =>
    let searchIndex := searchIndex + 1
    if searchIndex + 1 > T.length ∨ |elemAt T searchIndex - elemAt T startIndex| > tWidth then
      searchIndex
    else GetNhitsLoop T startIndex tWidth fuel searchIndex

/-- The method `NTagEventInfo::GetNhitsFromStartIndex(T, startIndex, tWidth)`.  The loop leaves at the
latest when `searchIndex` reaches `T.size()`, so `T.size() + 1` iterations are enough. -/
def GetNhitsFromStartIndex (T : List ℚ) (startIndex : Nat) (tWidth : ℚ) : Int :=
  let searchIndex := GetNhitsLoop T startIndex tWidth (T.length + 1) startIndex
  |(searchIndex : Int) - (startIndex : Int)|

/-- The `while (1)` loop of `GetQSumFromStartIndex`; the state is `(searchIndex, sumQ)`. -/
def GetQSumLoop (T Q : List ℚ) (startIndex : Nat) (tWidth : ℚ) : Nat → Nat × ℚ → Nat × ℚ
  | 0, st => st
  | fuel + 1, (searchIndex, sumQ) =>
    let sumQ := sumQ + elemAt Q searchIndex
    let searchIndex := searchIndex + 1
    if searchIndex + 1 > Q.length ∨ |elemAt T searchIndex - elemAt T startIndex| > tWidth then
      (searchIndex, sumQ)
    else GetQSumLoop T Q startIndex tWidth fuel (searchIndex, sumQ)

/-- The method `NTagEventInfo::GetQSumFromStartIndex(T, Q, startIndex, tWidth)`. -/
def GetQSumFromStartIndex (T Q : List ℚ) (startIndex : Nat) (tWidth : ℚ) : ℚ :=
  (GetQSumLoop T Q startIndex tWidth (Q.length + 1) (startIndex, 0)).2

/-- The range-for loop of `GetNhitsFromCenterTime` over the remaining times, with the
counter `NXX` as last argument. -/
def GetNhitsFromCenterLoop (centerTime tWidth : ℚ) : List ℚ → Int → Int
  | [], NXX => NXX
  | t :: rest, NXX =>
    if t < centerTime - tWidth / 2 then GetNhitsFromCenterLoop centerTime tWidth rest NXX
    else if t > centerTime + tWidth / 2 then NXX
    else GetNhitsFromCenterLoop centerTime tWidth rest (NXX + 1)

/-- The method `NTagEventInfo::GetNhitsFromCenterTime(T, centerTime, tWidth)`. -/
def GetNhitsFromCenterTime (T : List ℚ) (centerTime tWidth : ℚ) : Int :=
  GetNhitsFromCenterLoop centerTime tWidth T 0

/-- The method `NTagEventInfo::SavePeakFromHit(hitID)`. -/
def SavePeakFromHit (s : Settings) (e : NTagEventInfo) (hitID : Nat) : NTagEventInfo :=
  let t0 := elemAt e.vSortedT_ToF hitID
  let N10i := GetNhitsFromStartIndex e.vSortedT_ToF hitID 10
  let N200 := GetNhitsFromCenterTime e.vSortedT_ToF (t0 + 5) 200
  let tEnd := elemAt e.vSortedT_ToF (((hitID : Int) + N10i - 1).toNat)
  let sumQ := GetQSumFromStartIndex e.vSortedT_ToF e.vSortedQ hitID 10
  if N10i ≥ s.N10TH ∧ N10i < s.N10MX + 1 then
    { e with
      vFirstHitID := e.vFirstHitID ++ [hitID]
      vN10 := e.vN10 ++ [N10i]
      vN200 := e.vN200 ++ [N200]
      vQSum10 := e.vQSum10 ++ [sumQ]
      vReconCT := e.vReconCT ++ [(t0 + tEnd) / 2]
      vTSpread10 := e.vTSpread10 ++ [tEnd - t0]
      nCandidates := e.nCandidates + 1 }
  else e

/-- The local variables of `SearchCaptureCandidates` that live across loop iterations. -/
structure ScanLocals where
  iHitPrevious : Nat
  N10New : Int
  N10Previous : Int
  N200Previous : Int
  t0Previous : ℚ

/-- The initial values of the locals of `SearchCaptureCandidates`. -/
def scanInit : ScanLocals :=
  { iHitPrevious := 0, N10New := 0, N10Previous := 0, N200Previous := 0, t0Previous := -1 }

/-- The statement `if (firstHitTime_ToF == 0.) firstHitTime_ToF = vSortedT_ToF[iHit];`. -/
def recordFirstHitTime (e : NTagEventInfo) (t : ℚ) : NTagEventInfo :=
  if e.firstHitTime_ToF = 0 then { e with firstHitTime_ToF := t } else e

/-- The statement `if (t0New > 2.e4 && N200New > maxN200) { maxN200 = N200New;
maxN200Time = t0New; }`. -/
def recordMaxN200 (e : NTagEventInfo) (t0New : ℚ) (N200New : Int) : NTagEventInfo :=
  if t0New > 20000 ∧ N200New > e.maxN200 then
    { e with maxN200 := N200New, maxN200Time := t0New }
  else e

/-- The body of the hit loop of `SearchCaptureCandidates` for the hit index `iHit`. -/
def scanStep (s : Settings) (st : ScanLocals × NTagEventInfo) (iHit : Nat) :
    ScanLocals × NTagEventInfo :=
  let l := st.1
  let e := st.2
  let T := e.vSortedT_ToF
  if elemAt T iHit * (1 / 1000) < s.T0TH then st
  else
    let e := recordFirstHitTime e (elemAt T iHit)
    let N10i := GetNhitsFromStartIndex T iHit 10
    if N10i < s.N10TH ∨ N10i ≥ s.N10MX + 1 then (l, e)
    else
      let l := { l with N10New := N10i }
      let t0New := elemAt T iHit
      let N200New := GetNhitsFromCenterTime T (t0New + 5) 200
      let e := recordMaxN200 e t0New N200New
      let e := if t0New - l.t0Previous > s.TMINPEAKSEP then
          (if l.N200Previous < s.N200MX ∧ l.t0Previous * (1 / 1000) > s.T0TH then
            SavePeakFromHit s e l.iHitPrevious
          else e)
        else e
      let l := if t0New - l.t0Previous > s.TMINPEAKSEP then { l with N10Previous := 0 } else l
      if l.N10New ≤ l.N10Previous then (l, e)
      else
        ({ l with iHitPrevious := iHit, t0Previous := t0New, N10Previous := l.N10New,
                  N200Previous := N200New }, e)

/-- The hit loop of `SearchCaptureCandidates` over the hit indices `0 .. nqiskz - 1`. -/
def scanLoop (s : Settings) (e : NTagEventInfo) : ScanLocals × NTagEventInfo :=
  (List.range e.nqiskz).foldl (scanStep s) (scanInit, e)

/-- The state of the hit loop after its first `n` iterations (hit indices `0 .. n - 1`). -/
def scanPrefix (s : Settings) (e : NTagEventInfo) (n : Nat) : ScanLocals × NTagEventInfo :=
  (List.range n).foldl (scanStep s) (scanInit, e)

/-- The peak search of `NTagEventInfo::SearchCaptureCandidates()`: the hit loop followed by
the unconditional `SavePeakFromHit(iHitPrevious)`.  The candidate loop that follows in the
source writes to other vectors only. -/
def SearchCaptureCandidates (s : Settings) (e : NTagEventInfo) : NTagEventInfo :=
  let st := scanLoop s e
  SavePeakFromHit s st.2 st.1.iHitPrevious

/-- The event after `Clear()` (fields of the model) and `SortToFSubtractedTQ()` for the
ascending corrected times `T` and their charges `Q`: `nqiskz` is the number of hits. -/
def ofSortedHits (T Q : List ℚ) : NTagEventInfo :=
  { nqiskz := T.length, vSortedT_ToF := T, vSortedQ := Q,
    firstHitTime_ToF := -9999, maxN200 := 0, maxN200Time := -9999, nCandidates := 0,
    vFirstHitID := [], vN10 := [], vN200 := [], vQSum10 := [], vReconCT := [],
    vTSpread10 := [] }

/-- The settings made by the constructor of `NTagEventInfo`:
`SetN10Limits(7, 50)`, `SetN200Max(140)`, `SetT0Limits(5., 600.)`, `SetTPeakSeparation(50.)`. -/
def defaultSettings : Settings :=
  { N10TH := 7, N10MX := 50, N200MX := 140, T0TH := 5, TMINPEAKSEP := 50 }

/-! ### Vocabulary of the statements about the peak search -/

/-- The `N10` of the hit `i`: the value `GetNhitsFromStartIndex(vSortedT_ToF, i, 10.)`. -/
def N10 (T : List ℚ) (i : Nat) : Int := GetNhitsFromStartIndex T i 10

/-- The `N200` of the hit `i`: the value `GetNhitsFromCenterTime(vSortedT_ToF, T[i] + 5., 200.)`. -/
def N200 (T : List ℚ) (i : Nat) : Int := GetNhitsFromCenterTime T (elemAt T i + 5) 200

/-- The hit `i` passes both `continue` tests at the head of the loop body: its time is not
below `T0TH` and its `N10` lies in `[N10TH, N10MX]`. -/
def qualifies (s : Settings) (T : List ℚ) (i : Nat) : Prop :=
  ¬ (elemAt T i * (1 / 1000) < s.T0TH) ∧ ¬ (N10 T i < s.N10TH ∨ N10 T i ≥ s.N10MX + 1)

instance (s : Settings) (T : List ℚ) (i : Nat) : Decidable (qualifies s T i) := by
  unfold qualifies; infer_instance

/-- The event with the three bookkeeping members that the peak search only writes
(`firstHitTime_ToF`, `maxN200`, `maxN200Time`) blanked: two events with the same `core`
hold the same hits and the same candidates. -/
def core (e : NTagEventInfo) : NTagEventInfo :=
  { e with firstHitTime_ToF := 0, maxN200 := 0, maxN200Time := 0 }

/-- The locals hold the hit `b` as current best seed. -/
def seedIs (T : List ℚ) (l : ScanLocals) (b : Nat) : Prop :=
  l.iHitPrevious = b ∧ l.t0Previous = elemAt T b ∧ l.N10Previous = N10 T b ∧
    l.N200Previous = N200 T b

/-- The test `t0New - t0Previous > TMINPEAKSEP` for a hit `i` that reaches it: the within-run
tracking is reset at `i`. -/
def resetsAt (s : Settings) (st : ScanLocals × NTagEventInfo) (i : Nat) : Prop :=
  qualifies s st.2.vSortedT_ToF i ∧
    elemAt st.2.vSortedT_ToF i - st.1.t0Previous > s.TMINPEAKSEP

instance (s : Settings) (st : ScanLocals × NTagEventInfo) (i : Nat) :
    Decidable (resetsAt s st i) := by
  unfold resetsAt; infer_instance

/-- The hits `is` are scanned from the state `st` without a reset of the within-run
tracking. -/
def noResetAlong (s : Settings) : ScanLocals × NTagEventInfo → List Nat → Prop
  | _, [] => True
  | st, i :: is => ¬ resetsAt s st i ∧ noResetAlong s (scanStep s st i) is

/-- Whether a list of hits is scanned without a reset can be computed. -/
def noResetAlong.decide (s : Settings) :
    (st : ScanLocals × NTagEventInfo) → (is : List Nat) → Decidable (noResetAlong s st is)
  | _, [] => isTrue trivial
  | st, i :: is =>
    match (inferInstance : Decidable (resetsAt s st i)),
        noResetAlong.decide s (scanStep s st i) is with
    | isFalse h1, isTrue h2 => isTrue ⟨h1, h2⟩
    | isTrue h1, _ => isFalse (fun h => h.1 h1)
    | _, isFalse h2 => isFalse (fun h => h2 h.2)

instance (s : Settings) (st : ScanLocals × NTagEventInfo) (is : List Nat) :
    Decidable (noResetAlong s st is) := noResetAlong.decide s st is

/-- The bookkeeping of the emitted candidates is consistent: `nCandidates` counts the
recorded seed indices, the recorded `N10` and `N200` are those of the seeds, and every
recorded `N10` lies in `[N10TH, N10MX]`. -/
def candidatesOK (s : Settings) (e : NTagEventInfo) : Prop :=
  e.nCandidates = e.vFirstHitID.length ∧
  e.vN10 = e.vFirstHitID.map (N10 e.vSortedT_ToF) ∧
  e.vN200 = e.vFirstHitID.map (N200 e.vSortedT_ToF) ∧
  ∀ n ∈ e.vN10, s.N10TH ≤ n ∧ n ≤ s.N10MX

/-- The seed `a` comes before the seed `b` and their times differ by more than
`TMINPEAKSEP`. -/
def separated (s : Settings) (T : List ℚ) (a b : Nat) : Prop :=
  a < b ∧ elemAt T b - elemAt T a > s.TMINPEAKSEP

/-- The state of the hit loop before the iteration `n`, for an ascending sequence `T`: either no
hit has passed the tests yet, or the pending seed `b` is one of the hits seen, passes the
tests, and every emitted seed comes before it by more than `TMINPEAKSEP`. -/
def scanInv (s : Settings) (T : List ℚ) (n : Nat) (st : ScanLocals × NTagEventInfo) : Prop :=
  (st.1 = scanInit ∧ st.2.vFirstHitID = []) ∨
  (∃ b, b < n ∧ qualifies s T b ∧ seedIs T st.1 b ∧
    List.Pairwise (separated s T) st.2.vFirstHitID ∧
    ∀ c ∈ st.2.vFirstHitID, separated s T c b)

/-- The times are in ascending (non-decreasing) order. -/
def ascending (T : List ℚ) : Prop :=
  ∀ i j, i ≤ j → j < T.length → elemAt T i ≤ elemAt T j

/-- The hits `a, …, a + m - 1` are exactly the hits from `a` on that lie within 10 ns of the
hit `a`: a dense cluster of `m` hits whose first hit is `a`. -/
def clusterAt (T : List ℚ) (a m : Nat) : Prop :=
  1 ≤ m ∧ a + m ≤ T.length ∧
  (∀ j, a ≤ j → j < a + m → elemAt T j - elemAt T a ≤ 10) ∧
  (a + m < T.length → elemAt T (a + m) - elemAt T a > 10)

/-- The hypotheses of the single-cluster property of the peak search: an ascending sequence
with one cluster of `m` hits at `a`, `N10TH ≤ m ≤ N10MX`, the cluster time not below `T0TH`,
`TMINPEAKSEP ≥ 10`, and every hit outside the cluster with `N10` below `N10TH`. -/
def singleCluster (s : Settings) (T : List ℚ) (a m : Nat) : Prop :=
  ascending T ∧ clusterAt T a m ∧
  s.N10TH ≤ (m : Int) ∧ (m : Int) ≤ s.N10MX ∧
  s.T0TH ≤ elemAt T a * (1 / 1000) ∧ 10 ≤ s.TMINPEAKSEP ∧
  (∀ j, j < T.length → (j < a ∨ a + m ≤ j) → N10 T j < s.N10TH)

/-- The hypotheses of the two-nearby-clusters property of the peak search: an ascending
sequence with a cluster of `mA` hits at `a` followed by a cluster of `mB` hits at `b`, both
sizes in `[N10TH, N10MX]`, the first cluster not below `T0TH`, every hit outside the two
clusters with `N10` below `N10TH`, and the start times less than `TMINPEAKSEP` apart. -/
def twoClusters (s : Settings) (T : List ℚ) (a mA b mB : Nat) : Prop :=
  ascending T ∧ clusterAt T a mA ∧ clusterAt T b mB ∧ a + mA ≤ b ∧
  s.N10TH ≤ (mA : Int) ∧ (mA : Int) ≤ s.N10MX ∧ s.N10TH ≤ (mB : Int) ∧ (mB : Int) ≤ s.N10MX ∧
  s.T0TH ≤ elemAt T a * (1 / 1000) ∧
  (∀ j, j < T.length → (j < a ∨ (a + mA ≤ j ∧ j < b) ∨ b + mB ≤ j) → N10 T j < s.N10TH) ∧
  elemAt T b - elemAt T a < s.TMINPEAKSEP

/-- The hit `j` is the earliest hit of the list `L` that attains the maximal `N10` among the
hits of `L` that pass the tests of the loop. -/
def earliestBest (s : Settings) (T : List ℚ) (L : List Nat) (j : Nat) : Prop :=
  ∃ pre post, L = pre ++ j :: post ∧ qualifies s T j ∧
    (∀ k ∈ pre, qualifies s T k → N10 T k < N10 T j) ∧
    (∀ k ∈ post, qualifies s T k → N10 T k ≤ N10 T j)

end NTagEventInfo

/-! ## The vertex fit by minimisation of the time RMS -/

/-- Tank constants and external functions used by the grid fit of `NTagEventInfo`: `RINTK`
and `ZPINTK` are the macros of `geotnkC.h` (radius and half height of the inner tank);
`sqrt` is the square root of `<cmath>`; `GetToF vertex pmtID` is
`NTagEventInfo::GetToF` (the distance from `PMTXYZ[pmtID]` to the vertex over `C_WATER`, a
square root over the PMT position table, hence kept abstract). -/
structure Tank where
  RINTK : ℚ
  ZPINTK : ℚ
  sqrt : ℚ → ℚ
  GetToF : TVector3 → Int → ℚ

namespace NTagEventInfo

/-- The conversion `(int)` of a floating-point value: truncation towards zero. -/
def truncToInt (q : ℚ) : Int := if 0 ≤ q then ⌊q⌋ else ⌈q⌉

/-- The method `NTagEventInfo::GetToFSubtracted(T, PMTID, vertex, doSort)`; `TMath::Sort` with
`down = false` orders the corrected times ascending. -/
def GetToFSubtracted (tk : Tank) (T : List ℚ) (PMTID : List Int) (vertex : TVector3)
    (doSort : Bool) : List ℚ :=
  let t_ToF := (List.range T.length).map
    (fun iHit => elemAt T iHit - tk.GetToF vertex (PMTID.getD iHit 0 - 1))
  if doSort then t_ToF.insertionSort (fun a b => a ≤ b) else t_ToF

/-- The method `NTagEventInfo::GetTRMS(T)`. -/
def GetTRMS (tk : Tank) (T : List ℚ) : ℚ :=
  let nHits : ℚ := (T.length : ℚ)
  let tMean := T.foldl (fun acc t => acc + t / nHits) 0
  let tVar := T.foldl (fun acc t => acc + (t - tMean) * (t - tMean) / nHits) 0
  tk.sqrt tVar

/-- The method `NTagEventInfo::Norm(x, y, z)`. -/
def Norm (tk : Tank) (x y z : ℚ) : ℚ := tk.sqrt (x * x + y * y + z * z)

/-- The locals of `MinimizeTRMS` that the `while` loop updates.  The pointer `minTPointer` is
declared without an initial value and is only ever assigned `&t_ToF`; the field `minTPointer`
records whether it has been assigned. -/
structure FitLocals where
  delta : ℚ
  vecR : TVector3
  tmpVertex : TVector3
  minTRMS : ℚ
  minTPointer : Bool
deriving DecidableEq

/-- The coordinate `delta * (k - n/2.) + c` of a search vertex. -/
def srcCoord (delta : ℚ) (n : Int) (k : Nat) (c : ℚ) : ℚ := delta * ((k : ℚ) - (n : ℚ) / 2) + c

/-- The search vertices of one pass of the three nested `for` loops that reach the
evaluation, in loop order: those that pass the three `continue` tests. -/
def gridPoints (tk : Tank) (VTXSRCRANGE : ℚ) (rMax zMax : Int) (delta : ℚ) (vecR : TVector3) :
    List TVector3 :=
  (List.range rMax.toNat).flatMap (fun x =>
    (List.range rMax.toNat).flatMap (fun y =>
      if tk.sqrt (srcCoord delta rMax x vecR.x * srcCoord delta rMax x vecR.x +
          srcCoord delta rMax y vecR.y * srcCoord delta rMax y vecR.y) > tk.RINTK then []
      else
        (List.range zMax.toNat).flatMap (fun z =>
          if srcCoord delta zMax z vecR.z > tk.ZPINTK ∨ srcCoord delta zMax z vecR.z < -tk.ZPINTK
          then []
          else if Norm tk (srcCoord delta rMax x vecR.x - vecR.x)
              (srcCoord delta rMax y vecR.y - vecR.y)
              (srcCoord delta zMax z vecR.z - vecR.z) > VTXSRCRANGE then []
          else [⟨srcCoord delta rMax x vecR.x, srcCoord delta rMax y vecR.y,
                 srcCoord delta zMax z vecR.z⟩])))

/-- The value `tRMS` computed for a search vertex: `GetTRMS(GetToFSubtracted(T, PMTID,
srcVertex, doSort))` with `doSort = true`. -/
def tRMSAt (tk : Tank) (T : List ℚ) (PMTID : List Int) (srcVertex : TVector3) : ℚ :=
  GetTRMS tk (GetToFSubtracted tk T PMTID srcVertex true)

/-- The evaluation of one search vertex: the state is `minTRMS`, `tmpVertex` and whether
`minTPointer` has been assigned. -/
def evalPoint (tk : Tank) (T : List ℚ) (PMTID : List Int) (st : ℚ × TVector3 × Bool)
    (srcVertex : TVector3) : ℚ × TVector3 × Bool :=
  if tRMSAt tk T PMTID srcVertex < st.1 then (tRMSAt tk T PMTID srcVertex, srcVertex, true)
  else st

/-- One round of the `while` loop of `MinimizeTRMS`: the pass over the grid, then
`vecR = tmpVertex` and `delta = delta / 2`. -/
def fitRound (tk : Tank) (VTXSRCRANGE : ℚ) (rMax zMax : Int) (T : List ℚ) (PMTID : List Int)
    (st : FitLocals) : FitLocals :=
  let r := (gridPoints tk VTXSRCRANGE rMax zMax st.delta st.vecR).foldl
    (evalPoint tk T PMTID) (st.minTRMS, st.tmpVertex, st.minTPointer)
  { delta := st.delta / 2, vecR := r.2.1, tmpVertex := r.2.1, minTRMS := r.1,
    minTPointer := r.2.2 }

/-- The `while (delta > 0.5)` loop of `MinimizeTRMS`, with the number of rounds still allowed
as first argument. -/
def fitLoop (tk : Tank) (VTXSRCRANGE : ℚ) (rMax zMax : Int) (T : List ℚ) (PMTID : List Int) :
    Nat → FitLocals → FitLocals
  | 0, st => st
  | fuel + 1, st =>
    if st.delta > 1 / 2 then
      fitLoop tk VTXSRCRANGE rMax zMax T PMTID fuel (fitRound tk VTXSRCRANGE rMax zMax T PMTID st)
    else st

/-- The initial step `delta` of `MinimizeTRMS`. -/
def fitDelta (VTXSRCRANGE : ℚ) : ℚ := if VTXSRCRANGE > 200 then 100 else VTXSRCRANGE / 2

/-- The grid size `rMax` of `MinimizeTRMS`, computed once before the loop. -/
def fitRMax (tk : Tank) (VTXSRCRANGE : ℚ) : Int := truncToInt (2 * tk.RINTK / fitDelta VTXSRCRANGE)

/-- The grid size `zMax` of `MinimizeTRMS`, computed once before the loop. -/
def fitZMax (tk : Tank) (VTXSRCRANGE : ℚ) : Int := truncToInt (2 * tk.ZPINTK / fitDelta VTXSRCRANGE)

/-- The locals of `MinimizeTRMS` before the loop. -/
def fitStart (VTXSRCRANGE : ℚ) : FitLocals :=
  { delta := fitDelta VTXSRCRANGE, vecR := TVector3.zero, tmpVertex := TVector3.zero,
    minTRMS := 9999, minTPointer := false }

/-- The locals of `MinimizeTRMS` after the loop.  The step starts at 100 at most and is
halved in every round, so the loop leaves by its own test within eight rounds. -/
def fitEnd (tk : Tank) (VTXSRCRANGE : ℚ) (T : List ℚ) (PMTID : List Int) : FitLocals :=
  fitLoop tk VTXSRCRANGE (fitRMax tk VTXSRCRANGE) (fitZMax tk VTXSRCRANGE) T PMTID 8
    (fitStart VTXSRCRANGE)

/-- The method `NTagEventInfo::MinimizeTRMS(T, PMTID, rmsFitVertex)` for the search range
`VTXSRCRANGE`: the returned value `minTRMS` and the vertex written to `rmsFitVertex`.  The
method starts with `assert(nHits == PMTID.size())`.  After the loop,
`TMath::Sort(nHits, minTPointer->data(), index, false)` reads through `minTPointer` and
writes `nHits` entries to the local `int index[1000]`: when the pointer was never assigned or
there are more than 1000 hits its behaviour is undefined.  In these cases the method has no
result in the model (`none`). -/
def MinimizeTRMS (tk : Tank) (VTXSRCRANGE : ℚ) (T : List ℚ) (PMTID : List Int) :
    Option (ℚ × TVector3) :=
  if T.length = PMTID.length ∧ (fitEnd tk VTXSRCRANGE T PMTID).minTPointer = true ∧
      T.length ≤ 1000 then
    some ((fitEnd tk VTXSRCRANGE T PMTID).minTRMS, (fitEnd tk VTXSRCRANGE T PMTID).vecR)
  else none

/-! ### Vocabulary of the statements about the grid fit -/

/-- The locals at the start of each round that the loop runs, in order. -/
def fitRounds (tk : Tank) (VTXSRCRANGE : ℚ) (rMax zMax : Int) (T : List ℚ) (PMTID : List Int) :
    Nat → FitLocals → List FitLocals
  | 0, _ => []
  | fuel + 1, st =>
    if st.delta > 1 / 2 then
      st :: fitRounds tk VTXSRCRANGE rMax zMax T PMTID fuel
        (fitRound tk VTXSRCRANGE rMax zMax T PMTID st)
    else []

/-- The rounds run by `MinimizeTRMS`. -/
def fitTrace (tk : Tank) (VTXSRCRANGE : ℚ) (T : List ℚ) (PMTID : List Int) : List FitLocals :=
  fitRounds tk VTXSRCRANGE (fitRMax tk VTXSRCRANGE) (fitZMax tk VTXSRCRANGE) T PMTID 8
    (fitStart VTXSRCRANGE)

/-- The search vertices evaluated in the round that starts with the locals `st`. -/
def evaluatedIn (tk : Tank) (VTXSRCRANGE : ℚ) (st : FitLocals) : List TVector3 :=
  gridPoints tk VTXSRCRANGE (fitRMax tk VTXSRCRANGE) (fitZMax tk VTXSRCRANGE) st.delta st.vecR

/-- The vertex lies inside the tank cylinder, by the tests of the grid loops. -/
def inTank (tk : Tank) (v : TVector3) : Prop :=
  tk.sqrt (v.x * v.x + v.y * v.y) ≤ tk.RINTK ∧ -tk.ZPINTK ≤ v.z ∧ v.z ≤ tk.ZPINTK

end NTagEventInfo

/-- Newton's iteration `x ↦ (x + n / x) / 2` for the integer square root of `n`, run while it
decreases, with the number of steps still allowed as first argument. -/
def sqrtIter (n : Nat) : Nat → Nat → Nat
  | 0, x => x
  | fuel + 1, x => if (x + n / x) / 2 < x then sqrtIter n fuel ((x + n / x) / 2) else x

/-- A stand-in for the square root of `<cmath>` on examples: the iteration above on the
argument in units of `1/1000000`, started above the root, read in units of `1/1000`. -/
def exampleSqrt (q : ℚ) : ℚ :=
  ((sqrtIter ⌊q * 1000000⌋.toNat 100 (⌊q * 1000000⌋.toNat + 1) : Nat) : ℚ) / 1000

/-- A concrete tank for evaluating the model on examples: the inner-tank radius and half
height of Super-Kamiokande in cm, the stand-in square root, and a stand-in travel time that
depends on the vertex and the channel. -/
def exampleTank : Tank :=
  { RINTK := 1690, ZPINTK := 1810, sqrt := exampleSqrt,
    GetToF := fun v i => (|v.x| + |v.y| + |v.z|) / 20 + (i : ℚ) / 1000 }

/-- A stand-in travel time for PMTs far away on the six half axes (channels 1 to 6, indices 0
to 5 of the position table): the travel time from the tank centre, 1000, minus the component
of the vertex towards the PMT (a plane wave). -/
def planeWaveToF (v : TVector3) (i : Int) : ℚ :=
  if i = 0 then 1000 - v.x else if i = 1 then 1000 + v.x
  else if i = 2 then 1000 - v.y else if i = 3 then 1000 + v.y
  else if i = 4 then 1000 - v.z else if i = 5 then 1000 + v.z
  else 1000

/-- A small tank for evaluating whole fits on examples: radius and half height 3, the
stand-in square root and the plane-wave travel times. -/
def smallTank : Tank :=
  { RINTK := 3, ZPINTK := 3, sqrt := exampleSqrt, GetToF := planeWaveToF }

/-- The hit vectors of the event record filled from the common block `sktqz_`. -/
structure RawHitVectors where
  vTISKZ : List ℚ
  vQISKZ : List ℚ
  vCABIZ : List Int
  nqiskz : Int
deriving DecidableEq

/-- The arguments passed to the external routine `bonsai_fit_`. -/
structure BonsaiInput where
  bData : Bool
  time0 : ℚ
  tiskz1300 : List ℚ
  qiskz1300 : List ℚ
  cabiz1300 : List Int
  n1300hits : Int

/-- The nine output variables of the external fit for one candidate.  The likelihood
`tbspatlik` may be minus infinity (the bottom element). -/
structure BonsaiFit where
  tbsenergy : ℚ
  tbsvx : ℚ
  tbsvy : ℚ
  tbsvz : ℚ
  tbsvt : ℚ
  tbsgood : ℚ
  tbsdirks : ℚ
  tbspatlik : WithBot ℚ
  tbsovaq : ℚ

namespace NTagEventInfo

/-- One iteration of the loop over all hits for a candidate with time `dtc`: the state is
`index50` and `index1300` (`n50hits` and `n1300hits` are their sizes). -/
def windowStep (vUnsortedT_ToF : List ℚ) (dtc : ℚ) (st : List Nat × List Nat) (iHit : Nat) :
    List Nat × List Nat :=
  let st1 := if |elemAt vUnsortedT_ToF iHit - dtc| < 25 then (st.1 ++ [iHit], st.2) else st
  if elemAt vUnsortedT_ToF iHit > dtc - 2604 / 5 ∧ elemAt vUnsortedT_ToF iHit < dtc + 3896 / 5 then
    if (st1.2.length : Int) < 1000 then (st1.1, st1.2 ++ [iHit]) else st1
  else st1

/-- The vector `index1300` of a candidate after the loop over all hits. -/
def index1300 (vUnsortedT_ToF : List ℚ) (nqiskz : Int) (dtc : ℚ) : List Nat :=
  ((List.range nqiskz.toNat).foldl (windowStep vUnsortedT_ToF dtc) ([], [])).2

/-- The counter `n1300hits` of a candidate after the loop over all hits. -/
def n1300hits (vUnsortedT_ToF : List ℚ) (nqiskz : Int) (dtc : ℚ) : Int :=
  ((index1300 vUnsortedT_ToF nqiskz dtc).length : Int)

/-- The values stored for the failure branch of the external fit. -/
def bonsaiSentinel : BonsaiFit :=
  { tbsenergy := 0, tbsvx := 9999, tbsvy := 9999, tbsvz := 9999, tbsvt := 0, tbsgood := 0,
    tbsdirks := 1, tbspatlik := ((0 : ℚ) : WithBot ℚ), tbsovaq := -1 }

/-- The arguments of the call `bonsai_fit_(&bData, &time0, tiskz1300, qiskz1300, cabiz1300,
&n1300hits, ...)` for a candidate with time `dtc`: the hits of `index1300`. -/
def bonsaiArgs (bData : Bool) (raw : RawHitVectors) (vUnsortedT_ToF : List ℚ) (dtc : ℚ) :
    BonsaiInput :=
  { bData := bData, time0 := dtc,
    tiskz1300 := (index1300 vUnsortedT_ToF raw.nqiskz dtc).map (fun i => elemAt raw.vTISKZ i),
    qiskz1300 := (index1300 vUnsortedT_ToF raw.nqiskz dtc).map (fun i => elemAt raw.vQISKZ i),
    cabiz1300 := (index1300 vUnsortedT_ToF raw.nqiskz dtc).map (fun i => raw.vCABIZ.getD i 0),
    n1300hits := n1300hits vUnsortedT_ToF raw.nqiskz dtc }

/-- The values of the nine fit variables of a candidate before the likelihood is clamped:
the failure values when `n1300hits` is above 999 or below 50, otherwise the output of the
external routine `bonsai_fit_`, a parameter of the model. -/
def bonsaiBeforeClamp (bonsai_fit : BonsaiInput → BonsaiFit) (bData : Bool)
    (raw : RawHitVectors) (vUnsortedT_ToF : List ℚ) (dtc : ℚ) : BonsaiFit :=
  if n1300hits vUnsortedT_ToF raw.nqiskz dtc > 999 ∨ n1300hits vUnsortedT_ToF raw.nqiskz dtc < 50
  then bonsaiSentinel
  else bonsai_fit (bonsaiArgs bData raw vUnsortedT_ToF dtc)

/-- The external vertex fit of one candidate in `SearchCaptureCandidates`: the values recorded
for the candidate (`vBSvx`, `vBSvy`, `vBSvz`, `vBSReconCT`, `BSenergy`, `BSgood`, `BSdirks`,
`BSpatlik`, `BSovaq`), after `if (tmptbspatlik < -9999.) tmptbspatlik = -9999.`. -/
def BonsaiOfCandidate (bonsai_fit : BonsaiInput → BonsaiFit) (bData : Bool)
    (raw : RawHitVectors) (vUnsortedT_ToF : List ℚ) (dtc : ℚ) : BonsaiFit :=
  if (bonsaiBeforeClamp bonsai_fit bData raw vUnsortedT_ToF dtc).tbspatlik <
      ((-9999 : ℚ) : WithBot ℚ) then
    { bonsaiBeforeClamp bonsai_fit bData raw vUnsortedT_ToF dtc with
      tbspatlik := ((-9999 : ℚ) : WithBot ℚ) }
  else bonsaiBeforeClamp bonsai_fit bData raw vUnsortedT_ToF dtc

end NTagEventInfo

/-! ## Truth matching -/

/-- The members of `NTagEventInfo` read by the truth matching: `nAllSec`, the true capture
times `vTrueCT` (`nTrueCaptures` is its size), `trgOffset`, `TMATCHWINDOW`, the candidate
times stored under "ReconCT", and `nCandidates`. -/
structure MCTruth where
  nAllSec : Int
  vTrueCT : List ℚ
  trgOffset : ℚ
  TMATCHWINDOW : ℚ
  vReconCT : List ℚ
  nCandidates : Nat

/-- The vectors written by `SetTrueCaptureInfo`, and its local vector `checkedCT`. -/
structure TruthVectors where
  vIsCapture : List Int
  vDoubleCount : List Int
  vCTDiff : List ℚ
  checkedCT : List ℚ
deriving DecidableEq

namespace NTagEventInfo

/-- The macro `MAXNSCNDPRT`. -/
def MAXNSCNDPRT : Int := 4000

/-- The method `NTagEventInfo::ReconCaptureTime(candidateID)`. -/
def ReconCaptureTime (m : MCTruth) (candidateID : Nat) : ℚ :=
  elemAt m.vReconCT candidateID - m.trgOffset

/-- The loop of `IsCapture` over the true captures. -/
def IsCaptureLoop (tRecon TMATCHWINDOW : ℚ) : List ℚ → Int
  | [] => 0
  | t :: rest => if |t - tRecon| < TMATCHWINDOW then 1 else IsCaptureLoop tRecon TMATCHWINDOW rest

/-- The method `NTagEventInfo::IsCapture(candidateID, bSave)`: the returned value (the push to
`vCandidateID` for `bSave` is not part of the model). -/
def IsCapture (m : MCTruth) (candidateID : Nat) : Int :=
  if m.nAllSec ≥ MAXNSCNDPRT then -1
  else IsCaptureLoop (ReconCaptureTime m candidateID) m.TMATCHWINDOW m.vTrueCT

/-- The loop of `TrueCaptureTime` over the true captures. -/
def TrueCaptureTimeLoop (tRecon TMATCHWINDOW : ℚ) : List ℚ → ℚ
  | [] => -9999
  | t :: rest =>
    if |t - tRecon| < TMATCHWINDOW then t else TrueCaptureTimeLoop tRecon TMATCHWINDOW rest

/-- The method `NTagEventInfo::TrueCaptureTime(candidateID)`. -/
def TrueCaptureTime (m : MCTruth) (candidateID : Nat) : ℚ :=
  if m.nAllSec ≥ MAXNSCNDPRT then -1
  else TrueCaptureTimeLoop (ReconCaptureTime m candidateID) m.TMATCHWINDOW m.vTrueCT

/-- One iteration of the loop of `SetTrueCaptureInfo` over the candidates (the true capture
vertex and the Gd flag, which no other vector depends on, are left out). -/
def truthStep (m : MCTruth) (st : TruthVectors) (iCandidate : Nat) : TruthVectors :=
  let vIsCapture : List Int := st.vIsCapture ++ [IsCapture m iCandidate]
  if vIsCapture.getD iCandidate 0 = 1 then
    let vDoubleCount : List Int := st.vDoubleCount ++ [0]
    let vCTDiff : List ℚ :=
      st.vCTDiff ++ [ReconCaptureTime m iCandidate - TrueCaptureTime m iCandidate]
    let newCaptureFound : Bool :=
      !(st.checkedCT.any (fun CTinList =>
          decide (|TrueCaptureTime m iCandidate - CTinList| < 1 / 1000)))
    if newCaptureFound = true then
      { vIsCapture := vIsCapture, vDoubleCount := vDoubleCount, vCTDiff := vCTDiff,
        checkedCT := st.checkedCT ++ [TrueCaptureTime m iCandidate] }
    else if |vCTDiff.getD iCandidate 0| < |vCTDiff.getD (iCandidate - 1) 0| then
      { vIsCapture := vIsCapture.set (iCandidate - 1) 0,
        vDoubleCount := vDoubleCount.set (iCandidate - 1) 1, vCTDiff := vCTDiff,
        checkedCT := st.checkedCT }
    else
      { vIsCapture := vIsCapture.set iCandidate 0,
        vDoubleCount := vDoubleCount.set iCandidate 1, vCTDiff := vCTDiff,
        checkedCT := st.checkedCT }
  else
    { vIsCapture := vIsCapture, vDoubleCount := st.vDoubleCount ++ [0],
      vCTDiff := st.vCTDiff ++ [0], checkedCT := st.checkedCT }

/-- The vectors of a cleared event. -/
def truthCleared : TruthVectors :=
  { vIsCapture := [], vDoubleCount := [], vCTDiff := [], checkedCT := [] }

/-- The method `NTagEventInfo::SetTrueCaptureInfo()` on the vectors `st`. -/
def SetTrueCaptureInfo (m : MCTruth) (st : TruthVectors) : TruthVectors :=
  (List.range m.nCandidates).foldl (truthStep m) { st with checkedCT := [] }

/-- The method `NTagEventInfo::GetTMVAOutput()`: the vector `vTMVAOutput` after the call, with
the external classifier `TMVATools.GetOutputFromCandidate` as a parameter. -/
def GetTMVAOutput (useTMVA : Bool) (GetOutputFromCandidate : Nat → ℚ) (nCandidates : Nat)
    (vTMVAOutput : List ℚ) : List ℚ :=
  if useTMVA then
    (List.range nCandidates).foldl
      (fun v iCandidate => v ++ [GetOutputFromCandidate iCandidate]) vTMVAOutput
  else vTMVAOutput

/-! ### Vocabulary of the statements about truth matching -/

/-- The time difference stored in `vCTDiff` for a candidate that is a true capture. -/
def ctDiff (m : MCTruth) (i : Nat) : ℚ := ReconCaptureTime m i - TrueCaptureTime m i

/-- The state of the loop of `SetTrueCaptureInfo` before iteration `i`: the three vectors have
`i` entries; `vCTDiff` holds the time difference of the true captures and 0 elsewhere; the
capture time of every true capture seen is within 0.001 of a checked one; and every
candidate `j` still labelled 1 is a true capture that was recorded as a new capture or beat
candidate `j - 1`, and was not beaten by candidate `j + 1`. -/
def truthInv (m : MCTruth) (i : Nat) (st : TruthVectors) : Prop :=
  st.vIsCapture.length = i ∧ st.vDoubleCount.length = i ∧ st.vCTDiff.length = i ∧
  (∀ j, j < i → st.vCTDiff.getD j 0 = if IsCapture m j = 1 then ctDiff m j else 0) ∧
  (∀ j, j < i → IsCapture m j = 1 →
    ∃ c ∈ st.checkedCT, |TrueCaptureTime m j - c| < 1 / 1000) ∧
  (∀ j, j < i → st.vIsCapture.getD j 0 = 1 →
    IsCapture m j = 1 ∧
    ((∀ j', j' < j → IsCapture m j' = 1 → TrueCaptureTime m j' ≠ TrueCaptureTime m j) ∨
      (1 ≤ j ∧ IsCapture m (j - 1) = 1 ∧ |ctDiff m j| < |ctDiff m (j - 1)|)) ∧
    (j + 1 < i → IsCapture m (j + 1) = 1 →
      TrueCaptureTime m (j + 1) = TrueCaptureTime m j →
      ¬ |ctDiff m (j + 1)| < |ctDiff m j|))

/-! ### Hit ingestion into the event record -/

end NTagEventInfo

/-- One hit of the common block `sktqz_`: `tiskz`, `qiskz`, `icabiz` and `ihtiflz` at one
index. -/
structure RawHit where
  tiskz : ℚ
  qiskz : ℚ
  icabiz : Int
  ihtiflz : Int
deriving DecidableEq

namespace NTagEventInfo

/-- One iteration of the loop of `AppendRawHitInfo`: the state is the locals `tOffset` and
`coincidenceFound` and the hit vectors. -/
def appendRawStep (tLast qLast : ℚ) (pmtLast : Int) (st : (ℚ × Bool) × RawHitVectors)
    (hit : RawHit) : (ℚ × Bool) × RawHitVectors :=
  let loc : ℚ × Bool :=
    if st.1.2 = false ∧ hit.qiskz = qLast ∧ hit.icabiz = pmtLast then (tLast - hit.tiskz, true)
    else st.1
  if Int.testBit hit.ihtiflz 1 = true then
    (loc, { st.2 with
      vTISKZ := st.2.vTISKZ ++ [hit.tiskz + loc.1]
      vQISKZ := st.2.vQISKZ ++ [hit.qiskz]
      vCABIZ := st.2.vCABIZ ++ [hit.icabiz] })
  else (loc, st.2)

/-- The method `NTagEventInfo::AppendRawHitInfo()` with the hits of `sktqz_` as a list. -/
def AppendRawHitInfo (e : RawHitVectors) (sktqz : List RawHit) : RawHitVectors :=
  let tLast := if e.vTISKZ.isEmpty then 0 else e.vTISKZ.getLastD 0
  let qLast := if e.vTISKZ.isEmpty then 0 else e.vQISKZ.getLastD 0
  let pmtLast := if e.vTISKZ.isEmpty then 0 else e.vCABIZ.getLastD 0
  let coincidenceFound := e.vTISKZ.isEmpty
  let r := (sktqz.foldl (appendRawStep tLast qLast pmtLast) ((0, coincidenceFound), e)).2
  { r with nqiskz := (r.vTISKZ.length : Int) }

end NTagEventInfo

/-! ## The angular statistics -/

/-- A floating-point division as far as the model follows it: the exact quotient, and no
number (`none`, the NaN of `0./0.`) when the divisor is zero. -/
def floatDiv (a : Option ℚ) (b : ℚ) : Option ℚ :=
  a.bind (fun x => if b = 0 then none else some (x / b))

/-- The index pairs of the loops `for (i = 0; i < nHits-1; i++) for (j = i+1; j < nHits; j++)`,
in loop order. -/
def betaPairs (nHits : Nat) : List (Nat × Nat) :=
  (List.range (nHits - 1)).flatMap
    (fun i => (List.range' (i + 1) (nHits - (i + 1))).map (fun j => (i, j)))

/-- The array `beta` after the pair loops of `GetBetaArray`: for every pair the Legendre
values of `cosTheta` are added to `beta[1] .. beta[5]`. -/
def betaAccumulate (LegendreP : Int → ℚ → ℚ) (cosTheta : Nat → Nat → ℚ) (nHits : Nat) :
    List ℚ :=
  (betaPairs nHits).foldl
    (fun beta p => (List.range 6).map (fun k =>
      if 1 ≤ k then beta.getD k 0 + LegendreP (k : Int) (cosTheta p.1 p.2) else beta.getD k 0))
    [0, 0, 0, 0, 0, 0]

/-- The loop `for (k = 1; k <= 5; k++) beta[k] = 2.*beta[k] / float(nHits) / float(nHits-1)`. -/
def betaNormalise (beta : List ℚ) (nHits : Nat) : List (Option ℚ) :=
  (List.range 6).map (fun k =>
    if 1 ≤ k then floatDiv (floatDiv (some (2 * beta.getD k 0)) (nHits : ℚ)) ((nHits : ℚ) - 1)
    else some (beta.getD k 0))

/-- The product `TVector3::Dot`. -/
def TVector3.Dot (a b : TVector3) : ℚ := a.x * b.x + a.y * b.y + a.z * b.z

/-- The method `PMTHitCluster::GetBetaArray()`.  The function `GetLegendreP` it calls comes
from `Calculator.hh`, which is not among the sources, and is a parameter; `GetDirection()`
is read as the stored hit direction. -/
def PMTHitCluster.GetBetaArray (LegendreP : Int → ℚ → ℚ) (c : PMTHitCluster) :
    List (Option ℚ) :=
  if !c.fHasVertex then [some 0, some 0, some 0, some 0, some 0, some 0]
  else if c.fElement.length = 0 then [some 0, some 0, some 0, some 0, some 0, some 0]
  else
    betaNormalise
      (betaAccumulate LegendreP
        (fun i j => TVector3.Dot (PMTHitCluster.elemOf c.fElement i).fHitDirection
          (PMTHitCluster.elemOf c.fElement j).fHitDirection)
        c.fElement.length)
      c.fElement.length

namespace NTagEventInfo

/-- The method `NTagEventInfo::GetLegendreP(i, x)`; for `i` outside `1..5` the result keeps
its initial value 0. -/
def GetLegendreP (i : Int) (x : ℚ) : ℚ :=
  if i = 1 then x
  else if i = 2 then (3 * x * x - 1) / 2
  else if i = 3 then (5 * x * x * x - 3 * x) / 2
  else if i = 4 then (35 * x * x * x * x - 30 * x * x + 3) / 8
  else if i = 5 then (63 * x * x * x * x * x - 70 * x * x * x + 15 * x) / 8
  else 0

/-- The method `NTagEventInfo::GetBetaArray(PMTID, startIndex, nHits)`.  The value `cosTheta`
of two hits of the window is computed from the PMT position table and the prompt vertex and
is a parameter. -/
def GetBetaArray (cosTheta : Nat → Nat → ℚ) (nHits : Nat) : List (Option ℚ) :=
  if nHits = 0 then [some 0, some 0, some 0, some 0, some 0, some 0]
  else betaNormalise (betaAccumulate GetLegendreP cosTheta nHits) nHits

end NTagEventInfo

/-! ## Clearing the event -/

/-- Members of `NTagEventInfo` that `Clear()` resets: the counters, the stored hit vectors,
the vectors with one entry per candidate (the variables kept in `TMVATools.fVariables`
included, as a map from the variable name to its vector) and the vectors with one entry per
true capture.  The members for rings, secondaries and primaries are cleared by the same
method and are not part of the model. -/
structure EventStore where
  nqiskz : Int
  nCandidates : Int
  maxN200 : Int
  maxN200Time : ℚ
  firstHitTime_ToF : ℚ
  trgOffset : ℚ
  nTrueCaptures : Int
  nSavedSec : Int
  nAllSec : Int
  vTISKZ : List ℚ
  vQISKZ : List ℚ
  vCABIZ : List Int
  vSortedPMTID : List Int
  vSortedT_ToF : List ℚ
  vUnsortedT_ToF : List ℚ
  vSortedQ : List ℚ
  vFirstHitID : List Int
  vN10n : List Int
  vN1300 : List Int
  vTRMS10n : List ℚ
  vTRMS50 : List ℚ
  vReconCTn : List ℚ
  vNvx : List ℚ
  vNvy : List ℚ
  vNvz : List ℚ
  vDoubleCount : List Int
  vBSvx : List ℚ
  vBSvy : List ℚ
  vBSvz : List ℚ
  vBSReconCT : List ℚ
  vBeta14_10 : List ℚ
  vBeta14_50 : List ℚ
  vTMVAOutput : List ℚ
  fVariables : String → List ℚ
  vCandidateID : List Int
  vIsGdCapture : List Int
  vIsCapture : List Int
  vTrueCapVX : List ℚ
  vTrueCapVY : List ℚ
  vTrueCapVZ : List ℚ
  vCTDiff : List ℚ
  vNGamma : List Int
  vTrueCT : List ℚ
  vCapVX : List ℚ
  vCapVY : List ℚ
  vCapVZ : List ℚ
  vTotGammaE : List ℚ

/-- Modelled from the spec: `TMVATools.fVariables.Clear()` belongs to the class of the
classifier variables, which is not among the sources.  The event record is cleared at the
start of each event, so the call leaves every variable vector empty. -/
def fVariablesClear (_ : String → List ℚ) : String → List ℚ := fun _ => []

/-- The method `NTagEventInfo::Clear()` on the members of the model. -/
def EventStore.Clear (e : EventStore) : EventStore :=
  { nqiskz := 0, nCandidates := 0, maxN200 := 0, maxN200Time := -9999,
    firstHitTime_ToF := -9999, trgOffset := 1000,
    nTrueCaptures := 0, nSavedSec := 0, nAllSec := 0,
    vTISKZ := [], vQISKZ := [], vCABIZ := [],
    vSortedPMTID := [], vSortedT_ToF := [], vUnsortedT_ToF := [], vSortedQ := [],
    vFirstHitID := [], vN10n := [], vN1300 := [], vTRMS10n := [], vTRMS50 := [],
    vReconCTn := [], vNvx := [], vNvy := [], vNvz := [], vDoubleCount := [],
    vBSvx := [], vBSvy := [], vBSvz := [], vBSReconCT := [],
    vBeta14_10 := [], vBeta14_50 := [], vTMVAOutput := [],
    fVariables := fVariablesClear e.fVariables,
    vCandidateID := [], vIsGdCapture := [], vIsCapture := [],
    vTrueCapVX := [], vTrueCapVY := [], vTrueCapVZ := [], vCTDiff := [],
    vNGamma := [], vTrueCT := [], vCapVX := [], vCapVY := [], vCapVZ := [], vTotGammaE := [] }

/-- The method `PMTHitCluster::Clear()`: `*this = PMTHitCluster()`. -/
def PMTHitCluster.Clear (_ : PMTHitCluster) : PMTHitCluster := PMTHitCluster.empty

/-! ## Index accesses -/

/-- The number of entries of the table `std::array<Float, MAXPM> hitTime` of `ApplyDeadtime`;
its valid indices are `0 .. MAXPM - 1`. -/
def hitTimeSize (g : Geometry) : Int := g.MAXPM

/-- The indices with which the loop of `ApplyDeadtime` accesses `hitTime` while it runs over
the hits `L`: the channel ID of every hit that passes `1 <= hitPMTID && hitPMTID <= MAXPM`. -/
def hitTimeAccesses (g : Geometry) (L : List PMTHit) : List Int :=
  (L.filter (fun hit => decide (1 ≤ hit.i ∧ hit.i ≤ g.MAXPM))).map PMTHit.i

/-- The indices at which `SavePeakFromHit(hitID)` itself reads `vSortedT_ToF`: `hitID` for
`t0` and `hitID + N10i - 1` for `tEnd`. -/
def NTagEventInfo.savePeakReads (e : NTagEventInfo) (hitID : Nat) : List Nat :=
  [hitID,
    (((hitID : Int) + NTagEventInfo.GetNhitsFromStartIndex e.vSortedT_ToF hitID 10 - 1).toNat)]

/-- Element access `v[j]` of a vector that may be read past its end: inside the vector the
element, outside whatever the memory holds there (`beyond j`). -/
def readAt {α : Type} (v : List α) (beyond : Nat → α) (j : Nat) : α :=
  if h : j < v.length then v.get ⟨j, h⟩ else beyond j

/-- The values of `j` for which the body of the loop `for (j = 0; j <= t.size(); j++)` of
`AddTQReal` runs. -/
def AddTQRealIndices (t : List ℚ) : List Nat := List.range (t.length + 1)

/-- The method `PMTHitCluster::AddTQReal(tqreal, flag)` for the vectors `T`, `Q` and `cables`
of the record; `i[j] & 0x0000FFFF` is the remainder modulo `2^16`.  The memory past the end
of the three vectors is a parameter. -/
def PMTHitCluster.AddTQReal (g : Geometry) (c : PMTHitCluster) (t q : List ℚ)
    (cables : List Int) (flag : Int) (beyondT beyondQ : Nat → ℚ) (beyondI : Nat → Int) :
    PMTHitCluster :=
  (AddTQRealIndices t).foldl
    (fun c j => PMTHitCluster.Append g c
      (PMTHit.mk4 (readAt t beyondT j) (readAt q beyondQ j) (readAt cables beyondI j % 65536)
        flag))
    c

/-! ## The refinement of a candidate -/

namespace NTagEventInfo

/-- The vector `index50` of a candidate after the loop over all hits. -/
def index50 (vUnsortedT_ToF : List ℚ) (nqiskz : Int) (dtc : ℚ) : List Nat :=
  ((List.range nqiskz.toNat).foldl (windowStep vUnsortedT_ToF dtc) ([], [])).1

/-- The counter `n50hits` of a candidate after the loop over all hits. -/
def n50hits (vUnsortedT_ToF : List ℚ) (nqiskz : Int) (dtc : ℚ) : Int :=
  ((index50 vUnsortedT_ToF nqiskz dtc).length : Int)

/-- The vector `tiskz50` of a candidate. -/
def tiskz50 (raw : RawHitVectors) (vUnsortedT_ToF : List ℚ) (dtc : ℚ) : List ℚ :=
  (index50 vUnsortedT_ToF raw.nqiskz dtc).map (fun i => elemAt raw.vTISKZ i)

/-- The vector `cabiz50` of a candidate. -/
def cabiz50 (raw : RawHitVectors) (vUnsortedT_ToF : List ℚ) (dtc : ℚ) : List Int :=
  (index50 vUnsortedT_ToF raw.nqiskz dtc).map (fun i => raw.vCABIZ.getD i 0)

/-- The locals of the search for the refined N10: `tmpN10n`, `n10index` and `t0n`. -/
structure RefineLocals where
  tmpN10n : Int
  n10index : Nat
  t0n : ℚ

/-- The body of the loop over `iHit50` that searches the best refined N10. -/
def refineStep (tiskz50_ToF : List ℚ) (st : RefineLocals) (iHit50 : Nat) : RefineLocals :=
  if GetNhitsFromStartIndex tiskz50_ToF iHit50 10 > st.tmpN10n then
    { tmpN10n := GetNhitsFromStartIndex tiskz50_ToF iHit50 10, n10index := iHit50,
      t0n := (elemAt tiskz50_ToF iHit50 +
        elemAt tiskz50_ToF
          (((iHit50 : Int) + GetNhitsFromStartIndex tiskz50_ToF iHit50 10 - 1).toNat)) / 2 }
  else st

/-- The loop `for (iHit50 = 0; iHit50 < n50hits; iHit50++)` of the refinement. -/
def refineScan (tiskz50_ToF : List ℚ) (n50 : Int) : RefineLocals :=
  (List.range n50.toNat).foldl (refineStep tiskz50_ToF) { tmpN10n := 0, n10index := 0, t0n := 0 }

/-- The value pushed to `vN10n` for a candidate with time `dtc`, with `nv` the vertex that
the call `MinimizeTRMS(tiskz50, cabiz50, nv)` has written: the N50 hits are corrected against
`nv`, sorted, and scanned for the best N10. -/
def refinedN10 (tk : Tank) (nv : TVector3) (raw : RawHitVectors) (vUnsortedT_ToF : List ℚ)
    (dtc : ℚ) : Int :=
  (refineScan
    (GetToFSubtracted tk (tiskz50 raw vUnsortedT_ToF dtc) (cabiz50 raw vUnsortedT_ToF dtc)
      nv true)
    (n50hits vUnsortedT_ToF raw.nqiskz dtc)).tmpN10n

/-! ### Vocabulary of the statements about the windows -/

/-- The number of indices `j ≥ i` of `T` with `T[j] - T[i] ≤ w`. -/
def countFrom (T : List ℚ) (i : Nat) (w : ℚ) : Nat :=
  ((List.range T.length).filter (fun j => decide (i ≤ j ∧ elemAt T j - elemAt T i ≤ w))).length

/-- The candidate time recorded for the seed `h`: the midpoint of the first and the last hit
of its 10 ns window. -/
def reconOf (T : List ℚ) (h : Nat) : ℚ :=
  (elemAt T h + elemAt T (((h : Int) + GetNhitsFromStartIndex T h 10 - 1).toNat)) / 2

end NTagEventInfo

/-! ## Lemmas -/

namespace NTagEventInfo

/-! ### The window count `GetNhitsFromStartIndex` -/

theorem GetNhitsLoop_ge (T : List ℚ) (i : Nat) (w : ℚ) :
    ∀ fuel k, k ≤ GetNhitsLoop T i w fuel k := by
  intro fuel
  induction fuel with
  | zero => intro k; simp [GetNhitsLoop]
  | succ f ih =>
    intro k
    simp only [GetNhitsLoop]
    split_ifs with h
    · omega
    · have := ih (k + 1); omega

theorem GetNhitsLoop_succ_gt (T : List ℚ) (i : Nat) (w : ℚ) (fuel k : Nat) :
    k + 1 ≤ GetNhitsLoop T i w (fuel + 1) k := by
  simp only [GetNhitsLoop]
  split_ifs with h
  · omega
  · exact GetNhitsLoop_ge T i w fuel (k + 1)

theorem GetNhitsFromStartIndex_pos (T : List ℚ) (i : Nat) (w : ℚ) :
    1 ≤ GetNhitsFromStartIndex T i w := by
  unfold GetNhitsFromStartIndex
  have h := GetNhitsLoop_succ_gt T i w T.length i
  simp only
  rw [abs_of_nonneg (by omega)]
  omega

/-- The loop counts the run of hits after `i` that stay within `w` of hit `i`. -/
theorem GetNhitsLoop_run (T : List ℚ) (i m : Nat) (w : ℚ)
    (hin : ∀ j, i < j → j < i + m → |elemAt T j - elemAt T i| ≤ w)
    (hlen : i + m ≤ T.length)
    (hout : i + m < T.length → |elemAt T (i + m) - elemAt T i| > w) :
    ∀ fuel k, i ≤ k → k < i + m → i + m ≤ k + fuel →
      GetNhitsLoop T i w fuel k = i + m := by
  intro fuel
  induction fuel with
  | zero => intro k h1 h2 h3; omega
  | succ f ih =>
    intro k h1 h2 h3
    simp only [GetNhitsLoop]
    by_cases hk : k + 1 = i + m
    · have : k + 1 + 1 > T.length ∨ |elemAt T (k + 1) - elemAt T i| > w := by
        by_cases hl : i + m < T.length
        · right; rw [hk]; exact hout hl
        · left; omega
      rw [if_pos this, hk]
    · have : ¬ (k + 1 + 1 > T.length ∨ |elemAt T (k + 1) - elemAt T i| > w) := by
        push_neg
        refine ⟨by omega, hin (k + 1) (by omega) (by omega)⟩
      rw [if_neg this]
      exact ih (k + 1) (by omega) (by omega) (by omega)

theorem GetNhitsFromStartIndex_run (T : List ℚ) (i m : Nat) (w : ℚ) (hm : 1 ≤ m)
    (hin : ∀ j, i < j → j < i + m → |elemAt T j - elemAt T i| ≤ w)
    (hlen : i + m ≤ T.length)
    (hout : i + m < T.length → |elemAt T (i + m) - elemAt T i| > w) :
    GetNhitsFromStartIndex T i w = (m : Int) := by
  unfold GetNhitsFromStartIndex
  simp only
  rw [GetNhitsLoop_run T i m w hin hlen hout (T.length + 1) i (le_refl _) (by omega) (by omega)]
  rw [abs_of_nonneg (by omega)]
  push_cast
  ring

/-! ### One iteration of the hit loop -/

theorem core_core (e : NTagEventInfo) : core (core e) = core e := rfl

theorem core_SavePeakFromHit (s : Settings) (e : NTagEventInfo) (h : Nat) :
    core (SavePeakFromHit s e h) = SavePeakFromHit s (core e) h := by
  unfold SavePeakFromHit core
  simp only
  split_ifs <;> rfl

theorem SavePeakFromHit_congr (s : Settings) (e e' : NTagEventInfo) (h : Nat)
    (hc : core e' = core e) :
    core (SavePeakFromHit s e' h) = core (SavePeakFromHit s e h) := by
  rw [core_SavePeakFromHit, core_SavePeakFromHit, hc]

theorem core_recordFirstHitTime (e : NTagEventInfo) (t : ℚ) :
    core (recordFirstHitTime e t) = core e := by
  unfold recordFirstHitTime; split_ifs <;> rfl

theorem core_recordMaxN200 (e : NTagEventInfo) (t : ℚ) (n : Int) :
    core (recordMaxN200 e t n) = core e := by
  unfold recordMaxN200; split_ifs <;> rfl

theorem scanStep_not_qualifies (s : Settings) (l : ScanLocals) (e : NTagEventInfo) (i : Nat)
    (hq : ¬ qualifies s e.vSortedT_ToF i) :
    (scanStep s (l, e) i).1 = l ∧ core (scanStep s (l, e) i).2 = core e := by
  unfold qualifies N10 at hq
  unfold scanStep
  simp only
  by_cases h1 : elemAt e.vSortedT_ToF i * (1 / 1000) < s.T0TH
  · rw [if_pos h1]; exact ⟨rfl, rfl⟩
  · rw [if_neg h1]
    have h2 : GetNhitsFromStartIndex e.vSortedT_ToF i 10 < s.N10TH ∨
        GetNhitsFromStartIndex e.vSortedT_ToF i 10 ≥ s.N10MX + 1 := by
      by_contra hc; exact hq ⟨h1, hc⟩
    rw [if_pos h2]
    exact ⟨rfl, core_recordFirstHitTime _ _⟩

/-- The locals after the loop body at a hit that passes both tests. -/
theorem scanStep_qualifies_locals (s : Settings) (l : ScanLocals) (e : NTagEventInfo) (i : Nat)
    (hq : qualifies s e.vSortedT_ToF i) :
    (scanStep s (l, e) i).1 =
      if elemAt e.vSortedT_ToF i - l.t0Previous > s.TMINPEAKSEP then
        { iHitPrevious := i, N10New := N10 e.vSortedT_ToF i, N10Previous := N10 e.vSortedT_ToF i,
          N200Previous := N200 e.vSortedT_ToF i, t0Previous := elemAt e.vSortedT_ToF i }
      else if N10 e.vSortedT_ToF i ≤ l.N10Previous then
        { l with N10New := N10 e.vSortedT_ToF i }
      else
        { iHitPrevious := i, N10New := N10 e.vSortedT_ToF i, N10Previous := N10 e.vSortedT_ToF i,
          N200Previous := N200 e.vSortedT_ToF i, t0Previous := elemAt e.vSortedT_ToF i } := by
  have hpos := GetNhitsFromStartIndex_pos e.vSortedT_ToF i 10
  obtain ⟨h1, h2⟩ := hq
  unfold N10 at h2
  unfold scanStep N10 N200
  simp only
  rw [if_neg h1, if_neg h2]
  by_cases hr : elemAt e.vSortedT_ToF i - l.t0Previous > s.TMINPEAKSEP
  · simp only [hr, if_true]
    rw [if_neg (by omega)]
  · simp only [hr, if_false]
    split_ifs <;> rfl

/-- The candidates after the loop body at a hit that passes both tests. -/
theorem scanStep_qualifies_event (s : Settings) (l : ScanLocals) (e : NTagEventInfo) (i : Nat)
    (hq : qualifies s e.vSortedT_ToF i) :
    core (scanStep s (l, e) i).2 =
      core (if elemAt e.vSortedT_ToF i - l.t0Previous > s.TMINPEAKSEP ∧
              l.N200Previous < s.N200MX ∧ l.t0Previous * (1 / 1000) > s.T0TH then
            SavePeakFromHit s e l.iHitPrevious
          else e) := by
  obtain ⟨h1, h2⟩ := hq
  unfold N10 at h2
  unfold scanStep
  simp only
  rw [if_neg h1, if_neg h2]
  have hc : core (recordMaxN200 (recordFirstHitTime e (elemAt e.vSortedT_ToF i))
      (elemAt e.vSortedT_ToF i)
      (GetNhitsFromCenterTime e.vSortedT_ToF (elemAt e.vSortedT_ToF i + 5) 200)) = core e := by
    rw [core_recordMaxN200, core_recordFirstHitTime]
  by_cases hr : elemAt e.vSortedT_ToF i - l.t0Previous > s.TMINPEAKSEP
  · by_cases hs : l.N200Previous < s.N200MX ∧ l.t0Previous * (1 / 1000) > s.T0TH
    · simp only [hr, hs, and_self, if_true]
      split_ifs <;> exact SavePeakFromHit_congr s e _ _ hc
    · simp only [hr, hs, and_false, if_true, if_false]
      split_ifs <;> exact hc
  · simp only [hr, false_and, if_false]
    split_ifs <;> exact hc

/-! ### The hit loop as a whole -/

theorem SavePeakFromHit_T (s : Settings) (e : NTagEventInfo) (h : Nat) :
    (SavePeakFromHit s e h).vSortedT_ToF = e.vSortedT_ToF := by
  unfold SavePeakFromHit; simp only; split_ifs <;> rfl

theorem scanStep_T (s : Settings) (st : ScanLocals × NTagEventInfo) (i : Nat) :
    (scanStep s st i).2.vSortedT_ToF = st.2.vSortedT_ToF := by
  obtain ⟨l, e⟩ := st
  by_cases hq : qualifies s e.vSortedT_ToF i
  · have h := congrArg NTagEventInfo.vSortedT_ToF (scanStep_qualifies_event s l e i hq)
    simp only [core] at h
    rw [h]; split_ifs
    · exact SavePeakFromHit_T s e _
    · rfl
  · have h := congrArg NTagEventInfo.vSortedT_ToF (scanStep_not_qualifies s l e i hq).2
    simpa [core] using h

theorem scanPrefix_zero (s : Settings) (e : NTagEventInfo) : scanPrefix s e 0 = (scanInit, e) := rfl

theorem scanPrefix_succ (s : Settings) (e : NTagEventInfo) (n : Nat) :
    scanPrefix s e (n + 1) = scanStep s (scanPrefix s e n) n := by
  unfold scanPrefix
  rw [List.range_succ, List.foldl_append]
  rfl

theorem scanPrefix_T (s : Settings) (e : NTagEventInfo) (n : Nat) :
    (scanPrefix s e n).2.vSortedT_ToF = e.vSortedT_ToF := by
  induction n with
  | zero => rfl
  | succ n ih => rw [scanPrefix_succ, scanStep_T, ih]

theorem scanLoop_eq_scanPrefix (s : Settings) (e : NTagEventInfo) :
    scanLoop s e = scanPrefix s e e.nqiskz := rfl

/-- What `SavePeakFromHit` appends. -/
theorem SavePeakFromHit_fields (s : Settings) (e : NTagEventInfo) (h : Nat) :
    (s.N10TH ≤ N10 e.vSortedT_ToF h ∧ N10 e.vSortedT_ToF h ≤ s.N10MX ∧
      (SavePeakFromHit s e h).vFirstHitID = e.vFirstHitID ++ [h] ∧
      (SavePeakFromHit s e h).vN10 = e.vN10 ++ [N10 e.vSortedT_ToF h] ∧
      (SavePeakFromHit s e h).vN200 = e.vN200 ++ [N200 e.vSortedT_ToF h] ∧
      (SavePeakFromHit s e h).nCandidates = e.nCandidates + 1) ∨
    (¬ (s.N10TH ≤ N10 e.vSortedT_ToF h ∧ N10 e.vSortedT_ToF h ≤ s.N10MX) ∧
      SavePeakFromHit s e h = e) := by
  unfold SavePeakFromHit N10 N200
  simp only
  by_cases hb : GetNhitsFromStartIndex e.vSortedT_ToF h 10 ≥ s.N10TH ∧
      GetNhitsFromStartIndex e.vSortedT_ToF h 10 < s.N10MX + 1
  · left
    rw [if_pos hb]
    exact ⟨hb.1, by omega, rfl, rfl, rfl, rfl⟩
  · right
    rw [if_neg hb]
    refine ⟨fun hc => hb ⟨hc.1, by omega⟩, rfl⟩

end NTagEventInfo

namespace NTagEventInfo

/-! ### The candidate bookkeeping -/

theorem candidatesOK_core (s : Settings) (e e' : NTagEventInfo) (hc : core e' = core e)
    (h : candidatesOK s e) : candidatesOK s e' := by
  have h1 := congrArg NTagEventInfo.nCandidates hc
  have h2 := congrArg NTagEventInfo.vFirstHitID hc
  have h3 := congrArg NTagEventInfo.vN10 hc
  have h4 := congrArg NTagEventInfo.vN200 hc
  have h5 := congrArg NTagEventInfo.vSortedT_ToF hc
  simp only [core] at h1 h2 h3 h4 h5
  unfold candidatesOK at *
  rw [h1, h2, h3, h4, h5]
  exact h

theorem candidatesOK_SavePeakFromHit (s : Settings) (e : NTagEventInfo) (h : Nat)
    (hok : candidatesOK s e) : candidatesOK s (SavePeakFromHit s e h) := by
  rcases SavePeakFromHit_fields s e h with ⟨h1, h2, h3, h4, h5, h6⟩ | ⟨_, heq⟩
  · obtain ⟨a, b, c, d⟩ := hok
    refine ⟨?_, ?_, ?_, ?_⟩
    · rw [h6, h3, a]; simp
    · rw [h4, h3, SavePeakFromHit_T, b]; simp
    · rw [h5, h3, SavePeakFromHit_T, c]; simp
    · intro n hn
      rw [h4] at hn
      rcases List.mem_append.mp hn with hn | hn
      · exact d n hn
      · simp only [List.mem_singleton] at hn
        subst hn; exact ⟨h1, h2⟩
  · rw [heq]; exact hok

theorem candidatesOK_scanStep (s : Settings) (st : ScanLocals × NTagEventInfo) (i : Nat)
    (hok : candidatesOK s st.2) : candidatesOK s (scanStep s st i).2 := by
  obtain ⟨l, e⟩ := st
  by_cases hq : qualifies s e.vSortedT_ToF i
  · have h := scanStep_qualifies_event s l e i hq
    have hc : core (scanStep s (l, e) i).2 = core (core (scanStep s (l, e) i).2) := rfl
    refine candidatesOK_core s _ _ h ?_
    split_ifs
    · exact candidatesOK_SavePeakFromHit s e _ hok
    · exact hok
  · exact candidatesOK_core s _ _ (scanStep_not_qualifies s l e i hq).2 hok

theorem candidatesOK_scanPrefix (s : Settings) (e : NTagEventInfo) (n : Nat)
    (hok : candidatesOK s e) : candidatesOK s (scanPrefix s e n).2 := by
  induction n with
  | zero => exact hok
  | succ n ih => rw [scanPrefix_succ]; exact candidatesOK_scanStep s _ n ih

theorem candidatesOK_Search (s : Settings) (e : NTagEventInfo)
    (hok : candidatesOK s e) : candidatesOK s (SearchCaptureCandidates s e) := by
  unfold SearchCaptureCandidates
  exact candidatesOK_SavePeakFromHit s _ _ (candidatesOK_scanPrefix s e _ hok)

end NTagEventInfo

namespace NTagEventInfo

/-! ### Order and separation of the emitted seeds -/

theorem vFirstHitID_of_core {e e' : NTagEventInfo} (hc : core e' = core e) :
    e'.vFirstHitID = e.vFirstHitID := by
  have h := congrArg NTagEventInfo.vFirstHitID hc
  simpa [core] using h

theorem seedIs_new (T : List ℚ) (i : Nat) (n : Int) :
    seedIs T { iHitPrevious := i, N10New := n, N10Previous := N10 T i,
               N200Previous := N200 T i, t0Previous := elemAt T i } i :=
  ⟨rfl, rfl, rfl, rfl⟩

theorem separated_mono (s : Settings) (T : List ℚ) (hT : ascending T) {c b n : Nat}
    (hcb : separated s T c b) (hbn : b ≤ n) (hn : n < T.length) : separated s T c n := by
  obtain ⟨h1, h2⟩ := hcb
  have := hT b n hbn hn
  exact ⟨by omega, by linarith⟩

theorem scanInv_step (s : Settings) (T : List ℚ) (hT : ascending T) (h0 : 0 ≤ s.T0TH)
    (n : Nat) (hn : n < T.length) (st : ScanLocals × NTagEventInfo)
    (hst : st.2.vSortedT_ToF = T) (hinv : scanInv s T n st) :
    scanInv s T (n + 1) (scanStep s st n) := by
  obtain ⟨l, e⟩ := st
  simp only at hst
  subst hst
  by_cases hq : qualifies s e.vSortedT_ToF n
  · have hl := scanStep_qualifies_locals s l e n hq
    have he := scanStep_qualifies_event s l e n hq
    have hpos := GetNhitsFromStartIndex_pos e.vSortedT_ToF n 10
    rcases hinv with ⟨hinit, hnil⟩ | ⟨b, hb, hqb, hseed, hpw, hall⟩
    · -- no seed yet
      simp only at hinit hnil
      right
      refine ⟨n, by omega, hq, ?_, ?_, ?_⟩
      · rw [hl, hinit]
        have : ¬ N10 e.vSortedT_ToF n ≤ scanInit.N10Previous := by
          unfold N10 scanInit; simp only; omega
        split_ifs
        · exact seedIs_new _ _ _
        · exact seedIs_new _ _ _
      · have hno : ¬ (elemAt e.vSortedT_ToF n - l.t0Previous > s.TMINPEAKSEP ∧
            l.N200Previous < s.N200MX ∧ l.t0Previous * (1 / 1000) > s.T0TH) := by
          rintro ⟨_, _, h3⟩
          rw [hinit] at h3
          simp only [scanInit] at h3
          linarith
        rw [if_neg hno] at he
        rw [vFirstHitID_of_core he, hnil]
        exact List.Pairwise.nil
      · have hno : ¬ (elemAt e.vSortedT_ToF n - l.t0Previous > s.TMINPEAKSEP ∧
            l.N200Previous < s.N200MX ∧ l.t0Previous * (1 / 1000) > s.T0TH) := by
          rintro ⟨_, _, h3⟩
          rw [hinit] at h3
          simp only [scanInit] at h3
          linarith
        rw [if_neg hno] at he
        rw [vFirstHitID_of_core he, hnil]
        intro c hc; simp at hc
    · -- a seed `b` is pending
      simp only at hseed hpw hall
      obtain ⟨hs1, hs2, hs3, hs4⟩ := hseed
      right
      by_cases hr : elemAt e.vSortedT_ToF n - l.t0Previous > s.TMINPEAKSEP
      · -- reset: the run of `b` is closed, `n` opens a new one
        refine ⟨n, by omega, hq, ?_, ?_, ?_⟩
        · rw [hl, if_pos hr]; exact seedIs_new _ _ _
        · rw [vFirstHitID_of_core he]
          split_ifs
          · rcases SavePeakFromHit_fields s e l.iHitPrevious with ⟨_, _, h3, _⟩ | ⟨_, heq⟩
            · rw [h3, hs1]
              rw [List.pairwise_append]
              refine ⟨hpw, List.pairwise_singleton _ _, ?_⟩
              intro a ha c hc
              simp only [List.mem_singleton] at hc
              subst hc
              exact hall a ha
            · rw [heq]; exact hpw
          · exact hpw
        · rw [hs2] at hr
          have hbn : separated s e.vSortedT_ToF b n := ⟨hb, hr⟩
          rw [vFirstHitID_of_core he]
          have hold : ∀ c ∈ e.vFirstHitID, separated s e.vSortedT_ToF c n :=
            fun c hc => separated_mono s _ hT (hall c hc) (by omega) hn
          split_ifs
          · rcases SavePeakFromHit_fields s e l.iHitPrevious with ⟨_, _, h3, _⟩ | ⟨_, heq⟩
            · rw [h3, hs1]
              intro c hc
              rcases List.mem_append.mp hc with hc | hc
              · exact hold c hc
              · simp only [List.mem_singleton] at hc
                subst hc; exact hbn
            · rw [heq]; exact hold
          · exact hold
      · -- same run
        have hno : ¬ (elemAt e.vSortedT_ToF n - l.t0Previous > s.TMINPEAKSEP ∧
            l.N200Previous < s.N200MX ∧ l.t0Previous * (1 / 1000) > s.T0TH) :=
          fun h => hr h.1
        rw [if_neg hno] at he
        rw [if_neg hr] at hl
        by_cases hle : N10 e.vSortedT_ToF n ≤ l.N10Previous
        · rw [if_pos hle] at hl
          refine ⟨b, by omega, hqb, ?_, ?_, ?_⟩
          · rw [hl]; exact ⟨hs1, hs2, hs3, hs4⟩
          · rw [vFirstHitID_of_core he]; exact hpw
          · rw [vFirstHitID_of_core he]; exact hall
        · rw [if_neg hle] at hl
          refine ⟨n, by omega, hq, ?_, ?_, ?_⟩
          · rw [hl]; exact seedIs_new _ _ _
          · rw [vFirstHitID_of_core he]; exact hpw
          · rw [vFirstHitID_of_core he]
            exact fun c hc => separated_mono s _ hT (hall c hc) (by omega) hn
  · obtain ⟨hl, he⟩ := scanStep_not_qualifies s l e n hq
    rcases hinv with ⟨hinit, hnil⟩ | ⟨b, hb, hqb, hseed, hpw, hall⟩
    · left
      simp only at hinit hnil
      exact ⟨by rw [hl]; exact hinit, by rw [vFirstHitID_of_core he]; exact hnil⟩
    · right
      simp only at hseed hpw hall
      refine ⟨b, by omega, hqb, by rw [hl]; exact hseed, ?_, ?_⟩
      · rw [vFirstHitID_of_core he]; exact hpw
      · rw [vFirstHitID_of_core he]; exact hall

theorem scanInv_scanPrefix (s : Settings) (T Q : List ℚ) (hT : ascending T) (h0 : 0 ≤ s.T0TH)
    (n : Nat) (hn : n ≤ T.length) :
    scanInv s T n (scanPrefix s (ofSortedHits T Q) n) := by
  induction n with
  | zero => left; exact ⟨rfl, rfl⟩
  | succ n ih =>
    rw [scanPrefix_succ]
    exact scanInv_step s T hT h0 n (by omega) _ (scanPrefix_T s _ n) (ih (by omega))

end NTagEventInfo

namespace NTagEventInfo

/-! ### Clusters and single steps of the seed tracking -/

theorem ascending_of_pairwise (T : List ℚ) (h : T.Pairwise (· ≤ ·)) : ascending T := by
  intro i j hij hj
  unfold elemAt
  rcases Nat.eq_or_lt_of_le hij with rfl | hlt
  · exact le_refl _
  · rw [List.getD_eq_getElem _ _ (by omega), List.getD_eq_getElem _ _ hj]
    exact (List.pairwise_iff_getElem.mp h) i j (by omega) hj hlt

/-- In an ascending sequence the `N10` of the first hit of a cluster is the cluster size. -/
theorem N10_of_clusterAt (T : List ℚ) (hT : ascending T) (a m : Nat) (hc : clusterAt T a m) :
    N10 T a = (m : Int) := by
  obtain ⟨h1, h2, h3, h4⟩ := hc
  unfold N10
  apply GetNhitsFromStartIndex_run T a m 10 h1 _ h2
  · intro hl
    have := h4 hl
    have h5 := hT a (a + m) (by omega) hl
    rw [abs_of_nonneg (by linarith)]
    exact this
  · intro j hj1 hj2
    have h5 := hT a j (by omega) (by omega)
    rw [abs_of_nonneg (by linarith)]
    exact h3 j (by omega) hj2

/-- A hit that does not pass the tests, or that lies in the run of the pending seed `b`
without a larger `N10`, leaves the seed and the candidates as they are. -/
theorem scanStep_stay (s : Settings) (l : ScanLocals) (e : NTagEventInfo) (b i : Nat)
    (hseed : seedIs e.vSortedT_ToF l b)
    (h : ¬ qualifies s e.vSortedT_ToF i ∨
      (elemAt e.vSortedT_ToF i - elemAt e.vSortedT_ToF b ≤ s.TMINPEAKSEP ∧
        N10 e.vSortedT_ToF i ≤ N10 e.vSortedT_ToF b)) :
    seedIs e.vSortedT_ToF (scanStep s (l, e) i).1 b ∧
      core (scanStep s (l, e) i).2 = core e := by
  by_cases hq : qualifies s e.vSortedT_ToF i
  · rcases h with h | ⟨h1, h2⟩
    · exact absurd hq h
    · obtain ⟨hs1, hs2, hs3, hs4⟩ := hseed
      have hr : ¬ (elemAt e.vSortedT_ToF i - l.t0Previous > s.TMINPEAKSEP) := by
        rw [hs2]; linarith
      constructor
      · rw [scanStep_qualifies_locals s l e i hq, if_neg hr, if_pos (by rw [hs3]; exact h2)]
        exact ⟨hs1, hs2, hs3, hs4⟩
      · rw [scanStep_qualifies_event s l e i hq, if_neg (fun hc => hr hc.1)]
  · obtain ⟨hl, he⟩ := scanStep_not_qualifies s l e i hq
    exact ⟨by rw [hl]; exact hseed, he⟩

/-- A hit of the run of the pending seed `b` with a strictly larger `N10` becomes the seed. -/
theorem scanStep_take (s : Settings) (l : ScanLocals) (e : NTagEventInfo) (b i : Nat)
    (hseed : seedIs e.vSortedT_ToF l b) (hq : qualifies s e.vSortedT_ToF i)
    (h1 : elemAt e.vSortedT_ToF i - elemAt e.vSortedT_ToF b ≤ s.TMINPEAKSEP)
    (h2 : N10 e.vSortedT_ToF b < N10 e.vSortedT_ToF i) :
    seedIs e.vSortedT_ToF (scanStep s (l, e) i).1 i ∧
      core (scanStep s (l, e) i).2 = core e := by
  obtain ⟨hs1, hs2, hs3, hs4⟩ := hseed
  have hr : ¬ (elemAt e.vSortedT_ToF i - l.t0Previous > s.TMINPEAKSEP) := by
    rw [hs2]; linarith
  constructor
  · rw [scanStep_qualifies_locals s l e i hq, if_neg hr, if_neg (by rw [hs3]; omega)]
    exact seedIs_new _ _ _
  · rw [scanStep_qualifies_event s l e i hq, if_neg (fun hc => hr hc.1)]

/-- With `T0TH ≥ 0` the first hit that passes the tests becomes the seed and nothing is
emitted. -/
theorem scanStep_first (s : Settings) (e : NTagEventInfo) (i : Nat) (h0 : 0 ≤ s.T0TH)
    (hq : qualifies s e.vSortedT_ToF i) :
    seedIs e.vSortedT_ToF (scanStep s (scanInit, e) i).1 i ∧
      core (scanStep s (scanInit, e) i).2 = core e := by
  have hpos := GetNhitsFromStartIndex_pos e.vSortedT_ToF i 10
  constructor
  · rw [scanStep_qualifies_locals s scanInit e i hq]
    have : ¬ N10 e.vSortedT_ToF i ≤ scanInit.N10Previous := by
      unfold N10 scanInit; simp only; omega
    split_ifs <;> exact seedIs_new _ _ _
  · rw [scanStep_qualifies_event s scanInit e i hq]
    have hno : ¬ (elemAt e.vSortedT_ToF i - scanInit.t0Previous > s.TMINPEAKSEP ∧
        scanInit.N200Previous < s.N200MX ∧ scanInit.t0Previous * (1 / 1000) > s.T0TH) := by
      rintro ⟨_, _, h3⟩
      simp only [scanInit] at h3
      linarith
    rw [if_neg hno]

end NTagEventInfo

namespace NTagEventInfo

/-! ### A single cluster -/

/-- The fields of the result of `SearchCaptureCandidates` when the scan has emitted nothing
and ends with the pending seed `a` whose `N10` lies in the band. -/
theorem Search_of_scan (s : Settings) (T Q : List ℚ) (a : Nat)
    (hcore : core (scanPrefix s (ofSortedHits T Q) T.length).2 = core (ofSortedHits T Q))
    (hseed : (scanPrefix s (ofSortedHits T Q) T.length).1.iHitPrevious = a)
    (hband : s.N10TH ≤ N10 T a ∧ N10 T a ≤ s.N10MX) :
    (SearchCaptureCandidates s (ofSortedHits T Q)).vFirstHitID = [a] ∧
    (SearchCaptureCandidates s (ofSortedHits T Q)).vN10 = [N10 T a] ∧
    (SearchCaptureCandidates s (ofSortedHits T Q)).vN200 = [N200 T a] ∧
    (SearchCaptureCandidates s (ofSortedHits T Q)).nCandidates = 1 := by
  have hS : core (SearchCaptureCandidates s (ofSortedHits T Q)) =
      SavePeakFromHit s (core (ofSortedHits T Q)) a := by
    unfold SearchCaptureCandidates
    simp only
    rw [scanLoop_eq_scanPrefix, core_SavePeakFromHit]
    change SavePeakFromHit s (core (scanPrefix s (ofSortedHits T Q) T.length).2)
      (scanPrefix s (ofSortedHits T Q) T.length).1.iHitPrevious = _
    rw [hcore, hseed]
  have h1 := congrArg NTagEventInfo.vFirstHitID hS
  have h2 := congrArg NTagEventInfo.vN10 hS
  have h3 := congrArg NTagEventInfo.vN200 hS
  have h4 := congrArg NTagEventInfo.nCandidates hS
  rcases SavePeakFromHit_fields s (core (ofSortedHits T Q)) a with
    ⟨_, _, f1, f2, f3, f4⟩ | ⟨hn, _⟩
  · rw [f1] at h1; rw [f2] at h2; rw [f3] at h3; rw [f4] at h4
    exact ⟨h1, h2, h3, h4⟩
  · exact absurd hband hn

theorem singleCluster_scan (s : Settings) (T Q : List ℚ) (a m : Nat)
    (h : singleCluster s T a m) (h0 : 0 ≤ s.T0TH)
    (hmem : ∀ j, a < j → j < a + m → N10 T j ≤ (m : Int)) (n : Nat) (hn : n ≤ T.length) :
    core (scanPrefix s (ofSortedHits T Q) n).2 = core (ofSortedHits T Q) ∧
    (n ≤ a → (scanPrefix s (ofSortedHits T Q) n).1 = scanInit) ∧
    (a < n → seedIs T (scanPrefix s (ofSortedHits T Q) n).1 a) := by
  obtain ⟨hT, hc, hb1, hb2, ht0, hsep, hout⟩ := h
  have hNa := N10_of_clusterAt T hT a m hc
  have hqa : qualifies s T a := by
    refine ⟨by linarith, ?_⟩
    rw [hNa]; omega
  induction n with
  | zero => exact ⟨rfl, fun _ => rfl, fun h => absurd h (by omega)⟩
  | succ n ih =>
    obtain ⟨ih1, ih2, ih3⟩ := ih (by omega)
    have hTn := scanPrefix_T s (ofSortedHits T Q) n
    have hT0 : (ofSortedHits T Q).vSortedT_ToF = T := rfl
    rw [hT0] at hTn
    rw [scanPrefix_succ]
    generalize scanPrefix s (ofSortedHits T Q) n = st at ih1 ih2 ih3 hTn
    obtain ⟨l, e⟩ := st
    simp only at ih1 ih2 ih3 hTn
    subst hTn
    have hnotq : (n < a ∨ a + m ≤ n) → ¬ qualifies s e.vSortedT_ToF n := by
      intro hcase hq
      have := hout n (by omega) hcase
      exact hq.2 (Or.inl this)
    rcases Nat.lt_trichotomy n a with hlt | heq | hgt
    · obtain ⟨hl, he⟩ := scanStep_not_qualifies s l e n (hnotq (Or.inl hlt))
      refine ⟨he.trans ih1, fun _ => by rw [hl]; exact ih2 (by omega), fun h => by omega⟩
    · subst heq
      have hl := ih2 (le_refl _)
      subst hl
      obtain ⟨h1, h2⟩ := scanStep_first s e n h0 hqa
      exact ⟨h2.trans ih1, fun h => by omega, fun _ => h1⟩
    · have hseed := ih3 hgt
      have hstay : ¬ qualifies s e.vSortedT_ToF n ∨
          (elemAt e.vSortedT_ToF n - elemAt e.vSortedT_ToF a ≤ s.TMINPEAKSEP ∧
            N10 e.vSortedT_ToF n ≤ N10 e.vSortedT_ToF a) := by
        by_cases hin : n < a + m
        · right
          refine ⟨?_, ?_⟩
          · have := hc.2.2.1 n (by omega) hin
            linarith
          · rw [hNa]; exact hmem n hgt hin
        · left; exact hnotq (Or.inr (by omega))
      obtain ⟨h1, h2⟩ := scanStep_stay s l e a n hseed hstay
      exact ⟨h2.trans ih1, fun h => by omega, fun _ => h1⟩

end NTagEventInfo

namespace NTagEventInfo

/-! ### Two nearby clusters -/

theorem twoClusters_scan (s : Settings) (T Q : List ℚ) (a mA b mB : Nat)
    (h : twoClusters s T a mA b mB) (h0 : 0 ≤ s.T0TH)
    (hmemA : ∀ j, a < j → j < a + mA → N10 T j ≤ (mA : Int))
    (hmemB : ∀ j, b < j → j < b + mB → N10 T j ≤ (mB : Int))
    (hlast : elemAt T (b + mB - 1) - elemAt T a ≤ s.TMINPEAKSEP)
    (n : Nat) (hn : n ≤ T.length) :
    core (scanPrefix s (ofSortedHits T Q) n).2 = core (ofSortedHits T Q) ∧
    (n ≤ a → (scanPrefix s (ofSortedHits T Q) n).1 = scanInit) ∧
    (a < n → n ≤ b → seedIs T (scanPrefix s (ofSortedHits T Q) n).1 a) ∧
    (b < n → seedIs T (scanPrefix s (ofSortedHits T Q) n).1 (if mA < mB then b else a)) := by
  obtain ⟨hT, hcA, hcB, hab, hA1, hA2, hB1, hB2, ht0, hout, hsep⟩ := h
  have hNa := N10_of_clusterAt T hT a mA hcA
  have hNb := N10_of_clusterAt T hT b mB hcB
  have hblen : b + mB ≤ T.length := hcB.2.1
  have hmB : 1 ≤ mB := hcB.1
  have hmA : 1 ≤ mA := hcA.1
  have hTab : elemAt T a ≤ elemAt T b := hT a b (by omega) (by omega)
  have hqa : qualifies s T a := by
    refine ⟨by linarith, ?_⟩
    rw [hNa]; omega
  have hqb : qualifies s T b := by
    refine ⟨by linarith, ?_⟩
    rw [hNb]; omega
  -- every hit of the two clusters lies within `TMINPEAKSEP` of the hit `a`
  have hnear : ∀ j, j < b + mB → elemAt T j - elemAt T a ≤ s.TMINPEAKSEP := by
    intro j hj
    have := hT j (b + mB - 1) (by omega) (by omega)
    linarith
  induction n with
  | zero => exact ⟨rfl, fun _ => rfl, fun h => absurd h (by omega), fun h => absurd h (by omega)⟩
  | succ n ih =>
    obtain ⟨ih1, ih2, ih3, ih4⟩ := ih (by omega)
    have hTn := scanPrefix_T s (ofSortedHits T Q) n
    have hT0 : (ofSortedHits T Q).vSortedT_ToF = T := rfl
    rw [hT0] at hTn
    rw [scanPrefix_succ]
    generalize scanPrefix s (ofSortedHits T Q) n = st at ih1 ih2 ih3 ih4 hTn
    obtain ⟨l, e⟩ := st
    simp only at ih1 ih2 ih3 ih4 hTn
    subst hTn
    have hnotq : (n < a ∨ (a + mA ≤ n ∧ n < b) ∨ b + mB ≤ n) →
        ¬ qualifies s e.vSortedT_ToF n := by
      intro hcase hq
      have := hout n (by omega) hcase
      exact hq.2 (Or.inl this)
    rcases Nat.lt_trichotomy n a with hlt | heq | hgt
    · obtain ⟨hl, he⟩ := scanStep_not_qualifies s l e n (hnotq (Or.inl hlt))
      exact ⟨he.trans ih1, fun _ => by rw [hl]; exact ih2 (by omega), fun h => by omega,
        fun h => by omega⟩
    · subst heq
      have hl := ih2 (le_refl _)
      subst hl
      obtain ⟨h1, h2⟩ := scanStep_first s e n h0 hqa
      exact ⟨h2.trans ih1, fun h => by omega, fun _ _ => h1, fun h => by omega⟩
    · rcases Nat.lt_trichotomy n b with hlt | heq | hgtb
      · -- between `a` and `b`: the seed `a` stays
        have hseed := ih3 hgt (by omega)
        have hstay : ¬ qualifies s e.vSortedT_ToF n ∨
            (elemAt e.vSortedT_ToF n - elemAt e.vSortedT_ToF a ≤ s.TMINPEAKSEP ∧
              N10 e.vSortedT_ToF n ≤ N10 e.vSortedT_ToF a) := by
          by_cases hin : n < a + mA
          · right
            exact ⟨hnear n (by omega), by rw [hNa]; exact hmemA n hgt hin⟩
          · left; exact hnotq (Or.inr (Or.inl ⟨by omega, hlt⟩))
        obtain ⟨h1, h2⟩ := scanStep_stay s l e a n hseed hstay
        exact ⟨h2.trans ih1, fun h => by omega, fun _ _ => h1, fun h => by omega⟩
      · -- the first hit of the second cluster
        subst heq
        have hseed := ih3 hgt (le_refl _)
        by_cases hlt : mA < mB
        · obtain ⟨h1, h2⟩ := scanStep_take s l e a n hseed hqb (hnear n (by omega))
            (by rw [hNa, hNb]; omega)
          exact ⟨h2.trans ih1, fun h => by omega, fun _ h => by omega,
            fun _ => by rw [if_pos hlt]; exact h1⟩
        · obtain ⟨h1, h2⟩ := scanStep_stay s l e a n hseed
            (Or.inr ⟨hnear n (by omega), by rw [hNa, hNb]; omega⟩)
          exact ⟨h2.trans ih1, fun h => by omega, fun _ h => by omega,
            fun _ => by rw [if_neg hlt]; exact h1⟩
      · -- after `b`: the seed chosen at `b` stays
        have hseed := ih4 hgtb
        have hstay : ¬ qualifies s e.vSortedT_ToF n ∨
            (elemAt e.vSortedT_ToF n -
                elemAt e.vSortedT_ToF (if mA < mB then b else a) ≤ s.TMINPEAKSEP ∧
              N10 e.vSortedT_ToF n ≤ N10 e.vSortedT_ToF (if mA < mB then b else a)) := by
          by_cases hin : n < b + mB
          · right
            have h1 := hnear n hin
            have h2 := hmemB n hgtb hin
            split_ifs with hlt
            · exact ⟨by linarith, by rw [hNb]; exact h2⟩
            · exact ⟨h1, by rw [hNa]; omega⟩
          · left; exact hnotq (Or.inr (Or.inr (by omega)))
        obtain ⟨h1, h2⟩ := scanStep_stay s l e _ n hseed hstay
        exact ⟨h2.trans ih1, fun h => by omega, fun _ h => by omega, fun _ => h1⟩

end NTagEventInfo

namespace NTagEventInfo

/-! ### The tie-break inside a run -/

theorem foldl_scanStep_T (s : Settings) (is : List Nat) (st : ScanLocals × NTagEventInfo) :
    (is.foldl (scanStep s) st).2.vSortedT_ToF = st.2.vSortedT_ToF := by
  induction is generalizing st with
  | nil => rfl
  | cons i is ih => rw [List.foldl_cons, ih, scanStep_T]

/-- Without a reset, the loop body replaces the seed exactly when the hit passes the tests
with an `N10` strictly above `N10Previous`. -/
theorem scanStep_no_reset (s : Settings) (l : ScanLocals) (e : NTagEventInfo) (i : Nat)
    (hr : ¬ resetsAt s (l, e) i) :
    (qualifies s e.vSortedT_ToF i ∧ l.N10Previous < N10 e.vSortedT_ToF i →
      seedIs e.vSortedT_ToF (scanStep s (l, e) i).1 i) ∧
    (¬ (qualifies s e.vSortedT_ToF i ∧ l.N10Previous < N10 e.vSortedT_ToF i) →
      (scanStep s (l, e) i).1.iHitPrevious = l.iHitPrevious ∧
      (scanStep s (l, e) i).1.t0Previous = l.t0Previous ∧
      (scanStep s (l, e) i).1.N10Previous = l.N10Previous ∧
      (scanStep s (l, e) i).1.N200Previous = l.N200Previous) := by
  by_cases hq : qualifies s e.vSortedT_ToF i
  · have hnr : ¬ (elemAt e.vSortedT_ToF i - l.t0Previous > s.TMINPEAKSEP) :=
      fun h => hr ⟨hq, h⟩
    have hl := scanStep_qualifies_locals s l e i hq
    rw [if_neg hnr] at hl
    constructor
    · rintro ⟨_, hlt⟩
      rw [hl, if_neg (by omega)]
      exact seedIs_new _ _ _
    · intro hn
      have hle : N10 e.vSortedT_ToF i ≤ l.N10Previous := by
        by_contra hc; exact hn ⟨hq, by omega⟩
      rw [hl, if_pos hle]
      exact ⟨rfl, rfl, rfl, rfl⟩
  · obtain ⟨hl, _⟩ := scanStep_not_qualifies s l e i hq
    exact ⟨fun h => absurd h.1 hq, fun _ => by rw [hl]; exact ⟨rfl, rfl, rfl, rfl⟩⟩

theorem earliestBest_snoc_keep (s : Settings) (T : List ℚ) (L : List Nat) (j i : Nat)
    (h : earliestBest s T L j) (hi : qualifies s T i → N10 T i ≤ N10 T j) :
    earliestBest s T (L ++ [i]) j := by
  obtain ⟨pre, post, hL, hq, h1, h2⟩ := h
  refine ⟨pre, post ++ [i], by rw [hL]; simp, hq, h1, ?_⟩
  intro k hk
  rcases List.mem_append.mp hk with hk | hk
  · exact h2 k hk
  · simp only [List.mem_singleton] at hk
    subst hk; exact hi

theorem earliestBest_snoc_take (s : Settings) (T : List ℚ) (L : List Nat) (j i : Nat)
    (h : earliestBest s T L j) (hq : qualifies s T i) (hi : N10 T j < N10 T i) :
    earliestBest s T (L ++ [i]) i := by
  obtain ⟨pre, post, hL, _, h1, h2⟩ := h
  refine ⟨L, [], rfl, hq, ?_, by simp⟩
  intro k hk hqk
  rw [hL] at hk
  rcases List.mem_append.mp hk with hk | hk
  · have := h1 k hk hqk; omega
  · rcases List.mem_cons.mp hk with hk | hk
    · subst hk; exact hi
    · have := h2 k hk hqk; omega

/-- Scanning further hits of the run keeps the seed at the earliest hit of maximal `N10`. -/
theorem earliestBest_foldl (s : Settings) (T : List ℚ) (is : List Nat) :
    ∀ (st : ScanLocals × NTagEventInfo) (L : List Nat) (j : Nat),
      st.2.vSortedT_ToF = T → seedIs T st.1 j → earliestBest s T L j →
      noResetAlong s st is →
      earliestBest s T (L ++ is) (is.foldl (scanStep s) st).1.iHitPrevious := by
  induction is with
  | nil =>
    intro st L j _ hseed hb _
    rw [List.append_nil, List.foldl_nil, hseed.1]
    exact hb
  | cons i is ih =>
    intro st L j hT hseed hb hrun
    obtain ⟨hnr, hrest⟩ := hrun
    obtain ⟨l, e⟩ := st
    simp only at hT hseed
    subst hT
    have hstep := scanStep_no_reset s l e i hnr
    have hT' := scanStep_T s (l, e) i
    rw [List.foldl_cons, show L ++ i :: is = (L ++ [i]) ++ is by simp]
    by_cases hc : qualifies s e.vSortedT_ToF i ∧ l.N10Previous < N10 e.vSortedT_ToF i
    · refine ih _ (L ++ [i]) i hT' (hstep.1 hc) ?_ hrest
      exact earliestBest_snoc_take s _ L j i hb hc.1 (by rw [← hseed.2.2.1]; exact hc.2)
    · obtain ⟨k1, k2, k3, k4⟩ := hstep.2 hc
      refine ih _ (L ++ [i]) j hT' ?_ ?_ hrest
      · exact ⟨k1.trans hseed.1, k2.trans hseed.2.1, k3.trans hseed.2.2.1,
          k4.trans hseed.2.2.2⟩
      · apply earliestBest_snoc_keep s _ L j i hb
        intro hq
        by_contra hlt
        exact hc ⟨hq, by rw [hseed.2.2.1]; omega⟩

end NTagEventInfo

namespace PMTHitCluster


/-! ### Sorting by time -/

theorem sorted_key_insertionSort {α : Type} (k : α → ℚ) (L : List α) :
    (L.insertionSort (fun x y => k x ≤ k y)).Pairwise (fun x y => k x ≤ k y) := by
  haveI : IsTotal α (fun x y => k x ≤ k y) := ⟨fun a b => le_total (k a) (k b)⟩
  haveI : IsTrans α (fun x y => k x ≤ k y) := ⟨fun a b c => @le_trans _ _ (k a) (k b) (k c)⟩
  exact List.sorted_insertionSort (fun x y => k x ≤ k y) L

/-- The insertion sort meets the contract of `std::sort`. -/
theorem SortContract_stableSort : SortContract stableSort :=
  fun l => ⟨List.perm_insertionSort _ l, sorted_key_insertionSort PMTHit.t l⟩

/-- The insertion sort from the back meets the contract of `std::sort`. -/
theorem SortContract_unstableSort : SortContract unstableSort :=
  fun l => ⟨(List.perm_insertionSort _ l.reverse).trans (List.reverse_perm l),
    sorted_key_insertionSort PMTHit.t l.reverse⟩

/-- Two time-ordered vectors with the same hits have the same sequence of times. -/
theorem map_t_eq_of_perm_of_sorted (l1 l2 : List PMTHit) (hp : l1.Perm l2)
    (h1 : l1.Pairwise (fun x y => x.t ≤ y.t)) (h2 : l2.Pairwise (fun x y => x.t ≤ y.t)) :
    l1.map PMTHit.t = l2.map PMTHit.t := by
  have q1 : (l1.map PMTHit.t).Sorted (· ≤ ·) := List.pairwise_map.mpr h1
  have q2 : (l2.map PMTHit.t).Sorted (· ≤ ·) := List.pairwise_map.mpr h2
  exact List.eq_of_perm_of_sorted (hp.map PMTHit.t) q1 q2

/-- Two time-ordered vectors with the same hits, no two of them with the same time, are
equal. -/
theorem eq_of_perm_of_sorted_of_distinct (l1 l2 : List PMTHit) (hp : l1.Perm l2)
    (h1 : l1.Pairwise (fun x y => x.t ≤ y.t)) (h2 : l2.Pairwise (fun x y => x.t ≤ y.t))
    (hd : l2.Pairwise (fun x y => x.t ≠ y.t)) : l1 = l2 := by
  have hd1 : l1.Pairwise (fun x y => x.t ≠ y.t) :=
    (hp.pairwise_iff (fun {x y} (h : x.t ≠ y.t) => h.symm)).mpr hd
  have s1 : l1.Pairwise (fun x y => x.t < y.t) :=
    h1.imp₂ (fun x y hle hne => lt_of_le_of_ne hle hne) hd1
  have s2 : l2.Pairwise (fun x y => x.t < y.t) :=
    h2.imp₂ (fun x y hle hne => lt_of_le_of_ne hle hne) hd
  haveI : IsAntisymm PMTHit (fun x y => x.t < y.t) :=
    ⟨fun x y hxy hyx => absurd hxy (not_lt_of_lt hyx)⟩
  exact List.eq_of_perm_of_sorted hp s1 s2

end PMTHitCluster

namespace PMTHitCluster


/-! ### The loop of `ApplyDeadtime` -/

theorem deadtimeKeep_cons (g : Geometry) (w : ℚ) (h : Int → ℚ) (x : PMTHit) (L : List PMTHit) :
    deadtimeKeep g w h (x :: L) =
      if 1 ≤ x.i ∧ x.i ≤ g.MAXPM ∧ x.t - h x.i > w then
        x :: deadtimeKeep g w (Function.update h x.i x.t) L
      else deadtimeKeep g w h L := rfl

theorem foldl_deadtimeStep (g : Geometry) (w : ℚ) (L : List PMTHit) :
    ∀ (h : Int → ℚ) (acc : List PMTHit),
      (L.foldl (deadtimeStep g w) (h, acc)).2 = acc ++ deadtimeKeep g w h L := by
  induction L with
  | nil => intro h acc; simp [deadtimeKeep]
  | cons x L ih =>
    intro h acc
    rw [List.foldl_cons]
    by_cases h1 : 1 ≤ x.i ∧ x.i ≤ g.MAXPM
    · by_cases h2 : x.t - h x.i > w
      · have hs : deadtimeStep g w (h, acc) x = (Function.update h x.i x.t, acc ++ [x]) := by
          unfold deadtimeStep; simp only; rw [if_pos h1, if_pos h2]
        have hk : deadtimeKeep g w h (x :: L) =
            x :: deadtimeKeep g w (Function.update h x.i x.t) L := by
          rw [deadtimeKeep_cons, if_pos ⟨h1.1, h1.2, h2⟩]
        rw [hs, hk, ih]
        simp
      · have hs : deadtimeStep g w (h, acc) x = (h, acc) := by
          unfold deadtimeStep; simp only; rw [if_pos h1, if_neg h2]
        have hk : deadtimeKeep g w h (x :: L) = deadtimeKeep g w h L := by
          rw [deadtimeKeep_cons, if_neg (fun hc => h2 hc.2.2)]
        rw [hs, hk, ih]
    · have hs : deadtimeStep g w (h, acc) x = (h, acc) := by
        unfold deadtimeStep; simp only; rw [if_neg h1]
      have hk : deadtimeKeep g w h (x :: L) = deadtimeKeep g w h L := by
        rw [deadtimeKeep_cons, if_neg (fun hc => h1 ⟨hc.1, hc.2.1⟩)]
      rw [hs, hk, ih]

theorem deadtimeKeep_sublist (g : Geometry) (w : ℚ) (L : List PMTHit) :
    ∀ h : Int → ℚ, List.Sublist (deadtimeKeep g w h L) L := by
  induction L with
  | nil => intro h; exact List.Sublist.refl _
  | cons x L ih =>
    intro h
    rw [deadtimeKeep_cons]
    split_ifs
    · exact (ih _).cons₂ x
    · exact (ih _).cons x

/-- For a non-negative window every kept hit is more than the window after the table entry
of its channel. -/
theorem deadtimeKeep_after_table (g : Geometry) (w : ℚ) (hw : 0 ≤ w) (L : List PMTHit) :
    ∀ (h : Int → ℚ) (y : PMTHit), y ∈ deadtimeKeep g w h L → y.t - h y.i > w := by
  induction L with
  | nil => intro h y hy; simp [deadtimeKeep] at hy
  | cons x L ih =>
    intro h y hy
    rw [deadtimeKeep_cons] at hy
    split_ifs at hy with hc
    · rcases List.mem_cons.mp hy with rfl | hy'
      · exact hc.2.2
      · have := ih _ y hy'
        by_cases hi : y.i = x.i
        · rw [hi, Function.update_same] at this
          rw [hi]
          have := hc.2.2
          linarith
        · rwa [Function.update_noteq hi] at this
    · exact ih h y hy

theorem deadtimeApart_of_neg (w : ℚ) (hw : w < 0) (x y : PMTHit) : deadtimeApart w x y :=
  fun _ => lt_of_lt_of_le hw (abs_nonneg _)

theorem deadtimeApart_symm (w : ℚ) {x y : PMTHit} (h : deadtimeApart w x y) :
    deadtimeApart w y x := by
  intro hi
  rw [abs_sub_comm]
  exact h hi.symm

/-- Any two hits kept by the loop on the same channel are more than the window apart. -/
theorem deadtimeKeep_pairwise (g : Geometry) (w : ℚ) (L : List PMTHit) :
    ∀ h : Int → ℚ, (deadtimeKeep g w h L).Pairwise (deadtimeApart w) := by
  by_cases hw : 0 ≤ w
  · induction L with
    | nil => intro h; simp [deadtimeKeep]
    | cons x L ih =>
      intro h
      rw [deadtimeKeep_cons]
      split_ifs with hc
      · rw [List.pairwise_cons]
        refine ⟨?_, ih _⟩
        intro y hy hi
        have := deadtimeKeep_after_table g w hw L _ y hy
        have hi' : y.i = x.i := hi.symm
        rw [hi', Function.update_same] at this
        have h2 : w < y.fT - x.fT := this
        rw [abs_sub_comm]
        exact lt_of_lt_of_le h2 (le_abs_self _)
      · exact ih h
  · intro h
    have hneg : w < 0 := lt_of_not_le hw
    exact List.pairwise_of_forall (fun x y => deadtimeApart_of_neg w hneg x y)

/-- Running the loop again over the hits it kept, from the same table, keeps them all. -/
theorem deadtimeKeep_idem (g : Geometry) (w : ℚ) (L : List PMTHit) :
    ∀ h : Int → ℚ, deadtimeKeep g w h (deadtimeKeep g w h L) = deadtimeKeep g w h L := by
  induction L with
  | nil => intro h; rfl
  | cons x L ih =>
    intro h
    rw [deadtimeKeep_cons]
    split_ifs with hc
    · rw [deadtimeKeep_cons, if_pos hc, ih]
    · exact ih h

/-- The loop keeps every hit of a list whose hits are on table channels, each more than the
window after the table entry of its channel and after every earlier hit of its channel. -/
theorem deadtimeKeep_all (g : Geometry) (w : ℚ) (L : List PMTHit) :
    ∀ h : Int → ℚ,
      (∀ x ∈ L, 1 ≤ x.i ∧ x.i ≤ g.MAXPM ∧ x.t - h x.i > w) →
      L.Pairwise (fun x y => x.i = y.i → y.t - x.t > w) →
      deadtimeKeep g w h L = L := by
  induction L with
  | nil => intro h _ _; rfl
  | cons x L ih =>
    intro h hall hpw
    rw [List.pairwise_cons] at hpw
    rw [deadtimeKeep_cons, if_pos (hall x (List.mem_cons_self _ _))]
    congr 1
    apply ih _ _ hpw.2
    intro y hy
    obtain ⟨h1, h2, h3⟩ := hall y (List.mem_cons_of_mem _ hy)
    refine ⟨h1, h2, ?_⟩
    by_cases hi : y.i = x.i
    · rw [hi, Function.update_same]
      exact hpw.1 y hy hi.symm
    · rwa [Function.update_noteq hi]

theorem deadtimeKeep_valid (g : Geometry) (w : ℚ) (L : List PMTHit) :
    ∀ (h : Int → ℚ) (y : PMTHit), y ∈ deadtimeKeep g w h L → 1 ≤ y.i ∧ y.i ≤ g.MAXPM := by
  induction L with
  | nil => intro h y hy; simp [deadtimeKeep] at hy
  | cons x L ih =>
    intro h y hy
    rw [deadtimeKeep_cons] at hy
    split_ifs at hy with hc
    · rcases List.mem_cons.mp hy with rfl | hy'
      · exact ⟨hc.1, hc.2.1⟩
      · exact ih _ y hy'
    · exact ih h y hy

/-- On a time-ordered list every kept hit is more than the window after the initial table
value `fm`, as long as the table entry of each hit on a table channel is `fm` or a time more
than the window after `fm` and not after the hits still to come. -/
theorem deadtimeKeep_after_init (g : Geometry) (w fm : ℚ) (L : List PMTHit) :
    ∀ h : Int → ℚ, L.Pairwise (fun x y => x.t ≤ y.t) →
      (∀ x ∈ L, 1 ≤ x.i ∧ x.i ≤ g.MAXPM →
        h x.i = fm ∨ (h x.i - fm > w ∧ ∀ y ∈ L, h x.i ≤ y.t)) →
      ∀ y ∈ deadtimeKeep g w h L, y.t - fm > w := by
  induction L with
  | nil => intro h _ _ y hy; simp [deadtimeKeep] at hy
  | cons x L ih =>
    intro h hs hinv y hy
    rw [List.pairwise_cons] at hs
    rw [deadtimeKeep_cons] at hy
    split_ifs at hy with hc
    · have hx : x.t - fm > w := by
        rcases hinv x (List.mem_cons_self _ _) ⟨hc.1, hc.2.1⟩ with h1 | ⟨h1, h2⟩
        · rw [← h1]; exact hc.2.2
        · have := h2 x (List.mem_cons_self _ _)
          linarith
      rcases List.mem_cons.mp hy with rfl | hy'
      · exact hx
      · apply ih _ hs.2 _ y hy'
        intro z hz hzv
        by_cases hi : z.i = x.i
        · right
          rw [hi, Function.update_same]
          exact ⟨hx, fun u hu => hs.1 u hu⟩
        · rw [Function.update_noteq hi]
          rcases hinv z (List.mem_cons_of_mem _ hz) hzv with h1 | ⟨h1, h2⟩
          · exact Or.inl h1
          · exact Or.inr ⟨h1, fun u hu => h2 u (List.mem_cons_of_mem _ hu)⟩
    · apply ih h hs.2 _ y hy
      intro z hz hzv
      rcases hinv z (List.mem_cons_of_mem _ hz) hzv with h1 | ⟨h1, h2⟩
      · exact Or.inl h1
      · exact Or.inr ⟨h1, fun u hu => h2 u (List.mem_cons_of_mem _ hu)⟩

/-- The loop keeps the same hits from two tables that agree on the table channels of the
hits. -/
theorem deadtimeKeep_congr (g : Geometry) (w : ℚ) (L : List PMTHit) :
    ∀ h1 h2 : Int → ℚ, (∀ x ∈ L, 1 ≤ x.i ∧ x.i ≤ g.MAXPM → h1 x.i = h2 x.i) →
      deadtimeKeep g w h1 L = deadtimeKeep g w h2 L := by
  induction L with
  | nil => intro h1 h2 _; rfl
  | cons x L ih =>
    intro h1 h2 hagree
    rw [deadtimeKeep_cons, deadtimeKeep_cons]
    by_cases hv : 1 ≤ x.i ∧ x.i ≤ g.MAXPM
    · rw [hagree x (List.mem_cons_self _ _) hv]
      have hrec : deadtimeKeep g w (Function.update h1 x.i x.t) L =
          deadtimeKeep g w (Function.update h2 x.i x.t) L := by
        apply ih
        intro z hz hzv
        by_cases hi : z.i = x.i
        · rw [hi, Function.update_same, Function.update_same]
        · rw [Function.update_noteq hi, Function.update_noteq hi]
          exact hagree z (List.mem_cons_of_mem _ hz) hzv
      rw [hrec, ih h1 h2 (fun z hz hzv => hagree z (List.mem_cons_of_mem _ hz) hzv)]
    · rw [if_neg (fun hc => hv ⟨hc.1, hc.2.1⟩), if_neg (fun hc => hv ⟨hc.1, hc.2.1⟩)]
      exact ih h1 h2 (fun z hz hzv => hagree z (List.mem_cons_of_mem _ hz) hzv)

/-- The table after `fill` holds `min()` at every index below `MAXPM`. -/
theorem hitTimeInit_inside (g : Geometry) (beyond : ℚ) (i : Int) (h0 : 0 ≤ i)
    (h1 : i < g.MAXPM) : hitTimeInit g beyond i = g.floatMin := by
  unfold hitTimeInit
  rw [if_pos ⟨h0, h1⟩]

end PMTHitCluster

namespace PMTHitCluster

/-! ### `ApplyDeadtime` as a whole -/

theorem ApplyDeadtime_noVertex (stdSort : List PMTHit → List PMTHit) (g : Geometry)
    (beyond : ℚ) (c : PMTHitCluster) (w : ℚ) (hv : c.fHasVertex = false) :
    ApplyDeadtime stdSort g beyond c w =
      { fElement := deadtimeKeep g w (hitTimeInit g beyond)
          (if c.fIsSorted then c.fElement else stdSort c.fElement)
        fIsSorted := true, fHasVertex := false, fVertex := c.fVertex } := by
  unfold ApplyDeadtime
  simp only [hv, Bool.false_eq_true, if_false]
  cases hs : c.fIsSorted
  · simp [SortHits, foldl_deadtimeStep, hv]
  · simp [foldl_deadtimeStep, hv, hs]

theorem ApplyDeadtime_vertex (stdSort : List PMTHit → List PMTHit) (g : Geometry)
    (beyond : ℚ) (c : PMTHitCluster) (w : ℚ) (hv : c.fHasVertex = true) :
    ApplyDeadtime stdSort g beyond c w =
      { fElement :=
          stdSort ((deadtimeKeep g w (hitTimeInit g beyond)
              (stdSort (c.fElement.map PMTHit.UnsetToFAndDirection))).map
            (PMTHit.SetToFAndDirection g c.fVertex))
        fIsSorted := true, fHasVertex := true, fVertex := c.fVertex } := by
  unfold ApplyDeadtime
  simp [hv, RemoveVertex, SetToF, SortHits, SetVertex, foldl_deadtimeStep]

theorem deadtimeApart_SetToF (g : Geometry) (v : TVector3) (w : ℚ) (x y : PMTHit)
    (h : deadtimeApart w x y) :
    deadtimeApart w (x.SetToFAndDirection g v) (y.SetToFAndDirection g v) := by
  intro hi
  have hi' : x.fPMTID = y.fPMTID := hi
  have := h hi'
  simp only [PMTHit.SetToFAndDirection]
  rw [hi']
  have e : x.fT - g.tof v y.fPMTID - (y.fT - g.tof v y.fPMTID) = x.fT - y.fT := by ring
  rw [e]; exact this

theorem isRaw_Unset (h : PMTHit) : isRaw h.UnsetToFAndDirection := ⟨rfl, rfl⟩

theorem Unset_SetToF_of_isRaw (g : Geometry) (v : TVector3) (h : PMTHit) (hr : isRaw h) :
    (h.SetToFAndDirection g v).UnsetToFAndDirection = h := by
  obtain ⟨h1, h2⟩ := hr
  cases h
  simp only [PMTHit.SetToFAndDirection, PMTHit.UnsetToFAndDirection] at *
  subst h1 h2
  simp

/-- The core of the second pass of `ApplyDeadtime` with a vertex: for time-ordered raw hits
`K` that are pairwise apart and each more than the window after its table entry,
un-correcting and sorting the corrected, sorted hits of `K` gives a time-ordered vector with
the hits of `K`, and the loop keeps every hit of it. -/
theorem deadtime_second_pass (stdSort : List PMTHit → List PMTHit) (hs : SortContract stdSort)
    (g : Geometry) (v : TVector3) (w : ℚ) (tbl : Int → ℚ) (K : List PMTHit)
    (hKr : ∀ x ∈ K, isRaw x) (hKa : K.Pairwise (deadtimeApart w))
    (hKv : ∀ x ∈ K, 1 ≤ x.i ∧ x.i ≤ g.MAXPM ∧ x.t - tbl x.i > w) :
    (stdSort ((stdSort (K.map (PMTHit.SetToFAndDirection g v))).map
      PMTHit.UnsetToFAndDirection)).Perm K ∧
    deadtimeKeep g w tbl (stdSort ((stdSort (K.map (PMTHit.SetToFAndDirection g v))).map
      PMTHit.UnsetToFAndDirection)) =
      stdSort ((stdSort (K.map (PMTHit.SetToFAndDirection g v))).map
        PMTHit.UnsetToFAndDirection) := by
  have hun : (K.map (PMTHit.SetToFAndDirection g v)).map PMTHit.UnsetToFAndDirection = K := by
    rw [List.map_map]
    conv_rhs => rw [← List.map_id K]
    apply List.map_congr_left
    intro x hx
    exact Unset_SetToF_of_isRaw g v x (hKr x hx)
  have hperm : (stdSort ((stdSort (K.map (PMTHit.SetToFAndDirection g v))).map
      PMTHit.UnsetToFAndDirection)).Perm K := by
    refine (hs _).1.trans ?_
    have := ((hs (K.map (PMTHit.SetToFAndDirection g v))).1).map PMTHit.UnsetToFAndDirection
    rw [hun] at this
    exact this
  refine ⟨hperm, ?_⟩
  apply deadtimeKeep_all
  · intro x hx
    exact hKv x (hperm.subset hx)
  · have hap := (hperm.pairwise_iff (fun h => deadtimeApart_symm w h)).mpr hKa
    refine (hs _).2.imp₂ ?_ hap
    intro x y hle hap hi
    have h1 : w < |x.fT - y.fT| := hap hi
    have h2 : x.fT ≤ y.fT := hle
    rw [abs_sub_comm, abs_of_nonneg (by linarith)] at h1
    exact h1

end PMTHitCluster

namespace NTagEventInfo

/-! ### More iterations change nothing -/

/-- The loop of `GetNhitsFromStartIndex` has left once `searchIndex` reaches the size of the
vector: more iterations than that do not change its result. -/
theorem GetNhitsLoop_fuel (T : List ℚ) (i : Nat) (w : ℚ) (extra : Nat) :
    ∀ fuel k, T.length ≤ k + fuel + 1 →
      GetNhitsLoop T i w (fuel + 1 + extra) k = GetNhitsLoop T i w (fuel + 1) k := by
  intro fuel
  induction fuel with
  | zero =>
    intro k hk
    rw [show 0 + 1 + extra = extra + 1 by omega]
    simp only [Nat.zero_add, GetNhitsLoop]
    rw [if_pos (Or.inl (by omega)), if_pos (Or.inl (by omega))]
  | succ f ih =>
    intro k hk
    rw [show f + 1 + 1 + extra = (f + 1 + extra) + 1 by omega]
    rw [GetNhitsLoop, GetNhitsLoop]
    split_ifs
    · rfl
    · exact ih (k + 1) (by omega)

end NTagEventInfo

namespace PMTHitCluster

/-! ### Attaching, replacing and removing the vertex -/

theorem SetVertex_of_noVertex (stdSort : List PMTHit → List PMTHit) (g : Geometry)
    (c : PMTHitCluster) (V : TVector3) (hv : c.fHasVertex = false) :
    SetVertex stdSort g c V =
      { fElement := stdSort (c.fElement.map (PMTHit.SetToFAndDirection g V))
        fIsSorted := true, fHasVertex := true, fVertex := V } := by
  simp [SetVertex, hv, SetToF, SortHits]

theorem SetVertex_of_vertex (stdSort : List PMTHit → List PMTHit) (g : Geometry)
    (c : PMTHitCluster) (V : TVector3) (hv : c.fHasVertex = true) (hne : c.fVertex ≠ V) :
    SetVertex stdSort g c V =
      { fElement := stdSort ((c.fElement.map PMTHit.UnsetToFAndDirection).map
          (PMTHit.SetToFAndDirection g V))
        fIsSorted := true, fHasVertex := true, fVertex := V } := by
  simp [SetVertex, hv, hne, RemoveVertex, SetToF, SortHits]

theorem RemoveVertex_of_vertex (g : Geometry) (c : PMTHitCluster) (hv : c.fHasVertex = true) :
    RemoveVertex g c =
      { fElement := c.fElement.map PMTHit.UnsetToFAndDirection
        fIsSorted := false, fHasVertex := false, fVertex := TVector3.zero } := by
  simp [RemoveVertex, hv, SetToF]

theorem Unset_SetToF (g : Geometry) (V : TVector3) (h : PMTHit) :
    (h.SetToFAndDirection g V).UnsetToFAndDirection =
      { h with fToF := 0, fHitDirection := TVector3.zero } := by
  cases h
  simp [PMTHit.SetToFAndDirection, PMTHit.UnsetToFAndDirection]

end PMTHitCluster

namespace PMTHitCluster


/-! ### The loop of `Slice` -/

end PMTHitCluster

namespace PMTHitCluster


/-! ### The keep rule of the dead-time loop, hit by hit -/

theorem deadtimeKeep_eq_foldl (g : Geometry) (w : ℚ) (h0 : Int → ℚ) (L : List PMTHit) :
    deadtimeKeep g w h0 L = (L.foldl (deadtimeStep g w) (h0, [])).2 := by
  rw [foldl_deadtimeStep]; rfl

theorem deadtimeStep_keep (g : Geometry) (w : ℚ) (st : (Int → ℚ) × List PMTHit) (x : PMTHit)
    (h1 : 1 ≤ x.i ∧ x.i ≤ g.MAXPM) (h2 : x.t - st.1 x.i > w) :
    deadtimeStep g w st x = (Function.update st.1 x.i x.t, st.2 ++ [x]) := by
  unfold deadtimeStep; simp only; rw [if_pos h1, if_pos h2]

theorem deadtimeStep_drop (g : Geometry) (w : ℚ) (st : (Int → ℚ) × List PMTHit) (x : PMTHit)
    (h : ¬ (1 ≤ x.i ∧ x.i ≤ g.MAXPM ∧ x.t - st.1 x.i > w)) :
    deadtimeStep g w st x = st := by
  unfold deadtimeStep; simp only
  by_cases h1 : 1 ≤ x.i ∧ x.i ≤ g.MAXPM
  · rw [if_pos h1, if_neg (fun h2 => h ⟨h1.1, h1.2, h2⟩)]
  · rw [if_neg h1]

/-- The loop run over `pre` and one more hit `x` keeps `x` exactly when `x` is on a table
channel and more than the window after the table entry of its channel. -/
theorem deadtimeKeep_snoc (g : Geometry) (w : ℚ) (h0 : Int → ℚ) (pre : List PMTHit)
    (x : PMTHit) :
    deadtimeKeep g w h0 (pre ++ [x]) =
      if 1 ≤ x.i ∧ x.i ≤ g.MAXPM ∧ x.t - (pre.foldl (deadtimeStep g w) (h0, [])).1 x.i > w then
        deadtimeKeep g w h0 pre ++ [x]
      else deadtimeKeep g w h0 pre := by
  rw [deadtimeKeep_eq_foldl, List.foldl_append, List.foldl_cons, List.foldl_nil,
    deadtimeKeep_eq_foldl g w h0 pre]
  by_cases hc : 1 ≤ x.i ∧ x.i ≤ g.MAXPM ∧
      x.t - (pre.foldl (deadtimeStep g w) (h0, [])).1 x.i > w
  · rw [if_pos hc, deadtimeStep_keep g w _ x ⟨hc.1, hc.2.1⟩ hc.2.2]
  · rw [if_neg hc, deadtimeStep_drop g w _ x hc]

/-- The table entry of a channel after the loop has run over `pre`: the initial value when no
kept hit is on the channel, otherwise the time of a kept hit on the channel. -/
theorem deadtime_table (g : Geometry) (w : ℚ) (h0 : Int → ℚ) (pre : List PMTHit) :
    ∀ ch : Int,
      ((pre.foldl (deadtimeStep g w) (h0, [])).1 ch = h0 ch) ∨
      (∃ y ∈ deadtimeKeep g w h0 pre, y.i = ch ∧
        (pre.foldl (deadtimeStep g w) (h0, [])).1 ch = y.t) := by
  induction pre using List.reverseRecOn with
  | nil => intro ch; left; rfl
  | append_singleton pre x ih =>
    intro ch
    rw [List.foldl_append, List.foldl_cons, List.foldl_nil, deadtimeKeep_snoc]
    by_cases hc : 1 ≤ x.i ∧ x.i ≤ g.MAXPM ∧
        x.t - (pre.foldl (deadtimeStep g w) (h0, [])).1 x.i > w
    · rw [if_pos hc, deadtimeStep_keep g w _ x ⟨hc.1, hc.2.1⟩ hc.2.2]
      by_cases hch : ch = x.i
      · right
        refine ⟨x, by simp, hch.symm, ?_⟩
        simp only
        rw [hch, Function.update_same]
      · simp only
        rw [Function.update_noteq hch]
        rcases ih ch with h | ⟨y, hy, hyc, hyt⟩
        · exact Or.inl h
        · exact Or.inr ⟨y, List.mem_append_left _ hy, hyc, hyt⟩
    · rw [if_neg hc, deadtimeStep_drop g w _ x hc]
      exact ih ch

/-- The hits kept from a prefix of the list are a prefix of the hits kept from the list. -/
theorem deadtimeKeep_prefix (g : Geometry) (w : ℚ) (A B : List PMTHit) :
    ∀ h0 : Int → ℚ, ∃ rest, deadtimeKeep g w h0 (A ++ B) = deadtimeKeep g w h0 A ++ rest := by
  induction A with
  | nil => intro h0; exact ⟨_, rfl⟩
  | cons x A ih =>
    intro h0
    rw [List.cons_append, deadtimeKeep_cons, deadtimeKeep_cons]
    split_ifs
    · obtain ⟨rest, hr⟩ := ih (Function.update h0 x.i x.t)
      exact ⟨rest, by rw [hr]; rfl⟩
    · exact ih h0

theorem ApplyDeadtime_fElement (stdSort : List PMTHit → List PMTHit) (g : Geometry)
    (beyond : ℚ) (c : PMTHitCluster) (w : ℚ) :
    (ApplyDeadtime stdSort g beyond c w).fElement =
      if c.fHasVertex = true then
        stdSort ((deadtimeKeep g w (hitTimeInit g beyond) (deadtimeInput stdSort c)).map
          (PMTHit.SetToFAndDirection g c.fVertex))
      else deadtimeKeep g w (hitTimeInit g beyond) (deadtimeInput stdSort c) := by
  cases hv : c.fHasVertex
  · rw [ApplyDeadtime_noVertex stdSort g beyond c w hv]
    simp [deadtimeInput, hv]
  · rw [ApplyDeadtime_vertex stdSort g beyond c w hv]
    simp [deadtimeInput, hv]

end PMTHitCluster

namespace NTagEventInfo


/-! ### The grid fit -/

/-- The pass over a list of search vertices: the minimum never rises, is at most the RMS of
every vertex of the list, and is either untouched or the RMS of the stored vertex, a vertex
of the list with an RMS below the old minimum, and then the pointer has been assigned. -/
theorem foldl_evalPoint (tk : Tank) (T : List ℚ) (P : List Int) (L : List TVector3) :
    ∀ st : ℚ × TVector3 × Bool,
      (L.foldl (evalPoint tk T P) st).1 ≤ st.1 ∧
      (∀ p ∈ L, (L.foldl (evalPoint tk T P) st).1 ≤ tRMSAt tk T P p) ∧
      (L.foldl (evalPoint tk T P) st = st ∨
        ((L.foldl (evalPoint tk T P) st).2.1 ∈ L ∧
          (L.foldl (evalPoint tk T P) st).1 =
            tRMSAt tk T P (L.foldl (evalPoint tk T P) st).2.1 ∧
          (L.foldl (evalPoint tk T P) st).1 < st.1 ∧
          (L.foldl (evalPoint tk T P) st).2.2 = true)) := by
  induction L with
  | nil => intro st; exact ⟨le_refl _, fun p hp => absurd hp (List.not_mem_nil p), Or.inl rfl⟩
  | cons x L ih =>
    intro st
    rw [List.foldl_cons]
    obtain ⟨h1, h2, h3⟩ := ih (evalPoint tk T P st x)
    by_cases hlt : tRMSAt tk T P x < st.1
    · have he : evalPoint tk T P st x = (tRMSAt tk T P x, x, true) := by
        unfold evalPoint; rw [if_pos hlt]
      rw [he] at h1 h2 h3 ⊢
      refine ⟨le_trans h1 (le_of_lt hlt), ?_, ?_⟩
      · intro p hp
        rcases List.mem_cons.mp hp with rfl | hp'
        · exact h1
        · exact h2 p hp'
      · right
        rcases h3 with h3 | ⟨h3a, h3b, h3c, h3d⟩
        · rw [h3]
          exact ⟨List.mem_cons_self _ _, rfl, hlt, rfl⟩
        · exact ⟨List.mem_cons_of_mem _ h3a, h3b, lt_trans h3c hlt, h3d⟩
    · have he : evalPoint tk T P st x = st := by
        unfold evalPoint; rw [if_neg hlt]
      rw [he] at h1 h2 h3 ⊢
      refine ⟨h1, ?_, ?_⟩
      · intro p hp
        rcases List.mem_cons.mp hp with rfl | hp'
        · exact le_trans h1 (not_lt.mp hlt)
        · exact h2 p hp'
      · rcases h3 with h3 | ⟨h3a, h3b, h3c, h3d⟩
        · exact Or.inl h3
        · exact Or.inr ⟨List.mem_cons_of_mem _ h3a, h3b, h3c, h3d⟩

/-- Every search vertex that reaches the evaluation is inside the tank and within the search
range of the centre of the grid. -/
theorem mem_gridPoints (tk : Tank) (R : ℚ) (rMax zMax : Int) (delta : ℚ) (vecR p : TVector3)
    (hp : p ∈ gridPoints tk R rMax zMax delta vecR) :
    inTank tk p ∧ Norm tk (p.x - vecR.x) (p.y - vecR.y) (p.z - vecR.z) ≤ R := by
  unfold gridPoints at hp
  rw [List.mem_flatMap] at hp
  obtain ⟨x, _, hp⟩ := hp
  rw [List.mem_flatMap] at hp
  obtain ⟨y, _, hp⟩ := hp
  split_ifs at hp with h1
  · exact absurd hp (List.not_mem_nil p)
  · rw [List.mem_flatMap] at hp
    obtain ⟨z, _, hp⟩ := hp
    split_ifs at hp with h2 h3
    · exact absurd hp (List.not_mem_nil p)
    · exact absurd hp (List.not_mem_nil p)
    · rw [List.mem_singleton] at hp
      subst hp
      simp only [not_or, not_lt] at h2
      exact ⟨⟨not_lt.mp h1, h2.2, h2.1⟩, not_lt.mp h3⟩

theorem length_flatMap_le {α β : Type} (l : List α) (f : α → List β) (n : Nat)
    (h : ∀ a ∈ l, (f a).length ≤ n) : (l.flatMap f).length ≤ l.length * n := by
  induction l with
  | nil => simp
  | cons a l ih =>
    rw [List.flatMap_cons, List.length_append, List.length_cons, Nat.succ_mul]
    have h1 := h a (List.mem_cons_self _ _)
    have h2 := ih (fun b hb => h b (List.mem_cons_of_mem _ hb))
    omega

/-- One pass of the nested loops evaluates at most `rMax * rMax * zMax` search vertices. -/
theorem length_gridPoints (tk : Tank) (R : ℚ) (rMax zMax : Int) (delta : ℚ) (vecR : TVector3) :
    (gridPoints tk R rMax zMax delta vecR).length ≤ rMax.toNat * rMax.toNat * zMax.toNat := by
  unfold gridPoints
  rw [Nat.mul_assoc]
  refine le_trans (length_flatMap_le _ _ (rMax.toNat * zMax.toNat) ?_) (by rw [List.length_range])
  intro x _
  refine le_trans (length_flatMap_le _ _ zMax.toNat ?_) (by rw [List.length_range])
  intro y _
  split_ifs
  · simp
  · refine le_trans (length_flatMap_le _ _ 1 ?_) (by rw [List.length_range, Nat.mul_one])
    intro z _
    split_ifs <;> simp

theorem fitRound_delta (tk : Tank) (R : ℚ) (rMax zMax : Int) (T : List ℚ) (P : List Int)
    (st : FitLocals) : (fitRound tk R rMax zMax T P st).delta = st.delta / 2 := rfl

theorem fitLoop_succ (tk : Tank) (R : ℚ) (rMax zMax : Int) (T : List ℚ) (P : List Int)
    (fuel : Nat) (st : FitLocals) :
    fitLoop tk R rMax zMax T P (fuel + 1) st =
      if st.delta > 1 / 2 then fitLoop tk R rMax zMax T P fuel (fitRound tk R rMax zMax T P st)
      else st := rfl

theorem fitRounds_succ (tk : Tank) (R : ℚ) (rMax zMax : Int) (T : List ℚ) (P : List Int)
    (fuel : Nat) (st : FitLocals) :
    fitRounds tk R rMax zMax T P (fuel + 1) st =
      if st.delta > 1 / 2 then
        st :: fitRounds tk R rMax zMax T P fuel (fitRound tk R rMax zMax T P st)
      else [] := rfl

/-- With a step of at most `2 ^ fuel / 2` the loop leaves by its own test: the final step is
at most 0.5 and more allowed rounds change nothing. -/
theorem fitLoop_fuel (tk : Tank) (R : ℚ) (rMax zMax : Int) (T : List ℚ) (P : List Int) :
    ∀ (fuel : Nat) (st : FitLocals), st.delta ≤ 2 ^ fuel / 2 →
      (fitLoop tk R rMax zMax T P fuel st).delta ≤ 1 / 2 ∧
      ∀ extra, fitLoop tk R rMax zMax T P (fuel + extra) st =
        fitLoop tk R rMax zMax T P fuel st := by
  intro fuel
  induction fuel with
  | zero =>
    intro st hst
    have hd : st.delta ≤ 1 / 2 := by simpa using hst
    refine ⟨hd, fun extra => ?_⟩
    cases extra with
    | zero => rfl
    | succ e =>
      rw [Nat.zero_add, fitLoop_succ, if_neg (not_lt.mpr hd)]
      rfl
  | succ fuel ih =>
    intro st hst
    by_cases hd : st.delta > 1 / 2
    · have h2 : (fitRound tk R rMax zMax T P st).delta ≤ 2 ^ fuel / 2 := by
        rw [fitRound_delta]
        rw [pow_succ] at hst
        linarith
      obtain ⟨i1, i2⟩ := ih _ h2
      refine ⟨by rw [fitLoop_succ, if_pos hd]; exact i1, fun extra => ?_⟩
      have : fuel + 1 + extra = (fuel + extra) + 1 := by omega
      rw [this, fitLoop_succ, fitLoop_succ, if_pos hd, if_pos hd]
      exact i2 extra
    · refine ⟨by rw [fitLoop_succ, if_neg hd]; exact not_lt.mp hd, fun extra => ?_⟩
      have : fuel + 1 + extra = (fuel + extra) + 1 := by omega
      rw [this, fitLoop_succ, fitLoop_succ, if_neg hd, if_neg hd]

/-- The loop result is one `fitRound` per traced round. -/
theorem fitLoop_eq_foldl (tk : Tank) (R : ℚ) (rMax zMax : Int) (T : List ℚ) (P : List Int) :
    ∀ (fuel : Nat) (st : FitLocals),
      fitLoop tk R rMax zMax T P fuel st =
        (fitRounds tk R rMax zMax T P fuel st).foldl
          (fun s _ => fitRound tk R rMax zMax T P s) st := by
  intro fuel
  induction fuel with
  | zero => intro st; rfl
  | succ fuel ih =>
    intro st
    rw [fitLoop_succ, fitRounds_succ]
    split_ifs
    · rw [List.foldl_cons]; exact ih _
    · rfl

theorem fitRounds_delta (tk : Tank) (R : ℚ) (rMax zMax : Int) (T : List ℚ) (P : List Int) :
    ∀ (fuel : Nat) (st : FitLocals),
      (fitRounds tk R rMax zMax T P fuel st).map (fun r => r.delta) =
        (List.range (fitRounds tk R rMax zMax T P fuel st).length).map
          (fun k => st.delta / 2 ^ k) ∧
      (∀ r ∈ fitRounds tk R rMax zMax T P fuel st, r.delta > 1 / 2) ∧
      (fitLoop tk R rMax zMax T P fuel st).delta =
        st.delta / 2 ^ (fitRounds tk R rMax zMax T P fuel st).length := by
  intro fuel
  induction fuel with
  | zero => intro st; simp [fitRounds, fitLoop]
  | succ fuel ih =>
    intro st
    rw [fitLoop_succ, fitRounds_succ]
    by_cases hd : st.delta > 1 / 2
    · rw [if_pos hd, if_pos hd]
      obtain ⟨i1, i2, i3⟩ := ih (fitRound tk R rMax zMax T P st)
      refine ⟨?_, ?_, ?_⟩
      · rw [List.map_cons, List.length_cons, List.range_succ_eq_map, List.map_cons,
          List.map_map, i1]
        simp only [pow_zero, div_one, fitRound_delta, List.cons.injEq, true_and]
        apply List.map_congr_left
        intro k _
        simp only [Function.comp, Nat.succ_eq_add_one, pow_succ]
        rw [div_div, mul_comm]
      · intro r hr
        rcases List.mem_cons.mp hr with rfl | hr'
        · exact hd
        · exact i2 r hr'
      · rw [i3, List.length_cons, fitRound_delta, pow_succ, div_div, mul_comm]
    · rw [if_neg hd, if_neg hd]
      simp

theorem fitRounds_length (tk : Tank) (R : ℚ) (rMax zMax : Int) (T : List ℚ) (P : List Int) :
    ∀ (fuel : Nat) (st : FitLocals), (∀ k < fuel, 1 / 2 < st.delta / 2 ^ k) →
      (fitRounds tk R rMax zMax T P fuel st).length = fuel := by
  intro fuel
  induction fuel with
  | zero => intro st _; rfl
  | succ fuel ih =>
    intro st h
    have hd : st.delta > 1 / 2 := by simpa using h 0 (Nat.succ_pos _)
    rw [fitRounds_succ, if_pos hd, List.length_cons, ih]
    intro k hk
    have := h (k + 1) (Nat.succ_lt_succ hk)
    rw [fitRound_delta]
    rw [pow_succ] at this
    have e : st.delta / 2 / 2 ^ k = st.delta / (2 ^ k * 2) := by
      rw [div_div, mul_comm]
    rw [e]; exact this

/-- The invariant of the loop of `MinimizeTRMS`: `vecR` is the stored best vertex, and either
nothing has improved on the initial 9999, the vertex is the tank centre and the pointer is not
assigned, or the minimum is below 9999 and is the RMS of the stored vertex, which was
evaluated in some round, and the pointer is assigned. -/
theorem fit_invariant (tk : Tank) (R : ℚ) (rMax zMax : Int) (T : List ℚ) (P : List Int)
    (S : TVector3 → Prop) :
    ∀ (fuel : Nat) (st : FitLocals),
      st.vecR = st.tmpVertex →
      ((st.minTRMS = 9999 ∧ st.vecR = TVector3.zero ∧ st.minTPointer = false) ∨
        (st.minTRMS < 9999 ∧ st.minTRMS = tRMSAt tk T P st.vecR ∧ S st.vecR ∧
          st.minTPointer = true)) →
      (∀ r ∈ fitRounds tk R rMax zMax T P fuel st,
        ∀ p ∈ gridPoints tk R rMax zMax r.delta r.vecR, S p) →
      (((fitLoop tk R rMax zMax T P fuel st).minTRMS = 9999 ∧
          (fitLoop tk R rMax zMax T P fuel st).vecR = TVector3.zero ∧
          (fitLoop tk R rMax zMax T P fuel st).minTPointer = false) ∨
        ((fitLoop tk R rMax zMax T P fuel st).minTRMS < 9999 ∧
          (fitLoop tk R rMax zMax T P fuel st).minTRMS =
            tRMSAt tk T P (fitLoop tk R rMax zMax T P fuel st).vecR ∧
          S (fitLoop tk R rMax zMax T P fuel st).vecR ∧
          (fitLoop tk R rMax zMax T P fuel st).minTPointer = true)) ∧
      (fitLoop tk R rMax zMax T P fuel st).minTRMS ≤ st.minTRMS ∧
      (∀ r ∈ fitRounds tk R rMax zMax T P fuel st,
        r.vecR = r.tmpVertex ∧
        ∀ p ∈ gridPoints tk R rMax zMax r.delta r.vecR,
          (fitLoop tk R rMax zMax T P fuel st).minTRMS ≤ tRMSAt tk T P p) := by
  intro fuel
  induction fuel with
  | zero =>
    intro st _ h2 _
    exact ⟨h2, le_refl _, fun r hr => absurd hr (List.not_mem_nil r)⟩
  | succ fuel ih =>
    intro st h1 h2 hS
    rw [fitLoop_succ, fitRounds_succ]
    rw [fitRounds_succ] at hS
    by_cases hd : st.delta > 1 / 2
    · rw [if_pos hd, if_pos hd]
      rw [if_pos hd] at hS
      obtain ⟨f1, f2, f3⟩ := foldl_evalPoint tk T P
        (gridPoints tk R rMax zMax st.delta st.vecR) (st.minTRMS, st.tmpVertex, st.minTPointer)
      have hround : ((fitRound tk R rMax zMax T P st).minTRMS = 9999 ∧
            (fitRound tk R rMax zMax T P st).vecR = TVector3.zero ∧
            (fitRound tk R rMax zMax T P st).minTPointer = false) ∨
          ((fitRound tk R rMax zMax T P st).minTRMS < 9999 ∧
            (fitRound tk R rMax zMax T P st).minTRMS =
              tRMSAt tk T P (fitRound tk R rMax zMax T P st).vecR ∧
            S (fitRound tk R rMax zMax T P st).vecR ∧
            (fitRound tk R rMax zMax T P st).minTPointer = true) := by
        have hle : st.minTRMS ≤ 9999 := by
          rcases h2 with h | h
          · exact le_of_eq h.1
          · exact le_of_lt h.1
        rcases f3 with f3 | ⟨f3a, f3b, f3c, f3d⟩
        · have e1 : (fitRound tk R rMax zMax T P st).minTRMS = st.minTRMS := by
            unfold fitRound; simp only; rw [f3]
          have e2 : (fitRound tk R rMax zMax T P st).vecR = st.vecR := by
            unfold fitRound; simp only; rw [f3, h1]
          have e3 : (fitRound tk R rMax zMax T P st).minTPointer = st.minTPointer := by
            unfold fitRound; simp only; rw [f3]
          rw [e1, e2, e3]; exact h2
        · right
          refine ⟨lt_of_lt_of_le f3c hle, f3b, ?_, f3d⟩
          exact hS st (List.mem_cons_self _ _) _ f3a
      obtain ⟨i1, i2, i3⟩ := ih (fitRound tk R rMax zMax T P st) rfl hround
        (fun r hr => hS r (List.mem_cons_of_mem _ hr))
      refine ⟨i1, le_trans i2 f1, ?_⟩
      intro r hr
      rcases List.mem_cons.mp hr with rfl | hr'
      · exact ⟨h1, fun p hp => le_trans i2 (f2 p hp)⟩
      · exact i3 r hr'
    · rw [if_neg hd, if_neg hd]
      exact ⟨h2, le_refl _, fun r hr => absurd hr (List.not_mem_nil r)⟩

theorem fitDelta_le (R : ℚ) : fitDelta R ≤ 2 ^ 8 / 2 := by
  unfold fitDelta
  split_ifs with h
  · norm_num
  · have := not_lt.mp h
    norm_num
    linarith

end NTagEventInfo

namespace NTagEventInfo


/-! ### The grid fit on hits with equal corrected times -/

/-- The result of `MinimizeTRMS`, when it has one, is the minimum and the vertex that the
loop leaves; it has one exactly when there are as many hits as channels, the pointer was
assigned and there are at most 1000 hits. -/
theorem MinimizeTRMS_eq_some (tk : Tank) (R : ℚ) (T : List ℚ) (P : List Int) (r : ℚ)
    (v : TVector3) :
    MinimizeTRMS tk R T P = some (r, v) ↔
      (T.length = P.length ∧ (fitEnd tk R T P).minTPointer = true ∧ T.length ≤ 1000 ∧
        r = (fitEnd tk R T P).minTRMS ∧ v = (fitEnd tk R T P).vecR) := by
  unfold MinimizeTRMS
  split_ifs with h
  · constructor
    · intro he
      have := Option.some.inj he
      exact ⟨h.1, h.2.1, h.2.2, (congrArg Prod.fst this).symm, (congrArg Prod.snd this).symm⟩
    · rintro ⟨_, _, _, rfl, rfl⟩
      rfl
  · constructor
    · intro he; exact absurd he (by simp)
    · rintro ⟨h0, h1, h2, _, _⟩
      exact absurd ⟨h0, h1, h2⟩ h

end NTagEventInfo

namespace NTagEventInfo


/-! ### Convergence of the grid fit towards a point that the hits determine -/

end NTagEventInfo

namespace NTagEventInfo


/-! ### The external fit, the truth match and the classifier output -/

theorem windowStep_length (U : List ℚ) (dtc : ℚ) (st : List Nat × List Nat) (iHit : Nat)
    (h : st.2.length ≤ 1000) : (windowStep U dtc st iHit).2.length ≤ 1000 := by
  unfold windowStep
  simp only
  split_ifs with h1 h2 h3 h4 h5 <;> simp_all <;> omega

/-- The counter `n1300hits` never exceeds 1000. -/
theorem n1300hits_le (U : List ℚ) (nqiskz : Int) (dtc : ℚ) : n1300hits U nqiskz dtc ≤ 1000 := by
  unfold n1300hits index1300
  have key : ∀ (L : List Nat) (st : List Nat × List Nat), st.2.length ≤ 1000 →
      (L.foldl (windowStep U dtc) st).2.length ≤ 1000 := by
    intro L
    induction L with
    | nil => intro st h; exact h
    | cons x L ih =>
      intro st h
      rw [List.foldl_cons]
      exact ih _ (windowStep_length U dtc st x h)
  have := key (List.range nqiskz.toNat) ([], []) (by simp)
  exact_mod_cast this

theorem sentinel_not_clamped :
    ¬ (bonsaiSentinel.tbspatlik < ((-9999 : ℚ) : WithBot ℚ)) := by
  simp only [bonsaiSentinel, WithBot.coe_lt_coe]
  norm_num

theorem IsCaptureLoop_eq_one_iff (tRecon W : ℚ) (L : List ℚ) :
    IsCaptureLoop tRecon W L = 1 ↔ ∃ t ∈ L, |t - tRecon| < W := by
  induction L with
  | nil => simp [IsCaptureLoop]
  | cons x L ih =>
    unfold IsCaptureLoop
    split_ifs with h
    · simp only [true_iff]
      exact ⟨x, List.mem_cons_self _ _, h⟩
    · rw [ih]
      constructor
      · rintro ⟨t, ht, h2⟩; exact ⟨t, List.mem_cons_of_mem _ ht, h2⟩
      · rintro ⟨t, ht, h2⟩
        rcases List.mem_cons.mp ht with rfl | ht'
        · exact absurd h2 h
        · exact ⟨t, ht', h2⟩

theorem IsCaptureLoop_zero_or_one (tRecon W : ℚ) (L : List ℚ) :
    IsCaptureLoop tRecon W L = 1 ∨ IsCaptureLoop tRecon W L = 0 := by
  induction L with
  | nil => right; rfl
  | cons x L ih =>
    unfold IsCaptureLoop
    split_ifs
    · left; rfl
    · exact ih

theorem foldl_push (f : Nat → ℚ) (L : List Nat) :
    ∀ v : List ℚ, L.foldl (fun v i => v ++ [f i]) v = v ++ L.map f := by
  induction L with
  | nil => intro v; simp
  | cons x L ih => intro v; rw [List.foldl_cons, ih]; simp

end NTagEventInfo

namespace NTagEventInfo


/-! ### One iteration of the loop of `SetTrueCaptureInfo` -/

theorem getD_snoc_length {α : Type} (A : List α) (x d : α) (k : Nat) (hk : A.length = k) :
    (A ++ [x]).getD k d = x := by
  subst hk
  simp [List.getD_eq_getElem?_getD]

theorem getD_snoc_lt {α : Type} (A : List α) (x d : α) (j : Nat) (hj : j < A.length) :
    (A ++ [x]).getD j d = A.getD j d := by
  simp [List.getD_eq_getElem?_getD, List.getElem?_append_left hj]

theorem set_snoc_length {α : Type} (A : List α) (x v : α) (k : Nat) (hk : A.length = k) :
    (A ++ [x]).set k v = A ++ [v] := by
  subst hk
  induction A with
  | nil => rfl
  | cons a A ih => simp [ih]

theorem set_snoc_lt {α : Type} (A : List α) (x v : α) (j : Nat) (hj : j < A.length) :
    (A ++ [x]).set j v = A.set j v ++ [x] := by
  induction A generalizing j with
  | nil => simp at hj
  | cons a A ih =>
    cases j with
    | zero => simp
    | succ j => simp at hj; simp [ih j hj]

/-- A candidate that is not a true capture gets the value of `IsCapture` and zeros. -/
theorem truthStep_nocap (m : MCTruth) (st : TruthVectors) (i : Nat)
    (hlen : st.vIsCapture.length = i) (hc : IsCapture m i ≠ 1) :
    truthStep m st i =
      { vIsCapture := st.vIsCapture ++ [IsCapture m i], vDoubleCount := st.vDoubleCount ++ [0],
        vCTDiff := st.vCTDiff ++ [0], checkedCT := st.checkedCT } := by
  unfold truthStep
  simp only
  rw [getD_snoc_length _ _ _ _ hlen, if_neg hc]

/-- A true capture whose capture time is not within 0.001 of a checked one is recorded as a
new capture. -/
theorem truthStep_new (m : MCTruth) (st : TruthVectors) (i : Nat)
    (hlen : st.vIsCapture.length = i) (hc : IsCapture m i = 1)
    (hnew : ∀ c ∈ st.checkedCT, ¬ |TrueCaptureTime m i - c| < 1 / 1000) :
    truthStep m st i =
      { vIsCapture := st.vIsCapture ++ [1], vDoubleCount := st.vDoubleCount ++ [0],
        vCTDiff := st.vCTDiff ++ [ReconCaptureTime m i - TrueCaptureTime m i],
        checkedCT := st.checkedCT ++ [TrueCaptureTime m i] } := by
  unfold truthStep
  simp only
  rw [getD_snoc_length _ _ _ _ hlen, if_pos hc, hc]
  have hany : (st.checkedCT.any (fun CTinList =>
      decide (|TrueCaptureTime m i - CTinList| < 1 / 1000))) = false := by
    rw [List.any_eq_false]
    intro c hcm
    simpa using hnew c hcm
  rw [hany]
  simp

/-- A true capture whose capture time is within 0.001 of a checked one: the candidate with the
smaller absolute time difference among it and the candidate before it stays, the previous
one on a tie; the other is marked. -/
theorem truthStep_dup (m : MCTruth) (st : TruthVectors) (i : Nat)
    (hlen : st.vIsCapture.length = i) (hlenD : st.vDoubleCount.length = i)
    (hlenC : st.vCTDiff.length = i) (hc : IsCapture m i = 1)
    (hdup : ∃ c ∈ st.checkedCT, |TrueCaptureTime m i - c| < 1 / 1000) :
    truthStep m st i =
      if |ReconCaptureTime m i - TrueCaptureTime m i| <
          |(st.vCTDiff ++ [ReconCaptureTime m i - TrueCaptureTime m i]).getD (i - 1) 0| then
        { vIsCapture := (st.vIsCapture ++ [1]).set (i - 1) 0,
          vDoubleCount := (st.vDoubleCount ++ [0]).set (i - 1) 1,
          vCTDiff := st.vCTDiff ++ [ReconCaptureTime m i - TrueCaptureTime m i],
          checkedCT := st.checkedCT }
      else
        { vIsCapture := st.vIsCapture ++ [0], vDoubleCount := st.vDoubleCount ++ [1],
          vCTDiff := st.vCTDiff ++ [ReconCaptureTime m i - TrueCaptureTime m i],
          checkedCT := st.checkedCT } := by
  unfold truthStep
  simp only
  rw [getD_snoc_length _ _ _ _ hlen, if_pos hc, hc]
  have hany : (st.checkedCT.any (fun CTinList =>
      decide (|TrueCaptureTime m i - CTinList| < 1 / 1000))) = true := by
    rw [List.any_eq_true]
    obtain ⟨c, hcm, hlt⟩ := hdup
    exact ⟨c, hcm, by simpa using hlt⟩
  rw [hany]
  simp only [Bool.not_true, Bool.false_eq_true, if_false]
  rw [getD_snoc_length _ _ _ _ hlenC, set_snoc_length _ _ _ _ hlen,
    set_snoc_length _ _ _ _ hlenD]

end NTagEventInfo

namespace NTagEventInfo


/-! ### Truth matching with a single true capture -/

theorem IsCapture_single (m : MCTruth) (t : ℚ) (i : Nat) (hb : m.nAllSec < 4000)
    (hT : m.vTrueCT = [t]) :
    IsCapture m i = if |t - ReconCaptureTime m i| < m.TMATCHWINDOW then 1 else 0 := by
  unfold IsCapture MAXNSCNDPRT
  rw [if_neg (not_le.mpr hb), hT]
  rfl

theorem TrueCaptureTime_single (m : MCTruth) (t : ℚ) (i : Nat) (hb : m.nAllSec < 4000)
    (hT : m.vTrueCT = [t]) (hi : |t - ReconCaptureTime m i| < m.TMATCHWINDOW) :
    TrueCaptureTime m i = t := by
  unfold TrueCaptureTime MAXNSCNDPRT
  rw [if_neg (not_le.mpr hb), hT]
  unfold TrueCaptureTimeLoop
  rw [if_pos hi]

/-- A stretch of candidates that are not true captures appends zeros. -/
theorem foldl_truthStep_zeros (m : MCTruth) :
    ∀ (len s : Nat) (st : TruthVectors), st.vIsCapture.length = s →
      (∀ i, s ≤ i → i < s + len → IsCapture m i = 0) →
      (List.range' s len).foldl (truthStep m) st =
        { vIsCapture := st.vIsCapture ++ List.replicate len 0,
          vDoubleCount := st.vDoubleCount ++ List.replicate len 0,
          vCTDiff := st.vCTDiff ++ List.replicate len 0, checkedCT := st.checkedCT } := by
  intro len
  induction len with
  | zero => intro s st _ _; simp
  | succ len ih =>
    intro s st hlen h0
    have hs := h0 s (le_refl _) (by omega)
    rw [List.range'_succ, List.foldl_cons,
      truthStep_nocap m st s hlen (by rw [hs]; decide), hs,
      ih (s + 1) _ (by simp [hlen]) (fun i h1 h2 => h0 i (by omega) (by omega))]
    simp [List.replicate_succ]

end NTagEventInfo

namespace NTagEventInfo


/-! ### Candidates in time order matched to one true capture -/

theorem getD_set_ne {α : Type} (A : List α) (k j : Nat) (v d : α) (h : j ≠ k) :
    (A.set k v).getD j d = A.getD j d := by
  simp [List.getD_eq_getElem?_getD, List.getElem?_set, Ne.symm h]

theorem getD_set_eq {α : Type} (A : List α) (k : Nat) (v d : α) (h : k < A.length) :
    (A.set k v).getD k d = v := by
  simp [List.getD_eq_getElem?_getD, List.getElem?_set, h]

/-- The capture time found by the loop is within the window of the candidate time. -/
theorem TrueCaptureTimeLoop_within (r W : ℚ) (L : List ℚ) (h : IsCaptureLoop r W L = 1) :
    |TrueCaptureTimeLoop r W L - r| < W := by
  induction L with
  | nil => simp [IsCaptureLoop] at h
  | cons u L ih =>
    unfold IsCaptureLoop at h
    unfold TrueCaptureTimeLoop
    split_ifs at h ⊢ with hu
    · exact hu
    · exact ih h

/-- A candidate time between two candidate times that are matched to the same capture time is
matched to that capture time too. -/
theorem TrueCaptureTimeLoop_between (W : ℚ) (L : List ℚ) (r1 r2 r3 : ℚ)
    (h12 : r1 ≤ r2) (h23 : r2 ≤ r3)
    (c1 : IsCaptureLoop r1 W L = 1) (c3 : IsCaptureLoop r3 W L = 1)
    (he : TrueCaptureTimeLoop r1 W L = TrueCaptureTimeLoop r3 W L) :
    IsCaptureLoop r2 W L = 1 ∧ TrueCaptureTimeLoop r2 W L = TrueCaptureTimeLoop r1 W L := by
  induction L with
  | nil => simp [IsCaptureLoop] at c1
  | cons u L ih =>
    have w1 := TrueCaptureTimeLoop_within r1 W (u :: L) c1
    have w3 := TrueCaptureTimeLoop_within r3 W (u :: L) c3
    unfold IsCaptureLoop at c1 c3 ⊢
    unfold TrueCaptureTimeLoop at he w1 w3 ⊢
    by_cases hu1 : |u - r1| < W
    · by_cases hu3 : |u - r3| < W
      · have hu2 : |u - r2| < W := by
          rw [abs_lt] at hu1 hu3 ⊢
          constructor <;> linarith
        rw [if_pos hu2, if_pos hu2, if_pos hu1]
        exact ⟨rfl, rfl⟩
      · rw [if_pos hu1, if_neg hu3] at he
        rw [if_neg hu3] at w3
        rw [← he] at w3
        exact absurd w3 hu3
    · by_cases hu3 : |u - r3| < W
      · rw [if_neg hu1, if_pos hu3] at he
        rw [if_neg hu1] at w1
        rw [he] at w1
        exact absurd w1 hu1
      · rw [if_neg hu1] at c1 w1
        rw [if_neg hu3] at c3 w3
        rw [if_neg hu1, if_neg hu3] at he
        have hu2 : ¬ |u - r2| < W := by
          intro hu2
          rw [← he] at w3
          rw [abs_lt] at hu2 w1 w3
          have a1 := not_lt.mp hu1
          have a3 := not_lt.mp hu3
          rw [le_abs'] at a1 a3
          rcases a1 with a1 | a1 <;> rcases a3 with a3 | a3 <;> linarith [hu2.1, hu2.2, w1.1,
            w1.2, w3.1, w3.2]
        rw [if_neg hu2, if_neg hu2, if_neg hu1]
        exact ih c1 c3 he

theorem IsCapture_eq_loop (m : MCTruth) (i : Nat) (h : IsCapture m i = 1) :
    m.nAllSec < 4000 ∧
    IsCaptureLoop (ReconCaptureTime m i) m.TMATCHWINDOW m.vTrueCT = 1 := by
  unfold IsCapture MAXNSCNDPRT at h
  split_ifs at h with hb
  exact ⟨not_le.mp hb, h⟩

theorem IsCapture_of_loop (m : MCTruth) (i : Nat) (hb : m.nAllSec < 4000) :
    IsCapture m i = IsCaptureLoop (ReconCaptureTime m i) m.TMATCHWINDOW m.vTrueCT ∧
    TrueCaptureTime m i =
      TrueCaptureTimeLoop (ReconCaptureTime m i) m.TMATCHWINDOW m.vTrueCT := by
  unfold IsCapture TrueCaptureTime MAXNSCNDPRT
  rw [if_neg (not_le.mpr hb), if_neg (not_le.mpr hb)]
  exact ⟨rfl, rfl⟩

/-- For candidates in time order, a candidate between two true captures with the same capture
time is a true capture with that capture time. -/
theorem capture_between (m : MCTruth) (i j l : Nat)
    (hij : ReconCaptureTime m i ≤ ReconCaptureTime m j)
    (hjl : ReconCaptureTime m j ≤ ReconCaptureTime m l)
    (ci : IsCapture m i = 1) (cl : IsCapture m l = 1)
    (he : TrueCaptureTime m i = TrueCaptureTime m l) :
    IsCapture m j = 1 ∧ TrueCaptureTime m j = TrueCaptureTime m i := by
  obtain ⟨hb, li⟩ := IsCapture_eq_loop m i ci
  obtain ⟨_, ll⟩ := IsCapture_eq_loop m l cl
  rw [(IsCapture_of_loop m i hb).2, (IsCapture_of_loop m l hb).2] at he
  rw [(IsCapture_of_loop m j hb).1, (IsCapture_of_loop m j hb).2, (IsCapture_of_loop m i hb).2]
  exact TrueCaptureTimeLoop_between _ _ _ _ _ hij hjl li ll he

end NTagEventInfo

namespace NTagEventInfo


/-! ### The invariant of the loop of `SetTrueCaptureInfo` -/

theorem truthInv_cleared (m : MCTruth) :
    truthInv m 0 { truthCleared with checkedCT := [] } := by
  refine ⟨rfl, rfl, rfl, ?_, ?_, ?_⟩ <;> intro j hj <;> exact absurd hj (Nat.not_lt_zero j)

theorem truthInv_step_nocap (m : MCTruth) (i : Nat) (st : TruthVectors)
    (h : truthInv m i st) (hc : IsCapture m i ≠ 1) : truthInv m (i + 1) (truthStep m st i) := by
  obtain ⟨l1, l2, l3, hC, hK, hL⟩ := h
  rw [truthStep_nocap m st i l1 hc]
  refine ⟨by simp [l1], by simp [l2], by simp [l3], ?_, ?_, ?_⟩
  · intro j hj
    simp only
    rcases Nat.lt_succ_iff_lt_or_eq.mp hj with hlt | rfl
    · rw [getD_snoc_lt _ _ _ _ (by omega)]; exact hC j hlt
    · rw [getD_snoc_length _ _ _ _ l3, if_neg hc]
  · intro j hj hcj
    simp only
    rcases Nat.lt_succ_iff_lt_or_eq.mp hj with hlt | rfl
    · exact hK j hlt hcj
    · exact absurd hcj hc
  · intro j hj hlab
    simp only at hlab
    rcases Nat.lt_succ_iff_lt_or_eq.mp hj with hlt | rfl
    · rw [getD_snoc_lt _ _ _ _ (by omega)] at hlab
      obtain ⟨a, b, c⟩ := hL j hlt hlab
      refine ⟨a, b, fun hj1 hc1 => ?_⟩
      rcases Nat.lt_succ_iff_lt_or_eq.mp hj1 with h2 | h2
      · exact c h2 hc1
      · rw [h2] at hc1; exact absurd hc1 hc
    · rw [getD_snoc_length _ _ _ _ l1] at hlab
      exact absurd hlab hc

theorem truthInv_step_new (m : MCTruth) (i : Nat) (st : TruthVectors)
    (h : truthInv m i st) (hc : IsCapture m i = 1)
    (hnew : ∀ c ∈ st.checkedCT, ¬ |TrueCaptureTime m i - c| < 1 / 1000) :
    truthInv m (i + 1) (truthStep m st i) := by
  obtain ⟨l1, l2, l3, hC, hK, hL⟩ := h
  rw [truthStep_new m st i l1 hc hnew]
  have hfresh : ∀ j, j < i → IsCapture m j = 1 → TrueCaptureTime m j ≠ TrueCaptureTime m i := by
    intro j hj hcj he
    obtain ⟨c, hcm, hlt⟩ := hK j hj hcj
    rw [he] at hlt
    exact hnew c hcm hlt
  refine ⟨by simp [l1], by simp [l2], by simp [l3], ?_, ?_, ?_⟩
  · intro j hj
    simp only
    rcases Nat.lt_succ_iff_lt_or_eq.mp hj with hlt | rfl
    · rw [getD_snoc_lt _ _ _ _ (by omega)]; exact hC j hlt
    · rw [getD_snoc_length _ _ _ _ l3, if_pos hc]; rfl
  · intro j hj hcj
    simp only
    rcases Nat.lt_succ_iff_lt_or_eq.mp hj with hlt | rfl
    · obtain ⟨c, hcm, h2⟩ := hK j hlt hcj
      exact ⟨c, List.mem_append_left _ hcm, h2⟩
    · exact ⟨TrueCaptureTime m j, by simp, by norm_num⟩
  · intro j hj hlab
    simp only at hlab
    rcases Nat.lt_succ_iff_lt_or_eq.mp hj with hlt | rfl
    · rw [getD_snoc_lt _ _ _ _ (by omega)] at hlab
      obtain ⟨a, b, c⟩ := hL j hlt hlab
      refine ⟨a, b, fun hj1 hc1 he => ?_⟩
      rcases Nat.lt_succ_iff_lt_or_eq.mp hj1 with h2 | h2
      · exact c h2 hc1 he
      · rw [h2] at he
        exact absurd he.symm (hfresh j hlt a)
    · exact ⟨hc, Or.inl (fun j' hj' hcj' => hfresh j' hj' hcj'),
        fun hj1 => absurd hj1 (lt_irrefl _)⟩

theorem truthInv_step_dup (m : MCTruth) (i : Nat) (st : TruthVectors)
    (h : truthInv m i st) (hc : IsCapture m i = 1)
    (hdup : ∃ c ∈ st.checkedCT, |TrueCaptureTime m i - c| < 1 / 1000) :
    truthInv m (i + 1) (truthStep m st i) := by
  obtain ⟨l1, l2, l3, hC, hK, hL⟩ := h
  rw [truthStep_dup m st i l1 l2 l3 hc hdup]
  have hCi : ∀ j, j < i + 1 →
      (st.vCTDiff ++ [ReconCaptureTime m i - TrueCaptureTime m i]).getD j 0 =
        if IsCapture m j = 1 then ctDiff m j else 0 := by
    intro j hj
    rcases Nat.lt_succ_iff_lt_or_eq.mp hj with hlt | rfl
    · rw [getD_snoc_lt _ _ _ _ (by omega)]; exact hC j hlt
    · rw [getD_snoc_length _ _ _ _ l3, if_pos hc]; rfl
  have hKi : ∀ j, j < i + 1 → IsCapture m j = 1 →
      ∃ c ∈ st.checkedCT, |TrueCaptureTime m j - c| < 1 / 1000 := by
    intro j hj hcj
    rcases Nat.lt_succ_iff_lt_or_eq.mp hj with hlt | rfl
    · exact hK j hlt hcj
    · exact hdup
  by_cases hlt : |ReconCaptureTime m i - TrueCaptureTime m i| <
      |(st.vCTDiff ++ [ReconCaptureTime m i - TrueCaptureTime m i]).getD (i - 1) 0|
  · rw [if_pos hlt]
    have hi : 1 ≤ i := by
      by_contra h0
      have hz : i = 0 := by omega
      subst hz
      rw [getD_snoc_length _ _ _ _ l3] at hlt
      exact lt_irrefl _ hlt
    rw [hCi (i - 1) (by omega)] at hlt
    have hcp : IsCapture m (i - 1) = 1 := by
      by_contra hn
      rw [if_neg hn, abs_zero] at hlt
      exact absurd hlt (not_lt.mpr (abs_nonneg _))
    rw [if_pos hcp] at hlt
    refine ⟨by simp [l1], by simp [l2], by simp [l3], hCi, hKi, ?_⟩
    intro j hj hlab
    simp only at hlab
    by_cases hjp : j = i - 1
    · rw [hjp, getD_set_eq _ _ _ _ (by simp [l1]; omega)] at hlab
      norm_num at hlab
    · rw [getD_set_ne _ _ _ _ _ hjp] at hlab
      rcases Nat.lt_succ_iff_lt_or_eq.mp hj with hlt2 | rfl
      · rw [getD_snoc_lt _ _ _ _ (by omega)] at hlab
        obtain ⟨a, b, c⟩ := hL j hlt2 hlab
        exact ⟨a, b, fun _ hc1 he => c (by omega) hc1 he⟩
      · exact ⟨hc, Or.inr ⟨hi, hcp, hlt⟩, fun hj1 => absurd hj1 (lt_irrefl _)⟩
  · rw [if_neg hlt]
    refine ⟨by simp [l1], by simp [l2], by simp [l3], hCi, hKi, ?_⟩
    intro j hj hlab
    simp only at hlab
    rcases Nat.lt_succ_iff_lt_or_eq.mp hj with hlt2 | rfl
    · rw [getD_snoc_lt _ _ _ _ (by omega)] at hlab
      obtain ⟨a, b, c⟩ := hL j hlt2 hlab
      refine ⟨a, b, fun hj1 hc1 he => ?_⟩
      rcases Nat.lt_succ_iff_lt_or_eq.mp hj1 with h2 | h2
      · exact c h2 hc1 he
      · have hji : j = i - 1 := by omega
        have h3 := hCi (i - 1) (by omega)
        rw [← hji, if_pos a] at h3
        rw [← hji, h3] at hlt
        rw [h2]
        exact hlt
    · rw [getD_snoc_length _ _ _ _ l1] at hlab
      norm_num at hlab

theorem truthInv_step (m : MCTruth) (i : Nat) (st : TruthVectors) (h : truthInv m i st) :
    truthInv m (i + 1) (truthStep m st i) := by
  by_cases hc : IsCapture m i = 1
  · by_cases hdup : ∃ c ∈ st.checkedCT, |TrueCaptureTime m i - c| < 1 / 1000
    · exact truthInv_step_dup m i st h hc hdup
    · exact truthInv_step_new m i st h hc (fun c hcm hlt => hdup ⟨c, hcm, hlt⟩)
  · exact truthInv_step_nocap m i st h hc

theorem truthInv_range (m : MCTruth) (n : Nat) :
    truthInv m n ((List.range n).foldl (truthStep m) { truthCleared with checkedCT := [] }) := by
  induction n with
  | zero => exact truthInv_cleared m
  | succ n ih =>
    rw [List.range_succ, List.foldl_append, List.foldl_cons, List.foldl_nil]
    exact truthInv_step m n _ ih

end NTagEventInfo

namespace NTagEventInfo


/-! ### The first hit time along the peak search -/

theorem SavePeakFromHit_firstHitTime (s : Settings) (e : NTagEventInfo) (h : Nat) :
    (SavePeakFromHit s e h).firstHitTime_ToF = e.firstHitTime_ToF := by
  unfold SavePeakFromHit; simp only; split_ifs <;> rfl

theorem recordMaxN200_firstHitTime (e : NTagEventInfo) (t : ℚ) (n : Int) :
    (recordMaxN200 e t n).firstHitTime_ToF = e.firstHitTime_ToF := by
  unfold recordMaxN200; split_ifs <;> rfl

theorem recordFirstHitTime_of_ne (e : NTagEventInfo) (t : ℚ) (h : e.firstHitTime_ToF ≠ 0) :
    recordFirstHitTime e t = e := by
  unfold recordFirstHitTime; rw [if_neg h]

/-- The loop body writes `firstHitTime_ToF` only when it is 0. -/
theorem scanStep_firstHitTime (s : Settings) (st : ScanLocals × NTagEventInfo) (i : Nat)
    (h : st.2.firstHitTime_ToF ≠ 0) :
    (scanStep s st i).2.firstHitTime_ToF = st.2.firstHitTime_ToF := by
  obtain ⟨l, e⟩ := st
  unfold scanStep
  simp only
  rw [recordFirstHitTime_of_ne e _ h]
  split_ifs <;>
    simp only [SavePeakFromHit_firstHitTime, recordMaxN200_firstHitTime]

theorem scanPrefix_firstHitTime (s : Settings) (e : NTagEventInfo) (n : Nat)
    (h : e.firstHitTime_ToF ≠ 0) :
    (scanPrefix s e n).2.firstHitTime_ToF = e.firstHitTime_ToF := by
  induction n with
  | zero => rfl
  | succ n ih =>
    rw [scanPrefix_succ, scanStep_firstHitTime s _ n (by rw [ih]; exact h), ih]

end NTagEventInfo

namespace NTagEventInfo


/-! ### The window of `GetNhitsFromStartIndex` -/

theorem GetNhitsLoop_succ (T : List ℚ) (i : Nat) (w : ℚ) (fuel k : Nat) :
    GetNhitsLoop T i w (fuel + 1) k =
      if k + 1 + 1 > T.length ∨ |elemAt T (k + 1) - elemAt T i| > w then k + 1
      else GetNhitsLoop T i w fuel (k + 1) := rfl

/-- The final `searchIndex` of the loop started inside the vector: it is past the start
value and at most the size, every index passed is within the width of hit `i`, and the index
at which the loop stops inside the vector is not. -/
theorem GetNhitsLoop_spec (T : List ℚ) (i : Nat) (w : ℚ) :
    ∀ fuel k, k < T.length → T.length ≤ k + fuel →
      (∀ j, i < j → j ≤ k → |elemAt T j - elemAt T i| ≤ w) →
      k < GetNhitsLoop T i w fuel k ∧ GetNhitsLoop T i w fuel k ≤ T.length ∧
      (∀ j, i < j → j < GetNhitsLoop T i w fuel k → |elemAt T j - elemAt T i| ≤ w) ∧
      (GetNhitsLoop T i w fuel k < T.length →
        |elemAt T (GetNhitsLoop T i w fuel k) - elemAt T i| > w) := by
  intro fuel
  induction fuel with
  | zero => intro k h1 h2; omega
  | succ fuel ih =>
    intro k h1 h2 hin
    rw [GetNhitsLoop_succ]
    by_cases hc : k + 1 + 1 > T.length ∨ |elemAt T (k + 1) - elemAt T i| > w
    · rw [if_pos hc]
      refine ⟨by omega, by omega, fun j h3 h4 => hin j h3 (by omega), fun h5 => ?_⟩
      rcases hc with hc | hc
      · omega
      · exact hc
    · rw [if_neg hc]
      rw [not_or] at hc
      obtain ⟨r1, r2, r3, r4⟩ := ih (k + 1) (by omega) (by omega)
        (fun j h3 h4 => by
          rcases Nat.lt_or_eq_of_le h4 with h5 | h5
          · exact hin j h3 (by omega)
          · rw [h5]; exact not_lt.mp hc.2)
      exact ⟨by omega, r2, r3, r4⟩

/-- The result of `GetNhitsFromStartIndex` for a start index inside the vector, as a natural
number `r`: `1 ≤ r ≤ size - i`, the hits `i .. i + r - 1` are within the width of hit `i`, and
the hit `i + r`, if there is one, is not. -/
theorem GetNhitsFromStartIndex_spec (T : List ℚ) (i : Nat) (w : ℚ) (hi : i < T.length) :
    ∃ r : Nat, GetNhitsFromStartIndex T i w = (r : Int) ∧ 1 ≤ r ∧ i + r ≤ T.length ∧
      (∀ j, i < j → j < i + r → |elemAt T j - elemAt T i| ≤ w) ∧
      (i + r < T.length → |elemAt T (i + r) - elemAt T i| > w) := by
  obtain ⟨r1, r2, r3, r4⟩ := GetNhitsLoop_spec T i w (T.length + 1) i hi (by omega)
    (fun j h1 h2 => by omega)
  refine ⟨GetNhitsLoop T i w (T.length + 1) i - i, ?_, by omega, by omega, ?_, ?_⟩
  · unfold GetNhitsFromStartIndex
    simp only
    rw [abs_of_nonneg (by omega)]
    omega
  · intro j h1 h2
    exact r3 j h1 (by omega)
  · intro h
    have e : i + (GetNhitsLoop T i w (T.length + 1) i - i) =
        GetNhitsLoop T i w (T.length + 1) i := by omega
    rw [e] at h ⊢
    exact r4 h

theorem filter_range_window (p : Nat → Bool) (n i r : Nat) (hr : i + r ≤ n)
    (hp : ∀ j, j < n → (p j = true ↔ i ≤ j ∧ j < i + r)) :
    ((List.range n).filter p).length = r := by
  have hsplit : List.range n = List.range' 0 i ++ (List.range' i r ++ List.range' (i + r)
      (n - (i + r))) := by
    have e1 : List.range' i r ++ List.range' (i + r) (n - (i + r)) = List.range' i (n - i) := by
      rw [List.range'_append_1]
      congr 1
      omega
    have e2 : List.range' 0 i ++ List.range' (0 + i) (n - i) = List.range' 0 n := by
      rw [List.range'_append_1]
      congr 1
      omega
    rw [List.range_eq_range', e1, ← e2, Nat.zero_add]
  rw [hsplit, List.filter_append, List.filter_append]
  have h1 : (List.range' 0 i).filter p = [] := by
    rw [List.filter_eq_nil_iff]
    intro j hj
    rw [List.mem_range'_1] at hj
    intro hc
    have := (hp j (by omega)).mp hc
    omega
  have h2 : (List.range' i r).filter p = List.range' i r := by
    rw [List.filter_eq_self]
    intro j hj
    rw [List.mem_range'_1] at hj
    exact (hp j (by omega)).mpr ⟨hj.1, hj.2⟩
  have h3 : (List.range' (i + r) (n - (i + r))).filter p = [] := by
    rw [List.filter_eq_nil_iff]
    intro j hj
    rw [List.mem_range'_1] at hj
    intro hc
    have := (hp j (by omega)).mp hc
    omega
  rw [h1, h2, h3]
  simp

end NTagEventInfo

namespace NTagEventInfo


/-! ### The recorded candidate times -/

theorem recon_SavePeakFromHit (s : Settings) (T : List ℚ) (e : NTagEventInfo) (h : Nat)
    (hT : e.vSortedT_ToF = T) (hh : h < T.length)
    (h1 : ∀ x ∈ e.vFirstHitID, x < T.length)
    (h2 : e.vReconCT = e.vFirstHitID.map (reconOf T)) :
    (∀ x ∈ (SavePeakFromHit s e h).vFirstHitID, x < T.length) ∧
    (SavePeakFromHit s e h).vReconCT = (SavePeakFromHit s e h).vFirstHitID.map (reconOf T) := by
  unfold SavePeakFromHit
  simp only
  split_ifs
  · simp only [List.map_append, List.map_cons, List.map_nil]
    refine ⟨?_, ?_⟩
    · intro x hx
      rcases List.mem_append.mp hx with hx | hx
      · exact h1 x hx
      · rw [List.mem_singleton] at hx; rw [hx]; exact hh
    · rw [h2, hT]; rfl
  · exact ⟨h1, h2⟩

theorem recon_of_core (T : List ℚ) (e e' : NTagEventInfo) (hc : core e' = core e)
    (h : (∀ x ∈ e.vFirstHitID, x < T.length) ∧ e.vReconCT = e.vFirstHitID.map (reconOf T)) :
    (∀ x ∈ e'.vFirstHitID, x < T.length) ∧ e'.vReconCT = e'.vFirstHitID.map (reconOf T) := by
  have a := congrArg NTagEventInfo.vFirstHitID hc
  have b := congrArg NTagEventInfo.vReconCT hc
  simp only [core] at a b
  rw [a, b]
  exact h

theorem recon_scanStep (s : Settings) (T : List ℚ) (st : ScanLocals × NTagEventInfo) (i : Nat)
    (hT : st.2.vSortedT_ToF = T) (hi : i < T.length)
    (h0 : st.1.iHitPrevious < T.length)
    (h1 : ∀ x ∈ st.2.vFirstHitID, x < T.length)
    (h2 : st.2.vReconCT = st.2.vFirstHitID.map (reconOf T)) :
    (scanStep s st i).1.iHitPrevious < T.length ∧
    (∀ x ∈ (scanStep s st i).2.vFirstHitID, x < T.length) ∧
    (scanStep s st i).2.vReconCT = (scanStep s st i).2.vFirstHitID.map (reconOf T) := by
  obtain ⟨l, e⟩ := st
  by_cases hq : qualifies s e.vSortedT_ToF i
  · have hl := scanStep_qualifies_locals s l e i hq
    have he := scanStep_qualifies_event s l e i hq
    refine ⟨?_, ?_⟩
    · rw [hl]
      split_ifs
      · exact hi
      · exact h0
      · exact hi
    · refine recon_of_core T _ _ he ?_
      split_ifs
      · exact recon_SavePeakFromHit s T e _ hT h0 h1 h2
      · exact ⟨h1, h2⟩
  · obtain ⟨hl, he⟩ := scanStep_not_qualifies s l e i hq
    refine ⟨by rw [hl]; exact h0, recon_of_core T _ _ he ⟨h1, h2⟩⟩

theorem recon_scanPrefix (s : Settings) (T Q : List ℚ) (hne : T ≠ []) (n : Nat)
    (hn : n ≤ T.length) :
    (scanPrefix s (ofSortedHits T Q) n).1.iHitPrevious < T.length ∧
    (∀ x ∈ (scanPrefix s (ofSortedHits T Q) n).2.vFirstHitID, x < T.length) ∧
    (scanPrefix s (ofSortedHits T Q) n).2.vReconCT =
      (scanPrefix s (ofSortedHits T Q) n).2.vFirstHitID.map (reconOf T) := by
  induction n with
  | zero =>
    refine ⟨?_, ?_, rfl⟩
    · exact List.length_pos.mpr hne
    · intro x hx; simp [scanPrefix, ofSortedHits] at hx
  | succ n ih =>
    obtain ⟨a, b, c⟩ := ih (by omega)
    rw [scanPrefix_succ]
    exact recon_scanStep s T _ n (scanPrefix_T s _ n) (by omega) a b c

/-- For a non-empty sequence every recorded seed is an index of the sequence, and the
recorded candidate time of a seed is the midpoint of its window. -/
theorem recon_Search (s : Settings) (T Q : List ℚ) (hne : T ≠ []) :
    (∀ x ∈ (SearchCaptureCandidates s (ofSortedHits T Q)).vFirstHitID, x < T.length) ∧
    (SearchCaptureCandidates s (ofSortedHits T Q)).vReconCT =
      (SearchCaptureCandidates s (ofSortedHits T Q)).vFirstHitID.map (reconOf T) := by
  obtain ⟨a, b, c⟩ := recon_scanPrefix s T Q hne T.length (le_refl _)
  unfold SearchCaptureCandidates
  simp only
  rw [scanLoop_eq_scanPrefix]
  exact recon_SavePeakFromHit s T _ _ (scanPrefix_T s _ _) a b c

/-! ### The 50 ns window of a candidate -/

theorem map_elemAt_range (U : List ℚ) : (List.range U.length).map (elemAt U) = U := by
  apply List.ext_getElem
  · simp
  · intro n h1 h2
    simp [elemAt, List.getD_eq_getElem?_getD, List.getElem?_eq_getElem h2]

theorem foldl_windowStep_fst (U : List ℚ) (dtc : ℚ) (L : List Nat) :
    ∀ st : List Nat × List Nat,
      (L.foldl (windowStep U dtc) st).1 =
        st.1 ++ L.filter (fun i => decide (|elemAt U i - dtc| < 25)) := by
  induction L with
  | nil => intro st; simp
  | cons x L ih =>
    intro st
    rw [List.foldl_cons, ih]
    have h1 : (windowStep U dtc st x).1 =
        if |elemAt U x - dtc| < 25 then st.1 ++ [x] else st.1 := by
      unfold windowStep
      simp only
      split_ifs <;> rfl
    rw [h1, List.filter_cons]
    by_cases hp : |elemAt U x - dtc| < 25
    · simp [hp]
    · simp [hp]

/-- The counter `n50hits` is the number of hits within 25 ns of the candidate time. -/
theorem n50hits_eq_countP (U : List ℚ) (dtc : ℚ) :
    n50hits U (U.length : Int) dtc = (U.countP (fun t => decide (|t - dtc| < 25)) : Int) := by
  unfold n50hits index50
  rw [foldl_windowStep_fst]
  simp only [Int.toNat_ofNat, List.nil_append]
  have h : (List.range U.length).filter (fun i => decide (|elemAt U i - dtc| < 25)) =
      (List.range U.length).filter ((fun t => decide (|t - dtc| < 25)) ∘ elemAt U) := rfl
  rw [h, List.countP_eq_length_filter]
  conv_rhs => rw [← map_elemAt_range U]
  rw [List.filter_map, List.length_map]

end NTagEventInfo

namespace NTagEventInfo


/-! ### The seed window lies inside the 50 ns window -/

/-- On an ascending sequence at least `N10` hits are within 25 ns of the candidate time of a
seed. -/
theorem countP_window_ge (T : List ℚ) (h : Nat) (hT : ascending T) (hh : h < T.length) :
    GetNhitsFromStartIndex T h 10 ≤
      (T.countP (fun t => decide (|t - reconOf T h| < 25)) : Int) := by
  obtain ⟨r, hr, h1, h2, hin, _⟩ := GetNhitsFromStartIndex_spec T h 10 hh
  have hend : (((h : Int) + GetNhitsFromStartIndex T h 10 - 1).toNat) = h + r - 1 := by
    rw [hr]; omega
  have hspread : elemAt T (h + r - 1) - elemAt T h ≤ 10 := by
    rcases Nat.lt_or_eq_of_le h1 with hlt | heq
    · exact le_trans (le_abs_self _) (hin (h + r - 1) (by omega) (by omega))
    · have : h + r - 1 = h := by omega
      rw [this]; norm_num
  have hall : ∀ x ∈ (T.drop h).take r, decide (|x - reconOf T h| < 25) = true := by
    intro x hx
    rw [List.mem_iff_getElem] at hx
    obtain ⟨j, hj, rfl⟩ := hx
    have hj' : j < r := by
      simp only [List.length_take, List.length_drop] at hj
      omega
    rw [List.getElem_take, List.getElem_drop]
    have hidx : h + j < T.length := by omega
    have e1 : T[h + j] = elemAt T (h + j) := by
      unfold elemAt; rw [List.getD_eq_getElem _ _ hidx]
    rw [e1]
    have a1 := hT h (h + j) (by omega) hidx
    have a2 := hT (h + j) (h + r - 1) (by omega) (by omega)
    simp only [decide_eq_true_eq]
    unfold reconOf
    rw [hend, abs_lt]
    constructor <;> linarith
  have hsub : ((T.drop h).take r).Sublist T :=
    (List.take_sublist _ _).trans (List.drop_sublist _ _)
  have hlen : ((T.drop h).take r).length = r := by
    simp only [List.length_take, List.length_drop]
    omega
  have hc := hsub.countP_le (fun t => decide (|t - reconOf T h| < 25))
  rw [List.countP_eq_length.mpr hall, hlen] at hc
  rw [hr]
  exact_mod_cast hc

theorem length_GetToFSubtracted (tk : Tank) (T : List ℚ) (P : List Int) (v : TVector3) :
    (GetToFSubtracted tk T P v true).length = T.length := by
  unfold GetToFSubtracted
  simp

theorem refineStep_bounds (V : List ℚ) (st : RefineLocals) (i : Nat) (hi : i < V.length)
    (hst : st.tmpN10n ≤ (V.length : Int)) :
    1 ≤ (refineStep V st i).tmpN10n ∧ (refineStep V st i).tmpN10n ≤ (V.length : Int) ∧
    st.tmpN10n ≤ (refineStep V st i).tmpN10n := by
  obtain ⟨r, hr, h1, h2, _, _⟩ := GetNhitsFromStartIndex_spec V i 10 hi
  unfold refineStep
  split_ifs with hc
  · simp only
    rw [hr] at hc ⊢
    refine ⟨by omega, by omega, by omega⟩
  · rw [hr] at hc
    refine ⟨by omega, hst, le_refl _⟩

/-- The refined N10 of a non-empty hit list lies between 1 and the number of hits. -/
theorem refineScan_bounds (V : List ℚ) (hV : 1 ≤ V.length) :
    1 ≤ (refineScan V (V.length : Int)).tmpN10n ∧
    (refineScan V (V.length : Int)).tmpN10n ≤ (V.length : Int) := by
  unfold refineScan
  simp only [Int.toNat_ofNat]
  have key : ∀ m, m ≤ V.length → 1 ≤ m →
      1 ≤ ((List.range m).foldl (refineStep V)
        { tmpN10n := 0, n10index := 0, t0n := 0 }).tmpN10n ∧
      ((List.range m).foldl (refineStep V)
        { tmpN10n := 0, n10index := 0, t0n := 0 }).tmpN10n ≤ (V.length : Int) := by
    intro m
    induction m with
    | zero => intro _ h; omega
    | succ m ih =>
      intro hm _
      rw [List.range_succ, List.foldl_append, List.foldl_cons, List.foldl_nil]
      by_cases h0 : m = 0
      · subst h0
        have := refineStep_bounds V { tmpN10n := 0, n10index := 0, t0n := 0 } 0 (by omega)
          (by simp)
        exact ⟨this.1, this.2.1⟩
      · obtain ⟨_, b⟩ := ih (by omega) (by omega)
        have := refineStep_bounds V _ m (by omega) b
        exact ⟨this.1, this.2.1⟩
  exact key V.length (le_refl _) hV

end NTagEventInfo

/-! ## The properties -/

/-- C1: `Append(hit)` puts the hit at the end of the sequence exactly when its channel ID `i`
satisfies `1 ≤ i ≤ MAXPM` or `20001 ≤ i ≤ 20000 + MAXPMA`, and for every other channel ID the
cluster (hits, order, length and state fields) is left unchanged. -/
theorem C1_Append_valid_channel_iff (g : Geometry) (c : PMTHitCluster) (hit : PMTHit) :
    (((1 ≤ hit.fPMTID ∧ hit.fPMTID ≤ g.MAXPM) ∨
        (20001 ≤ hit.fPMTID ∧ hit.fPMTID ≤ 20000 + g.MAXPMA)) ↔
      (PMTHitCluster.Append g c hit).fElement = c.fElement ++ [hit]) ∧
    (¬ ((1 ≤ hit.fPMTID ∧ hit.fPMTID ≤ g.MAXPM) ∨
        (20001 ≤ hit.fPMTID ∧ hit.fPMTID ≤ 20000 + g.MAXPMA)) ↔
      PMTHitCluster.Append g c hit = c) := by
  unfold PMTHitCluster.Append PMTHit.i
  by_cases hv : (1 ≤ hit.fPMTID ∧ hit.fPMTID ≤ g.MAXPM) ∨
      (20001 ≤ hit.fPMTID ∧ hit.fPMTID ≤ 20000 + g.MAXPMA)
  · simp only [hv, if_true, true_iff, not_true_eq_false, false_iff, true_and]
    intro h
    have hl := congrArg (fun d => d.fElement.length) h
    simp at hl
  · simp only [hv, if_false, false_iff, not_false_eq_true, true_iff, and_true]
    intro h
    have hl := congrArg List.length h
    simp at hl

/-- C2 (counterexample): the single-cluster property fails as stated.  First input: the
cluster `5000, 5009, 5010` of `m = 3` hits is followed by the sparse hits `5011, 5012`
(`N10` 2 and 1, below `N10TH = 3`); the hit `5009` of the cluster sees four hits within
10 ns and becomes the seed, so the candidate has `N10 = 4`, not `3`.  Second input
(`T0TH = -1`, no hit of the cluster above `N10 = 3`): the cluster `100, 101, 102` alone
yields two candidates, both seeded at its first hit. -/
theorem C2_counterexample :
    (NTagEventInfo.singleCluster ⟨3, 50, 140, 0, 50⟩ [5000, 5009, 5010, 5011, 5012] 0 3 ∧
      (NTagEventInfo.SearchCaptureCandidates ⟨3, 50, 140, 0, 50⟩
        (NTagEventInfo.ofSortedHits [5000, 5009, 5010, 5011, 5012] [])).vN10 = [4] ∧
      (NTagEventInfo.SearchCaptureCandidates ⟨3, 50, 140, 0, 50⟩
        (NTagEventInfo.ofSortedHits [5000, 5009, 5010, 5011, 5012] [])).vN10 ≠
          [((3 : Nat) : Int)]) ∧
    (NTagEventInfo.singleCluster ⟨3, 50, 140, -1, 50⟩ [100, 101, 102] 0 3 ∧
      (∀ j, 0 < j → j < 0 + 3 → NTagEventInfo.N10 [100, 101, 102] j ≤ 3) ∧
      (NTagEventInfo.SearchCaptureCandidates ⟨3, 50, 140, -1, 50⟩
        (NTagEventInfo.ofSortedHits [100, 101, 102] [])).vFirstHitID = [0, 0] ∧
      (NTagEventInfo.SearchCaptureCandidates ⟨3, 50, 140, -1, 50⟩
        (NTagEventInfo.ofSortedHits [100, 101, 102] [])).nCandidates ≠ 1) := by
  refine ⟨⟨⟨?_, ⟨by decide, by decide, ?_, ?_⟩, by decide, by decide, by decide!, by decide!, ?_⟩,
    by decide!, by decide!⟩, ⟨⟨?_, ⟨by decide, by decide, ?_, ?_⟩, by decide, by decide,
      by decide!, by decide!, ?_⟩, ?_, by decide!, by decide!⟩⟩
  · exact NTagEventInfo.ascending_of_pairwise _ (by decide!)
  · intro j h1 h2; interval_cases j <;> decide!
  · intro _; decide!
  · intro j h1 h2
    have h3 : j < 5 := h1
    interval_cases j <;> first | decide! | omega
  · exact NTagEventInfo.ascending_of_pairwise _ (by decide!)
  · intro j h1 h2; interval_cases j <;> decide!
  · intro h; simp at h
  · intro j h1 h2
    have h3 : j < 3 := h1
    interval_cases j <;> first | decide! | omega
  · intro j h1 h2; interval_cases j <;> decide!

/-- C2 (amended): on an ascending sequence with one cluster of `m` hits at `a`
(`N10TH ≤ m ≤ N10MX`, cluster time not below `T0TH`, `TMINPEAKSEP ≥ 10`, every hit outside
the cluster with `N10` below `N10TH`), with `T0TH ≥ 0` and no hit of the cluster having an
`N10` above `m`, `SearchCaptureCandidates` emits exactly one candidate; its seed is the first
hit of the cluster and its `N10` equals `m`. -/
theorem C2_single_cluster_one_candidate (s : Settings) (T Q : List ℚ) (a m : Nat)
    (h : NTagEventInfo.singleCluster s T a m) (h0 : 0 ≤ s.T0TH)
    (hmem : ∀ j, a < j → j < a + m → NTagEventInfo.N10 T j ≤ (m : Int)) :
    (NTagEventInfo.SearchCaptureCandidates s (NTagEventInfo.ofSortedHits T Q)).vFirstHitID = [a] ∧
    (NTagEventInfo.SearchCaptureCandidates s (NTagEventInfo.ofSortedHits T Q)).vN10 = [(m : Int)] ∧
    (NTagEventInfo.SearchCaptureCandidates s (NTagEventInfo.ofSortedHits T Q)).nCandidates = 1 := by
  have hlen : a < T.length := by
    have := h.2.1.1; have := h.2.1.2.1; omega
  obtain ⟨h1, _, h3⟩ := NTagEventInfo.singleCluster_scan s T Q a m h h0 hmem T.length (le_refl _)
  have hNa := NTagEventInfo.N10_of_clusterAt T h.1 a m h.2.1
  have hband : s.N10TH ≤ NTagEventInfo.N10 T a ∧ NTagEventInfo.N10 T a ≤ s.N10MX := by
    rw [hNa]; exact ⟨h.2.2.1, h.2.2.2.1⟩
  obtain ⟨r1, r2, _, r4⟩ := NTagEventInfo.Search_of_scan s T Q a h1 (h3 hlen).1 hband
  rw [hNa] at r2
  exact ⟨r1, r2, r4⟩

/-- C2 (witness): the cluster `5000, 5001, 5002` followed by the lone hit `5100`. -/
theorem C2_single_cluster_witness :
    NTagEventInfo.singleCluster ⟨3, 50, 140, 0, 50⟩ [5000, 5001, 5002, 5100] 0 3 ∧
    (NTagEventInfo.SearchCaptureCandidates ⟨3, 50, 140, 0, 50⟩
      (NTagEventInfo.ofSortedHits [5000, 5001, 5002, 5100] [])).vFirstHitID = [0] ∧
    (NTagEventInfo.SearchCaptureCandidates ⟨3, 50, 140, 0, 50⟩
      (NTagEventInfo.ofSortedHits [5000, 5001, 5002, 5100] [])).vN10 = [((3 : Nat) : Int)] ∧
    (NTagEventInfo.SearchCaptureCandidates ⟨3, 50, 140, 0, 50⟩
      (NTagEventInfo.ofSortedHits [5000, 5001, 5002, 5100] [])).nCandidates = 1 := by
  have h : NTagEventInfo.singleCluster ⟨3, 50, 140, 0, 50⟩ [5000, 5001, 5002, 5100] 0 3 := by
    refine ⟨NTagEventInfo.ascending_of_pairwise _ (by decide!), ⟨by decide, by decide, ?_, ?_⟩,
      by decide, by decide, by decide!, by decide!, ?_⟩
    · intro j h1 h2; interval_cases j <;> decide!
    · intro _; decide!
    · intro j h1 h2
      have h3 : j < 4 := h1
      interval_cases j <;> first | decide! | omega
  exact ⟨h, C2_single_cluster_one_candidate _ _ [] 0 3 h (by decide!)
    (by intro j h1 h2; interval_cases j <;> decide!)⟩

/-- C3 (counterexample): the two-nearby-clusters property fails as stated.  First input: the
clusters `5000 … 5003` (`N10 = 4`) and `5045, 5054, 5055` (`N10 = 3`) start 45 ns apart, below
`TMINPEAKSEP = 50`, and no hit of a cluster has a larger `N10` than its first hit; the hit
`5054` passes the tests 54 ns after the seed `5000`, so both the seed `5000` and the hit `5054`
are emitted.  Second input: the hit `5028` of the lower cluster sees six hits within 10 ns and
is the only candidate, although the first cluster has the higher `N10`.  Third input
(`T0TH = -1`): the first cluster is emitted at the first reset and the second cluster at the
end. -/
theorem C3_counterexample :
    (NTagEventInfo.twoClusters ⟨3, 50, 140, 0, 50⟩
        [5000, 5001, 5002, 5003, 5045, 5054, 5055, 5056] 0 4 4 3 ∧
      (∀ j, 0 < j → j < 0 + 4 →
        NTagEventInfo.N10 [5000, 5001, 5002, 5003, 5045, 5054, 5055, 5056] j ≤ 4) ∧
      (∀ j, 4 < j → j < 4 + 3 →
        NTagEventInfo.N10 [5000, 5001, 5002, 5003, 5045, 5054, 5055, 5056] j ≤ 3) ∧
      (NTagEventInfo.SearchCaptureCandidates ⟨3, 50, 140, 0, 50⟩
        (NTagEventInfo.ofSortedHits [5000, 5001, 5002, 5003, 5045, 5054, 5055, 5056]
          [])).vFirstHitID = [0, 5] ∧
      (NTagEventInfo.SearchCaptureCandidates ⟨3, 50, 140, 0, 50⟩
        (NTagEventInfo.ofSortedHits [5000, 5001, 5002, 5003, 5045, 5054, 5055, 5056]
          [])).nCandidates ≠ 1) ∧
    (NTagEventInfo.twoClusters ⟨4, 50, 140, 0, 50⟩
        [5000, 5001, 5002, 5003, 5004, 5020, 5028, 5029, 5030, 5031, 5032, 5033] 0 5 5 4 ∧
      (NTagEventInfo.SearchCaptureCandidates ⟨4, 50, 140, 0, 50⟩
        (NTagEventInfo.ofSortedHits
          [5000, 5001, 5002, 5003, 5004, 5020, 5028, 5029, 5030, 5031, 5032, 5033]
          [])).vFirstHitID = [6] ∧
      (NTagEventInfo.SearchCaptureCandidates ⟨4, 50, 140, 0, 50⟩
        (NTagEventInfo.ofSortedHits
          [5000, 5001, 5002, 5003, 5004, 5020, 5028, 5029, 5030, 5031, 5032, 5033]
          [])).vFirstHitID ≠ [0] ∧
      (NTagEventInfo.SearchCaptureCandidates ⟨4, 50, 140, 0, 50⟩
        (NTagEventInfo.ofSortedHits
          [5000, 5001, 5002, 5003, 5004, 5020, 5028, 5029, 5030, 5031, 5032, 5033]
          [])).vN10 = [6]) ∧
    (NTagEventInfo.twoClusters ⟨3, 50, 140, -1, 50⟩ [100, 101, 102, 120, 121, 122, 123] 0 3 3 4 ∧
      (NTagEventInfo.SearchCaptureCandidates ⟨3, 50, 140, -1, 50⟩
        (NTagEventInfo.ofSortedHits [100, 101, 102, 120, 121, 122, 123] [])).vFirstHitID
        = [0, 3] ∧
      (NTagEventInfo.SearchCaptureCandidates ⟨3, 50, 140, -1, 50⟩
        (NTagEventInfo.ofSortedHits [100, 101, 102, 120, 121, 122, 123] [])).nCandidates
        ≠ 1) := by
  refine ⟨⟨⟨NTagEventInfo.ascending_of_pairwise _ (by decide!),
        ⟨by decide, by decide, ?_, ?_⟩, ⟨by decide, by decide, ?_, ?_⟩, by decide,
        by decide, by decide, by decide, by decide, by decide!, ?_, by decide!⟩,
      ?_, ?_, by decide!, by decide!⟩,
    ⟨⟨NTagEventInfo.ascending_of_pairwise _ (by decide!),
        ⟨by decide, by decide, ?_, ?_⟩, ⟨by decide, by decide, ?_, ?_⟩, by decide,
        by decide, by decide, by decide, by decide, by decide!, ?_, by decide!⟩,
      by decide!, by decide!, by decide!⟩,
    ⟨⟨NTagEventInfo.ascending_of_pairwise _ (by decide!),
        ⟨by decide, by decide, ?_, ?_⟩, ⟨by decide, by decide, ?_, ?_⟩, by decide,
        by decide, by decide, by decide, by decide, by decide!, ?_, by decide!⟩,
      by decide!, by decide!⟩⟩
  all_goals first
    | (intro j h1 h2; interval_cases j <;> decide!)
    | (intro _; decide!)
    | (intro h; exact absurd h (by decide))
    | (intro j h1 h2
       have h3 : j < 12 := Nat.lt_of_lt_of_le h1 (by decide)
       interval_cases j <;> first | decide! | omega)

/-- C3 (amended): on an ascending sequence with two clusters at `a` and `b` (sizes `mA`, `mB`
in `[N10TH, N10MX]`, every hit outside them with `N10` below `N10TH`, start times less than
`TMINPEAKSEP` apart), with `T0TH ≥ 0`, no hit of a cluster having an `N10` above that of its
cluster's first hit, and the last hit of the second cluster within `TMINPEAKSEP` of the first
hit of the first cluster, `SearchCaptureCandidates` emits exactly one candidate: its seed is
the first hit of the cluster with the higher `N10` (of the earlier cluster on a tie) and its
`N10` is the larger of the two. -/
theorem C3_two_nearby_clusters_one_candidate (s : Settings) (T Q : List ℚ) (a mA b mB : Nat)
    (h : NTagEventInfo.twoClusters s T a mA b mB) (h0 : 0 ≤ s.T0TH)
    (hmemA : ∀ j, a < j → j < a + mA → NTagEventInfo.N10 T j ≤ (mA : Int))
    (hmemB : ∀ j, b < j → j < b + mB → NTagEventInfo.N10 T j ≤ (mB : Int))
    (hlast : NTagEventInfo.elemAt T (b + mB - 1) - NTagEventInfo.elemAt T a ≤ s.TMINPEAKSEP) :
    (NTagEventInfo.SearchCaptureCandidates s (NTagEventInfo.ofSortedHits T Q)).vFirstHitID =
      [if mA < mB then b else a] ∧
    (NTagEventInfo.SearchCaptureCandidates s (NTagEventInfo.ofSortedHits T Q)).vN10 =
      [((max mA mB : Nat) : Int)] ∧
    (NTagEventInfo.SearchCaptureCandidates s (NTagEventInfo.ofSortedHits T Q)).nCandidates = 1 := by
  have hlen : b < T.length := by
    have := h.2.2.1.1; have := h.2.2.1.2.1; omega
  obtain ⟨h1, _, _, h4⟩ :=
    NTagEventInfo.twoClusters_scan s T Q a mA b mB h h0 hmemA hmemB hlast T.length (le_refl _)
  have hNa := NTagEventInfo.N10_of_clusterAt T h.1 a mA h.2.1
  have hNb := NTagEventInfo.N10_of_clusterAt T h.1 b mB h.2.2.1
  obtain ⟨_, _, _, _, hA1, hA2, hB1, hB2, _⟩ := h
  have hN : NTagEventInfo.N10 T (if mA < mB then b else a) = ((max mA mB : Nat) : Int) := by
    split_ifs with hlt
    · rw [hNb, max_eq_right (by omega)]
    · rw [hNa, max_eq_left (by omega)]
  have hband : s.N10TH ≤ NTagEventInfo.N10 T (if mA < mB then b else a) ∧
      NTagEventInfo.N10 T (if mA < mB then b else a) ≤ s.N10MX := by
    split_ifs with hlt
    · rw [hNb]; exact ⟨hB1, hB2⟩
    · rw [hNa]; exact ⟨hA1, hA2⟩
  obtain ⟨r1, r2, _, r4⟩ := NTagEventInfo.Search_of_scan s T Q _ h1 (h4 hlen).1 hband
  rw [hN] at r2
  exact ⟨r1, r2, r4⟩

/-- C3 (witness): the clusters `5000, 5001, 5002` and `5020 … 5023`, then a lone hit; the
second cluster has the higher `N10` and is the only candidate. -/
theorem C3_two_nearby_clusters_witness :
    NTagEventInfo.twoClusters ⟨3, 50, 140, 0, 50⟩
      [5000, 5001, 5002, 5020, 5021, 5022, 5023, 5200] 0 3 3 4 ∧
    (NTagEventInfo.SearchCaptureCandidates ⟨3, 50, 140, 0, 50⟩
      (NTagEventInfo.ofSortedHits [5000, 5001, 5002, 5020, 5021, 5022, 5023, 5200]
        [])).vFirstHitID = [if 3 < 4 then 3 else 0] ∧
    (NTagEventInfo.SearchCaptureCandidates ⟨3, 50, 140, 0, 50⟩
      (NTagEventInfo.ofSortedHits [5000, 5001, 5002, 5020, 5021, 5022, 5023, 5200]
        [])).vN10 = [((max 3 4 : Nat) : Int)] ∧
    (NTagEventInfo.SearchCaptureCandidates ⟨3, 50, 140, 0, 50⟩
      (NTagEventInfo.ofSortedHits [5000, 5001, 5002, 5020, 5021, 5022, 5023, 5200]
        [])).nCandidates = 1 := by
  have h : NTagEventInfo.twoClusters ⟨3, 50, 140, 0, 50⟩
      [5000, 5001, 5002, 5020, 5021, 5022, 5023, 5200] 0 3 3 4 := by
    refine ⟨NTagEventInfo.ascending_of_pairwise _ (by decide!),
      ⟨by decide, by decide, ?_, ?_⟩, ⟨by decide, by decide, ?_, ?_⟩, by decide,
      by decide, by decide, by decide, by decide, by decide!, ?_, by decide!⟩
    all_goals first
      | (intro j h1 h2; interval_cases j <;> decide!)
      | (intro _; decide!)
      | (intro j h1 h2
         have h3 : j < 8 := h1
         interval_cases j <;> first | decide! | omega)
  exact ⟨h, C3_two_nearby_clusters_one_candidate _ _ [] 0 3 3 4 h (by decide!)
    (by intro j h1 h2; interval_cases j <;> decide!)
    (by intro j h1 h2; interval_cases j <;> decide!) (by decide!)⟩

/-- C4 (the code at the failing input): with `N200MX = 6`, the run seeded at the hit `5000`
has `N200 = 6`, not below `N200MX`.  As the last pending run it is emitted by the
unconditional `SavePeakFromHit(iHitPrevious)` after the loop, with a recorded `N200` of `6`;
the same run followed by a later cluster is dropped by the test inside the loop and only the
later cluster is emitted. -/
theorem C4_last_pending_run_escapes_N200_veto :
    (NTagEventInfo.SearchCaptureCandidates ⟨3, 50, 6, 2, 50⟩
      (NTagEventInfo.ofSortedHits [5000, 5001, 5002, 5020, 5040, 5060] [])).vFirstHitID = [0] ∧
    (NTagEventInfo.SearchCaptureCandidates ⟨3, 50, 6, 2, 50⟩
      (NTagEventInfo.ofSortedHits [5000, 5001, 5002, 5020, 5040, 5060] [])).vN200 = [6] ∧
    ¬ ((6 : Int) < (⟨3, 50, 6, 2, 50⟩ : Settings).N200MX) ∧
    (NTagEventInfo.SearchCaptureCandidates ⟨3, 50, 6, 2, 50⟩
      (NTagEventInfo.ofSortedHits [5000, 5001, 5002, 5020, 5040, 5060, 6000, 6001, 6002]
        [])).vFirstHitID = [6] := by
  refine ⟨by decide!, by decide!, by decide, by decide!⟩

/-- C5 (the code at the failing input): with the default settings (`T0TH = 5` µs) no hit of
`0, 1, …, 6` ns reaches the `T0TH` test, `iHitPrevious` keeps its initial value `0`, and the
unconditional `SavePeakFromHit(iHitPrevious)` after the loop emits the hit `0` (`N10 = 7`),
whose time `0` is below `T0TH`. -/
theorem C5_seed_below_T0TH_emitted :
    (NTagEventInfo.SearchCaptureCandidates NTagEventInfo.defaultSettings
      (NTagEventInfo.ofSortedHits [0, 1, 2, 3, 4, 5, 6] [])).vFirstHitID = [0] ∧
    (NTagEventInfo.SearchCaptureCandidates NTagEventInfo.defaultSettings
      (NTagEventInfo.ofSortedHits [0, 1, 2, 3, 4, 5, 6] [])).vN10 = [7] ∧
    NTagEventInfo.elemAt [0, 1, 2, 3, 4, 5, 6] 0 * (1 / 1000) <
      NTagEventInfo.defaultSettings.T0TH := by
  refine ⟨by decide!, by decide!, by decide!⟩

/-- C6: every candidate recorded by `SearchCaptureCandidates` (through `SavePeakFromHit`) on a
cleared event has `N10TH ≤ N10 ≤ N10MX`, its recorded `N10` is that of its seed hit, and
`nCandidates` equals the number of recorded seed hit indices `vFirstHitID`. -/
theorem C6_candidates_N10_in_band (s : Settings) (T Q : List ℚ) :
    (∀ n ∈ (NTagEventInfo.SearchCaptureCandidates s (NTagEventInfo.ofSortedHits T Q)).vN10,
        s.N10TH ≤ n ∧ n ≤ s.N10MX) ∧
    (NTagEventInfo.SearchCaptureCandidates s (NTagEventInfo.ofSortedHits T Q)).vN10 =
      (NTagEventInfo.SearchCaptureCandidates s (NTagEventInfo.ofSortedHits T Q)).vFirstHitID.map
        (NTagEventInfo.N10 T) ∧
    (NTagEventInfo.SearchCaptureCandidates s (NTagEventInfo.ofSortedHits T Q)).nCandidates =
      (NTagEventInfo.SearchCaptureCandidates s
        (NTagEventInfo.ofSortedHits T Q)).vFirstHitID.length := by
  have h0 : NTagEventInfo.candidatesOK s (NTagEventInfo.ofSortedHits T Q) := by
    simp [NTagEventInfo.candidatesOK, NTagEventInfo.ofSortedHits]
  have h := NTagEventInfo.candidatesOK_Search s _ h0
  have hT : (NTagEventInfo.SearchCaptureCandidates s (NTagEventInfo.ofSortedHits T Q)).vSortedT_ToF
      = T := by
    unfold NTagEventInfo.SearchCaptureCandidates
    simp only
    rw [NTagEventInfo.SavePeakFromHit_T, NTagEventInfo.scanLoop_eq_scanPrefix,
      NTagEventInfo.scanPrefix_T]
    rfl
  obtain ⟨a, b, _, d⟩ := h
  rw [hT] at b
  exact ⟨d, b, a⟩

/-- C7: for an ascending corrected-time sequence and `T0TH ≥ 0`, the seed hit indices of the
emitted candidates are strictly increasing and the seed times of any two emitted candidates
(in particular of two consecutive ones) differ by more than `TMINPEAKSEP`. -/
theorem C7_candidates_ordered_and_separated (s : Settings) (T Q : List ℚ)
    (hT : NTagEventInfo.ascending T) (h0 : 0 ≤ s.T0TH) :
    List.Pairwise (fun a b => a < b ∧
        NTagEventInfo.elemAt T b - NTagEventInfo.elemAt T a > s.TMINPEAKSEP)
      (NTagEventInfo.SearchCaptureCandidates s (NTagEventInfo.ofSortedHits T Q)).vFirstHitID := by
  have hinv := NTagEventInfo.scanInv_scanPrefix s T Q hT h0 T.length (le_refl _)
  have hT2 := NTagEventInfo.scanPrefix_T s (NTagEventInfo.ofSortedHits T Q) T.length
  unfold NTagEventInfo.SearchCaptureCandidates
  simp only
  rw [NTagEventInfo.scanLoop_eq_scanPrefix]
  change List.Pairwise (NTagEventInfo.separated s T) _
  have hlen : (NTagEventInfo.ofSortedHits T Q).nqiskz = T.length := rfl
  rw [hlen]
  generalize NTagEventInfo.scanPrefix s (NTagEventInfo.ofSortedHits T Q) T.length = st at hinv hT2
  rcases NTagEventInfo.SavePeakFromHit_fields s st.2 st.1.iHitPrevious with
    ⟨_, _, h3, _⟩ | ⟨_, heq⟩
  · rw [h3]
    rcases hinv with ⟨hinit, hnil⟩ | ⟨b, hb, hqb, hseed, hpw, hall⟩
    · rw [hnil]; simp
    · rw [List.pairwise_append]
      refine ⟨hpw, List.pairwise_singleton _ _, ?_⟩
      intro a ha c hc
      simp only [List.mem_singleton] at hc
      subst hc
      rw [hseed.1]
      exact hall a ha
  · rw [heq]
    rcases hinv with ⟨hinit, hnil⟩ | ⟨b, hb, hqb, hseed, hpw, hall⟩
    · rw [hnil]; exact List.Pairwise.nil
    · exact hpw

/-- C7 (witness): two clusters 200 ns apart, both emitted, seeds `0` and `3`. -/
theorem C7_candidates_ordered_witness :
    NTagEventInfo.ascending [100, 101, 102, 300, 301, 302] ∧
    (0 : ℚ) ≤ (⟨3, 50, 140, 0, 50⟩ : Settings).T0TH ∧
    (NTagEventInfo.SearchCaptureCandidates ⟨3, 50, 140, 0, 50⟩
      (NTagEventInfo.ofSortedHits [100, 101, 102, 300, 301, 302] [])).vFirstHitID = [0, 3] ∧
    List.Pairwise (fun a b => a < b ∧
        NTagEventInfo.elemAt [100, 101, 102, 300, 301, 302] b -
          NTagEventInfo.elemAt [100, 101, 102, 300, 301, 302] a >
          (⟨3, 50, 140, 0, 50⟩ : Settings).TMINPEAKSEP)
      (NTagEventInfo.SearchCaptureCandidates ⟨3, 50, 140, 0, 50⟩
        (NTagEventInfo.ofSortedHits [100, 101, 102, 300, 301, 302] [])).vFirstHitID :=
  ⟨NTagEventInfo.ascending_of_pairwise _ (by decide!), by decide!, by decide!,
    C7_candidates_ordered_and_separated ⟨3, 50, 140, 0, 50⟩ [100, 101, 102, 300, 301, 302] []
      (NTagEventInfo.ascending_of_pairwise _ (by decide!)) (by decide!)⟩

/-- C8: inside a run (no reset of the within-run tracking) the loop body replaces the current
best seed by a later hit exactly when that hit passes the tests with an `N10` strictly
greater than `N10Previous`; hence for a run that starts at the hit `i0` (a reset, or the
tracking still at its initial value) and goes on through the hits `is` without a reset, the
seed kept is the earliest hit attaining the maximal `N10` among the hits of the run that pass
the tests. -/
theorem C8_tie_break_earliest_maximal_N10 (s : Settings)
    (st : NTagEventInfo.ScanLocals × NTagEventInfo) (i0 : Nat) (is : List Nat)
    (hq : NTagEventInfo.qualifies s st.2.vSortedT_ToF i0)
    (hstart : NTagEventInfo.resetsAt s st i0 ∨ st.1.N10Previous = 0)
    (hrun : NTagEventInfo.noResetAlong s (NTagEventInfo.scanStep s st i0) is) :
    (∀ (l : NTagEventInfo.ScanLocals) (e : NTagEventInfo) (i : Nat),
      ¬ NTagEventInfo.resetsAt s (l, e) i →
      (NTagEventInfo.qualifies s e.vSortedT_ToF i ∧
          l.N10Previous < NTagEventInfo.N10 e.vSortedT_ToF i →
        (NTagEventInfo.scanStep s (l, e) i).1.iHitPrevious = i ∧
        (NTagEventInfo.scanStep s (l, e) i).1.N10Previous = NTagEventInfo.N10 e.vSortedT_ToF i) ∧
      (¬ (NTagEventInfo.qualifies s e.vSortedT_ToF i ∧
          l.N10Previous < NTagEventInfo.N10 e.vSortedT_ToF i) →
        (NTagEventInfo.scanStep s (l, e) i).1.iHitPrevious = l.iHitPrevious ∧
        (NTagEventInfo.scanStep s (l, e) i).1.N10Previous = l.N10Previous)) ∧
    NTagEventInfo.earliestBest s st.2.vSortedT_ToF (i0 :: is)
      ((i0 :: is).foldl (NTagEventInfo.scanStep s) st).1.iHitPrevious := by
  constructor
  · intro l e i hnr
    have h := NTagEventInfo.scanStep_no_reset s l e i hnr
    exact ⟨fun hc => ⟨(h.1 hc).1, (h.1 hc).2.2.1⟩, fun hc => ⟨(h.2 hc).1, (h.2 hc).2.2.1⟩⟩
  · obtain ⟨l, e⟩ := st
    simp only at hq hstart ⊢
    have hpos := NTagEventInfo.GetNhitsFromStartIndex_pos e.vSortedT_ToF i0 10
    have hseed : NTagEventInfo.seedIs e.vSortedT_ToF (NTagEventInfo.scanStep s (l, e) i0).1 i0 := by
      rw [NTagEventInfo.scanStep_qualifies_locals s l e i0 hq]
      by_cases hr : NTagEventInfo.elemAt e.vSortedT_ToF i0 - l.t0Previous > s.TMINPEAKSEP
      · rw [if_pos hr]; exact NTagEventInfo.seedIs_new _ _ _
      · rw [if_neg hr]
        have h0 : l.N10Previous = 0 := by
          rcases hstart with h | h
          · exact absurd h.2 hr
          · exact h
        rw [if_neg (by rw [h0]; unfold NTagEventInfo.N10; omega)]
        exact NTagEventInfo.seedIs_new _ _ _
    have hb : NTagEventInfo.earliestBest s e.vSortedT_ToF [i0] i0 :=
      ⟨[], [], rfl, hq, by simp, by simp⟩
    have := NTagEventInfo.earliestBest_foldl s e.vSortedT_ToF is _ [i0] i0
      (NTagEventInfo.scanStep_T s (l, e) i0) hseed hb hrun
    simpa using this

/-- C8 (witness): the hits `100` and `120` both have `N10 = 3`; the run keeps the earlier. -/
theorem C8_tie_break_witness :
    NTagEventInfo.qualifies ⟨3, 50, 140, 0, 50⟩ [100, 101, 102, 120, 121, 122] 0 ∧
    NTagEventInfo.noResetAlong ⟨3, 50, 140, 0, 50⟩
      (NTagEventInfo.scanStep ⟨3, 50, 140, 0, 50⟩
        (NTagEventInfo.scanInit, NTagEventInfo.ofSortedHits [100, 101, 102, 120, 121, 122] []) 0)
      [1, 2, 3, 4, 5] ∧
    ([0, 1, 2, 3, 4, 5].foldl (NTagEventInfo.scanStep ⟨3, 50, 140, 0, 50⟩)
      (NTagEventInfo.scanInit,
        NTagEventInfo.ofSortedHits [100, 101, 102, 120, 121, 122] [])).1.iHitPrevious = 0 ∧
    NTagEventInfo.earliestBest ⟨3, 50, 140, 0, 50⟩ [100, 101, 102, 120, 121, 122]
      [0, 1, 2, 3, 4, 5]
      ([0, 1, 2, 3, 4, 5].foldl (NTagEventInfo.scanStep ⟨3, 50, 140, 0, 50⟩)
        (NTagEventInfo.scanInit,
          NTagEventInfo.ofSortedHits [100, 101, 102, 120, 121, 122] [])).1.iHitPrevious :=
  ⟨by decide!, by decide!, by decide!,
    (C8_tie_break_earliest_maximal_N10 ⟨3, 50, 140, 0, 50⟩
      (NTagEventInfo.scanInit, NTagEventInfo.ofSortedHits [100, 101, 102, 120, 121, 122] [])
      0 [1, 2, 3, 4, 5] (by decide!) (Or.inr rfl) (by decide!)).2⟩

/-- C9: after `ApplyDeadtime(w)` on any cluster, any two distinct kept hits (hits at two
positions of the element vector) on the same channel have times that differ by more than
`w`, whatever order `std::sort` gives to hits of equal time and whatever the memory behind
the table holds. -/
theorem C9_deadtime_spacing (stdSort : List PMTHit → List PMTHit) (g : Geometry) (beyond : ℚ)
    (c : PMTHitCluster) (w : ℚ) (hsort : SortContract stdSort) :
    (PMTHitCluster.ApplyDeadtime stdSort g beyond c w).fElement.Pairwise
      (fun h1 h2 => h1.fPMTID = h2.fPMTID → w < |h1.fT - h2.fT|) := by
  change List.Pairwise (PMTHitCluster.deadtimeApart w) _
  cases hv : c.fHasVertex
  · rw [PMTHitCluster.ApplyDeadtime_noVertex stdSort g beyond c w hv]
    exact PMTHitCluster.deadtimeKeep_pairwise g w _ _
  · rw [PMTHitCluster.ApplyDeadtime_vertex stdSort g beyond c w hv]
    simp only
    refine ((hsort _).1.pairwise_iff
      (fun h => PMTHitCluster.deadtimeApart_symm w h)).mpr ?_
    rw [List.pairwise_map]
    exact (PMTHitCluster.deadtimeKeep_pairwise g w _ _).imp
      (fun h => PMTHitCluster.deadtimeApart_SetToF g c.fVertex w _ _ h)

/-- C9 (witness): three hits on channel 5 at times 1000, 1500 and 2500 with a window of 900:
the hits at 1000 and 2500 are kept. -/
theorem C9_deadtime_spacing_witness :
    SortContract stableSort ∧
    (PMTHitCluster.ApplyDeadtime stableSort exampleGeometry 0
      ⟨[PMTHit.mk4 1000 1 5 0, PMTHit.mk4 1500 1 5 0, PMTHit.mk4 2500 1 5 0], false, false,
        TVector3.zero⟩ 900).fElement.Pairwise
      (fun h1 h2 => h1.fPMTID = h2.fPMTID → 900 < |h1.fT - h2.fT|) ∧
    (PMTHitCluster.ApplyDeadtime stableSort exampleGeometry 0
      ⟨[PMTHit.mk4 1000 1 5 0, PMTHit.mk4 1500 1 5 0, PMTHit.mk4 2500 1 5 0], false, false,
        TVector3.zero⟩ 900).fElement.map PMTHit.t = [1000, 2500] :=
  ⟨PMTHitCluster.SortContract_stableSort,
    C9_deadtime_spacing stableSort exampleGeometry 0
      ⟨[PMTHit.mk4 1000 1 5 0, PMTHit.mk4 1500 1 5 0, PMTHit.mk4 2500 1 5 0], false, false,
        TVector3.zero⟩ 900 PMTHitCluster.SortContract_stableSort,
    by decide!⟩

/-- C10: one hit at time 1000 on channel 11146 = `MAXPM`, window 900.  The first
`ApplyDeadtime` (memory behind the table: 0) keeps the hit and leaves its time in the memory
behind the table; the second `ApplyDeadtime`, which finds that time there, drops the hit.  For
a cluster without a hit on channel `MAXPM` the second `ApplyDeadtime` keeps every hit of the
first: the same hits with the same sequence of times and the same flags and vertex, the same
cluster when no vertex is attached or when no two kept hits have the same time. -/
theorem C10_second_pass_drops_hit_on_last_channel :
    (PMTHitCluster.Append exampleGeometry PMTHitCluster.empty
      (PMTHit.mk4 1000 1 11146 0)).fElement = [PMTHit.mk4 1000 1 11146 0] ∧
    (PMTHitCluster.ApplyDeadtime stableSort exampleGeometry 0
      (PMTHitCluster.Append exampleGeometry PMTHitCluster.empty (PMTHit.mk4 1000 1 11146 0))
      900).fElement = [PMTHit.mk4 1000 1 11146 0] ∧
    ([PMTHit.mk4 1000 1 11146 0].foldl (PMTHitCluster.deadtimeStep exampleGeometry 900)
      (PMTHitCluster.hitTimeInit exampleGeometry 0, [])).1 11146 = 1000 ∧
    (PMTHitCluster.ApplyDeadtime stableSort exampleGeometry 1000
      (PMTHitCluster.ApplyDeadtime stableSort exampleGeometry 0
        (PMTHitCluster.Append exampleGeometry PMTHitCluster.empty (PMTHit.mk4 1000 1 11146 0))
        900) 900).fElement = [] ∧
    (∀ (stdSort : List PMTHit → List PMTHit) (g : Geometry) (b1 b2 : ℚ) (c : PMTHitCluster)
      (w : ℚ), SortContract stdSort → (∀ h ∈ c.fElement, h.fPMTID ≠ g.MAXPM) →
      (PMTHitCluster.ApplyDeadtime stdSort g b2
          (PMTHitCluster.ApplyDeadtime stdSort g b1 c w) w).fElement.Perm
        (PMTHitCluster.ApplyDeadtime stdSort g b1 c w).fElement ∧
      (PMTHitCluster.ApplyDeadtime stdSort g b2
          (PMTHitCluster.ApplyDeadtime stdSort g b1 c w) w).fElement.map PMTHit.t =
        (PMTHitCluster.ApplyDeadtime stdSort g b1 c w).fElement.map PMTHit.t ∧
      (PMTHitCluster.ApplyDeadtime stdSort g b2
          (PMTHitCluster.ApplyDeadtime stdSort g b1 c w) w).fIsSorted =
        (PMTHitCluster.ApplyDeadtime stdSort g b1 c w).fIsSorted ∧
      (PMTHitCluster.ApplyDeadtime stdSort g b2
          (PMTHitCluster.ApplyDeadtime stdSort g b1 c w) w).fHasVertex =
        (PMTHitCluster.ApplyDeadtime stdSort g b1 c w).fHasVertex ∧
      (PMTHitCluster.ApplyDeadtime stdSort g b2
          (PMTHitCluster.ApplyDeadtime stdSort g b1 c w) w).fVertex =
        (PMTHitCluster.ApplyDeadtime stdSort g b1 c w).fVertex ∧
      (c.fHasVertex = false ∨
          (PMTHitCluster.ApplyDeadtime stdSort g b1 c w).fElement.Pairwise
            (fun h1 h2 => h1.t ≠ h2.t) →
        PMTHitCluster.ApplyDeadtime stdSort g b2
            (PMTHitCluster.ApplyDeadtime stdSort g b1 c w) w =
          PMTHitCluster.ApplyDeadtime stdSort g b1 c w)) := by
  refine ⟨by decide!, by decide!, by decide!, by decide!, ?_⟩
  intro stdSort g b1 b2 c w hsort hch
  -- the two tables agree on the table channels of the hits
  have hin : ∀ (b : ℚ) (x : PMTHit), x.fPMTID ≠ g.MAXPM → 1 ≤ x.i ∧ x.i ≤ g.MAXPM →
      PMTHitCluster.hitTimeInit g b x.i = g.floatMin := by
    intro b x hx hv
    have h1 : (1 : Int) ≤ x.fPMTID := hv.1
    have h2 : x.fPMTID ≤ g.MAXPM := hv.2
    exact PMTHitCluster.hitTimeInit_inside g b x.i (by show (0 : Int) ≤ x.fPMTID; omega)
      (by show x.fPMTID < g.MAXPM; omega)
  cases hv : c.fHasVertex
  · rw [PMTHitCluster.ApplyDeadtime_noVertex stdSort g b1 c w hv]
    rw [PMTHitCluster.ApplyDeadtime_noVertex stdSort g b2 _ w rfl]
    simp only [if_true]
    have hLch : ∀ x ∈ (if c.fIsSorted = true then c.fElement else stdSort c.fElement),
        x.fPMTID ≠ g.MAXPM := by
      intro x hx
      split_ifs at hx
      · exact hch x hx
      · exact hch x ((hsort _).1.subset hx)
    have hK : PMTHitCluster.deadtimeKeep g w (PMTHitCluster.hitTimeInit g b2)
        (PMTHitCluster.deadtimeKeep g w (PMTHitCluster.hitTimeInit g b1)
          (if c.fIsSorted = true then c.fElement else stdSort c.fElement)) =
        PMTHitCluster.deadtimeKeep g w (PMTHitCluster.hitTimeInit g b1)
          (if c.fIsSorted = true then c.fElement else stdSort c.fElement) := by
      rw [PMTHitCluster.deadtimeKeep_congr g w _ (PMTHitCluster.hitTimeInit g b2)
        (PMTHitCluster.hitTimeInit g b1), PMTHitCluster.deadtimeKeep_idem]
      intro x hx hxv
      have hxL := (PMTHitCluster.deadtimeKeep_sublist g w _ _).subset hx
      rw [hin b2 x (hLch x hxL) hxv, hin b1 x (hLch x hxL) hxv]
    rw [hK]
    exact ⟨List.Perm.refl _, rfl, trivial, trivial, trivial, fun _ => rfl⟩
  · rw [PMTHitCluster.ApplyDeadtime_vertex stdSort g b1 c w hv]
    rw [PMTHitCluster.ApplyDeadtime_vertex stdSort g b2 _ w rfl]
    simp only
    set R := stdSort (c.fElement.map PMTHit.UnsetToFAndDirection) with hR
    set K := PMTHitCluster.deadtimeKeep g w (PMTHitCluster.hitTimeInit g b1) R with hKdef
    have hRch : ∀ x ∈ R, x.fPMTID ≠ g.MAXPM := by
      intro x hx
      have hx' := (hsort _).1.subset hx
      rw [List.mem_map] at hx'
      obtain ⟨y, hy, rfl⟩ := hx'
      exact hch y hy
    have hRr : ∀ x ∈ R, PMTHitCluster.isRaw x := by
      intro x hx
      have hx' := (hsort _).1.subset hx
      rw [List.mem_map] at hx'
      obtain ⟨y, _, rfl⟩ := hx'
      exact PMTHitCluster.isRaw_Unset y
    have hsub : List.Sublist K R := PMTHitCluster.deadtimeKeep_sublist g w R _
    have hKv : ∀ x ∈ K, 1 ≤ x.i ∧ x.i ≤ g.MAXPM ∧
        x.t - PMTHitCluster.hitTimeInit g b2 x.i > w := by
      intro x hx
      have hval := PMTHitCluster.deadtimeKeep_valid g w R _ x hx
      refine ⟨hval.1, hval.2, ?_⟩
      rw [hin b2 x (hRch x (hsub.subset hx)) hval]
      exact PMTHitCluster.deadtimeKeep_after_init g w g.floatMin R
        (PMTHitCluster.hitTimeInit g b1) (hsort _).2
        (fun z hz hzv => Or.inl (hin b1 z (hRch z hz) hzv)) x hx
    obtain ⟨hperm, hkeep⟩ := PMTHitCluster.deadtime_second_pass stdSort hsort g c.fVertex w
      (PMTHitCluster.hitTimeInit g b2) K (fun x hx => hRr x (hsub.subset hx))
      (PMTHitCluster.deadtimeKeep_pairwise g w R _) hKv
    rw [hkeep]
    have hP : (stdSort ((stdSort ((stdSort (K.map (PMTHit.SetToFAndDirection g c.fVertex))).map
        PMTHit.UnsetToFAndDirection)).map (PMTHit.SetToFAndDirection g c.fVertex))).Perm
        (stdSort (K.map (PMTHit.SetToFAndDirection g c.fVertex))) :=
      ((hsort _).1.trans (hperm.map _)).trans (hsort _).1.symm
    have hT := PMTHitCluster.map_t_eq_of_perm_of_sorted _ _ hP (hsort _).2 (hsort _).2
    refine ⟨hP, hT, trivial, trivial, trivial, ?_⟩
    intro hd
    rcases hd with hd | hd
    · exact absurd hd (by simp)
    · have := PMTHitCluster.eq_of_perm_of_sorted_of_distinct _ _ hP (hsort _).2 (hsort _).2 hd
      rw [this]

/-- C11 (counterexample): with a window of 900, a single hit on outer-detector channel 20001
is not kept, and a single hit at time 50 on inner channel 5, the earliest and only hit of its
channel, is not kept either. -/
theorem C11_counterexample :
    (PMTHitCluster.ApplyDeadtime stableSort exampleGeometry 0
      (PMTHitCluster.Append exampleGeometry PMTHitCluster.empty (PMTHit.mk4 1000 1 20001 0))
      900).fElement = [] ∧
    (PMTHitCluster.Append exampleGeometry PMTHitCluster.empty
      (PMTHit.mk4 1000 1 20001 0)).fElement = [PMTHit.mk4 1000 1 20001 0] ∧
    (PMTHitCluster.ApplyDeadtime stableSort exampleGeometry 0
      (PMTHitCluster.Append exampleGeometry PMTHitCluster.empty (PMTHit.mk4 50 1 5 0))
      900).fElement = [] ∧
    (PMTHitCluster.Append exampleGeometry PMTHitCluster.empty
      (PMTHit.mk4 50 1 5 0)).fElement = [PMTHit.mk4 50 1 5 0] := by
  refine ⟨by decide!, by decide!, by decide!, by decide!⟩

/-- C11 (amended): the hits left by `ApplyDeadtime(w)` are the hits `K` kept by the loop from
the time-ordered raw hits `L` (corrected against the vertex and sorted again when a vertex is
attached).  No kept hit is on a channel outside `1..MAXPM`.  For every position of `L`, with
`pre` the hits before it and `x` the hit at it: the hits kept from `pre ++ [x]` are a prefix of
`K`, and are those kept from `pre` with or without `x` at the end; if `x` is on a channel
in `1..MAXPM-1`, the channels with an entry in the table, and its time exceeds the initial
table value by more than `w`, then `x` is kept when no earlier hit is on its channel, and when
`x` is not kept there is a hit kept before it on its channel at most `w` earlier. -/
theorem C11_deadtime_keep_rule (stdSort : List PMTHit → List PMTHit) (g : Geometry)
    (beyond : ℚ) (c : PMTHitCluster) (w : ℚ) :
    (PMTHitCluster.ApplyDeadtime stdSort g beyond c w).fElement =
      (if c.fHasVertex = true then
        stdSort ((PMTHitCluster.deadtimeKeep g w (PMTHitCluster.hitTimeInit g beyond)
            (PMTHitCluster.deadtimeInput stdSort c)).map
          (PMTHit.SetToFAndDirection g c.fVertex))
      else PMTHitCluster.deadtimeKeep g w (PMTHitCluster.hitTimeInit g beyond)
        (PMTHitCluster.deadtimeInput stdSort c)) ∧
    (∀ y ∈ PMTHitCluster.deadtimeKeep g w (PMTHitCluster.hitTimeInit g beyond)
        (PMTHitCluster.deadtimeInput stdSort c), 1 ≤ y.fPMTID ∧ y.fPMTID ≤ g.MAXPM) ∧
    (∀ (pre : List PMTHit) (x : PMTHit) (post : List PMTHit),
      PMTHitCluster.deadtimeInput stdSort c = pre ++ x :: post →
      (∃ rest, PMTHitCluster.deadtimeKeep g w (PMTHitCluster.hitTimeInit g beyond)
          (PMTHitCluster.deadtimeInput stdSort c) =
        PMTHitCluster.deadtimeKeep g w (PMTHitCluster.hitTimeInit g beyond) (pre ++ [x]) ++
          rest) ∧
      (PMTHitCluster.deadtimeKeep g w (PMTHitCluster.hitTimeInit g beyond) (pre ++ [x]) =
          PMTHitCluster.deadtimeKeep g w (PMTHitCluster.hitTimeInit g beyond) pre ++ [x] ∨
        PMTHitCluster.deadtimeKeep g w (PMTHitCluster.hitTimeInit g beyond) (pre ++ [x]) =
          PMTHitCluster.deadtimeKeep g w (PMTHitCluster.hitTimeInit g beyond) pre) ∧
      (1 ≤ x.fPMTID ∧ x.fPMTID < g.MAXPM → w < x.fT - g.floatMin →
        (∀ y ∈ pre, y.fPMTID ≠ x.fPMTID) →
        PMTHitCluster.deadtimeKeep g w (PMTHitCluster.hitTimeInit g beyond) (pre ++ [x]) =
          PMTHitCluster.deadtimeKeep g w (PMTHitCluster.hitTimeInit g beyond) pre ++ [x]) ∧
      (1 ≤ x.fPMTID ∧ x.fPMTID < g.MAXPM → w < x.fT - g.floatMin →
        PMTHitCluster.deadtimeKeep g w (PMTHitCluster.hitTimeInit g beyond) (pre ++ [x]) =
          PMTHitCluster.deadtimeKeep g w (PMTHitCluster.hitTimeInit g beyond) pre →
        ∃ y ∈ PMTHitCluster.deadtimeKeep g w (PMTHitCluster.hitTimeInit g beyond) pre,
          y.fPMTID = x.fPMTID ∧ x.fT - y.fT ≤ w)) := by
  refine ⟨PMTHitCluster.ApplyDeadtime_fElement stdSort g beyond c w,
    fun y hy => PMTHitCluster.deadtimeKeep_valid g w _ _ y hy, ?_⟩
  intro pre x post hL
  have hsn := PMTHitCluster.deadtimeKeep_snoc g w (PMTHitCluster.hitTimeInit g beyond) pre x
  have htab := PMTHitCluster.deadtime_table g w (PMTHitCluster.hitTimeInit g beyond) pre x.i
  have hinit : 1 ≤ x.fPMTID ∧ x.fPMTID < g.MAXPM →
      PMTHitCluster.hitTimeInit g beyond x.i = g.floatMin := fun hx =>
    PMTHitCluster.hitTimeInit_inside g beyond x.i (le_trans (by norm_num) hx.1) hx.2
  refine ⟨?_, ?_, ?_, ?_⟩
  · have : PMTHitCluster.deadtimeInput stdSort c = (pre ++ [x]) ++ post := by
      rw [hL]; simp
    rw [this]
    exact PMTHitCluster.deadtimeKeep_prefix g w (pre ++ [x]) post _
  · rw [hsn]
    split_ifs
    · exact Or.inl rfl
    · exact Or.inr rfl
  · intro hx ht hpre
    rw [hsn]
    rcases htab with h | ⟨y, hy, hyc, _⟩
    · rw [if_pos ⟨hx.1, le_of_lt hx.2, by rw [h, hinit hx]; exact ht⟩]
    · exact absurd hyc (hpre y
        ((PMTHitCluster.deadtimeKeep_sublist g w pre _).subset hy))
  · intro hx ht hkeep
    rw [hsn] at hkeep
    split_ifs at hkeep with hc
    · have := congrArg List.length hkeep
      simp at this
    · rcases htab with h | ⟨y, hy, hyc, hyt⟩
      · exact absurd ⟨hx.1, le_of_lt hx.2, by rw [h, hinit hx]; exact ht⟩ hc
      · refine ⟨y, hy, hyc, ?_⟩
        have hn : ¬ (x.t - y.t > w) :=
          fun h3 => hc ⟨hx.1, le_of_lt hx.2, by rw [hyt]; exact h3⟩
        exact not_lt.mp hn

/-- C12 (counterexample): a hit at time 9000 on channel 6 appended to a cluster with the
vertex `(10, 20, 30)` attached is stored without correction; `ApplyDeadtime(900)` keeps it and
leaves it with the time 8996.994, its time minus its travel time from the vertex. -/
theorem C12_counterexample :
    (PMTHitCluster.Append exampleGeometry
      (PMTHitCluster.SetVertex stableSort exampleGeometry PMTHitCluster.empty ⟨10, 20, 30⟩)
      (PMTHit.mk4 9000 1 6 0)).fHasVertex = true ∧
    (PMTHitCluster.Append exampleGeometry
      (PMTHitCluster.SetVertex stableSort exampleGeometry PMTHitCluster.empty ⟨10, 20, 30⟩)
      (PMTHit.mk4 9000 1 6 0)).fElement.map (fun h => (h.fPMTID, h.fT)) = [(6, 9000)] ∧
    (PMTHitCluster.ApplyDeadtime stableSort exampleGeometry 0
      (PMTHitCluster.Append exampleGeometry
        (PMTHitCluster.SetVertex stableSort exampleGeometry PMTHitCluster.empty ⟨10, 20, 30⟩)
        (PMTHit.mk4 9000 1 6 0)) 900).fElement.map (fun h => (h.fPMTID, h.fT)) =
      [(6, 4498497 / 500)] := by
  refine ⟨by decide!, by decide!, by decide!⟩

/-- C12 (amended): `ApplyDeadtime` leaves the vertex flag and the vertex as they were.  With a
vertex `V` attached, every kept hit is a hit of the cluster whose correction was removed and
set again against `V`: its time is its time before the call plus its stored ToF minus its
ToF from `V`, which is its time before the call exactly when its stored ToF is the ToF from
`V`; without a vertex every kept hit is a hit of the cluster, unchanged. -/
theorem C12_deadtime_restores_vertex (stdSort : List PMTHit → List PMTHit) (g : Geometry)
    (beyond : ℚ) (c : PMTHitCluster) (w : ℚ) (hsort : SortContract stdSort) :
    (PMTHitCluster.ApplyDeadtime stdSort g beyond c w).fHasVertex = c.fHasVertex ∧
    (PMTHitCluster.ApplyDeadtime stdSort g beyond c w).fVertex = c.fVertex ∧
    (c.fHasVertex = true →
      ∀ y ∈ (PMTHitCluster.ApplyDeadtime stdSort g beyond c w).fElement, ∃ x ∈ c.fElement,
        y = (x.UnsetToFAndDirection).SetToFAndDirection g c.fVertex ∧
        y.fT = x.fT + x.fToF - g.tof c.fVertex x.fPMTID ∧
        (y.fT = x.fT ↔ x.fToF = g.tof c.fVertex x.fPMTID)) ∧
    (c.fHasVertex = false →
      ∀ y ∈ (PMTHitCluster.ApplyDeadtime stdSort g beyond c w).fElement, y ∈ c.fElement) := by
  cases hv : c.fHasVertex
  · rw [PMTHitCluster.ApplyDeadtime_noVertex stdSort g beyond c w hv]
    refine ⟨rfl, rfl, fun h => absurd h (by simp), fun _ y hy => ?_⟩
    have h1 := (PMTHitCluster.deadtimeKeep_sublist g w _
      (PMTHitCluster.hitTimeInit g beyond)).subset hy
    split_ifs at h1
    · exact h1
    · exact (hsort _).1.subset h1
  · rw [PMTHitCluster.ApplyDeadtime_vertex stdSort g beyond c w hv]
    refine ⟨rfl, rfl, fun _ y hy => ?_, fun h => absurd h (by simp)⟩
    simp only at hy
    have hy' := (hsort _).1.subset hy
    rw [List.mem_map] at hy'
    obtain ⟨k, hk, rfl⟩ := hy'
    have h1 := (hsort _).1.subset ((PMTHitCluster.deadtimeKeep_sublist g w _
      (PMTHitCluster.hitTimeInit g beyond)).subset hk)
    rw [List.mem_map] at h1
    obtain ⟨x, hx, rfl⟩ := h1
    refine ⟨x, hx, rfl, ?_, ?_⟩
    · simp only [PMTHit.SetToFAndDirection, PMTHit.UnsetToFAndDirection]
    · simp only [PMTHit.SetToFAndDirection, PMTHit.UnsetToFAndDirection]
      constructor
      · intro h; linarith
      · intro h; rw [h]; ring

/-- C12 (witness): two hits corrected against the vertex `(10, 20, 30)` by `SetVertex` and a
third hit appended afterwards, window 900. -/
theorem C12_deadtime_restores_vertex_witness :
    SortContract stableSort ∧
    (PMTHitCluster.ApplyDeadtime stableSort exampleGeometry 0
      (PMTHitCluster.Append exampleGeometry
        (PMTHitCluster.SetVertex stableSort exampleGeometry
          ⟨[PMTHit.mk4 3000 1 5 0, PMTHit.mk4 1000 2 7000 0], false, false, TVector3.zero⟩
          ⟨10, 20, 30⟩)
        (PMTHit.mk4 9000 1 6 0)) 900).fVertex = ⟨10, 20, 30⟩ ∧
    (PMTHitCluster.ApplyDeadtime stableSort exampleGeometry 0
      (PMTHitCluster.Append exampleGeometry
        (PMTHitCluster.SetVertex stableSort exampleGeometry
          ⟨[PMTHit.mk4 3000 1 5 0, PMTHit.mk4 1000 2 7000 0], false, false, TVector3.zero⟩
          ⟨10, 20, 30⟩)
        (PMTHit.mk4 9000 1 6 0)) 900).fElement.map (fun h => (h.fPMTID, h.fT)) =
      [(7000, 990), (5, 599399 / 200), (6, 4498497 / 500)] :=
  ⟨PMTHitCluster.SortContract_stableSort,
    ((C12_deadtime_restores_vertex stableSort exampleGeometry 0
      (PMTHitCluster.Append exampleGeometry
        (PMTHitCluster.SetVertex stableSort exampleGeometry
          ⟨[PMTHit.mk4 3000 1 5 0, PMTHit.mk4 1000 2 7000 0], false, false, TVector3.zero⟩
          ⟨10, 20, 30⟩)
        (PMTHit.mk4 9000 1 6 0)) 900 PMTHitCluster.SortContract_stableSort).2.1).trans
      (by decide!),
    by decide!⟩

/-- C13 (counterexample): the sorted flag is true after `Append` on a cluster flagged sorted,
after `ApplyDeadtime` and after `AddTimeOffset` on a cluster flagged sorted. -/
theorem C13_counterexample :
    (PMTHitCluster.Append exampleGeometry
        (PMTHitCluster.SortHits stableSort PMTHitCluster.empty)
        (PMTHit.mk4 100 1 5 0)).fIsSorted = true ∧
    (PMTHitCluster.ApplyDeadtime stableSort exampleGeometry 0
        (PMTHitCluster.Append exampleGeometry PMTHitCluster.empty (PMTHit.mk4 1000 1 5 0))
        900).fIsSorted = true ∧
    (PMTHitCluster.AddTimeOffset
        (PMTHitCluster.SortHits stableSort
          (PMTHitCluster.Append exampleGeometry PMTHitCluster.empty (PMTHit.mk4 100 1 5 0)))
        10).fIsSorted = true := by
  refine ⟨by decide!, by decide!, by decide!⟩

/-- C13 (amended): `ApplyDeadtime` leaves the sorted flag true; `AddTimeOffset` leaves the
sorted flag as it was, and the hits are in non-decreasing time order after it exactly when
they were before. -/
theorem C13_sorted_flag_after_deadtime_and_offset (stdSort : List PMTHit → List PMTHit)
    (g : Geometry) (beyond : ℚ) (c : PMTHitCluster) (w d : ℚ) :
    (PMTHitCluster.ApplyDeadtime stdSort g beyond c w).fIsSorted = true ∧
    (PMTHitCluster.AddTimeOffset c d).fIsSorted = c.fIsSorted ∧
    ((PMTHitCluster.AddTimeOffset c d).fElement.Pairwise (fun h1 h2 => h1.t ≤ h2.t) ↔
      c.fElement.Pairwise (fun h1 h2 => h1.t ≤ h2.t)) := by
  refine ⟨?_, rfl, ?_⟩
  · cases hv : c.fHasVertex
    · rw [PMTHitCluster.ApplyDeadtime_noVertex stdSort g beyond c w hv]
    · rw [PMTHitCluster.ApplyDeadtime_vertex stdSort g beyond c w hv]
  · simp only [PMTHitCluster.AddTimeOffset, List.pairwise_map, PMTHit.addTime, PMTHit.t,
      add_le_add_iff_right]

/-- C14: after `Sort()` the hits are a permutation of the hits before the call, their times
`t()` are in non-decreasing order, and `fIsSorted` is true: with the insertion sort in the
place of `std::sort`, with the insertion sort from the back, and with every routine that
meets the contract of `std::sort`. -/
theorem C14_Sort_postcondition (c : PMTHitCluster) :
    ((PMTHitCluster.SortHits stableSort c).fElement.Perm c.fElement ∧
      (PMTHitCluster.SortHits stableSort c).fElement.Pairwise (fun h1 h2 => h1.t ≤ h2.t) ∧
      (PMTHitCluster.SortHits stableSort c).fIsSorted = true) ∧
    ((PMTHitCluster.SortHits unstableSort c).fElement.Perm c.fElement ∧
      (PMTHitCluster.SortHits unstableSort c).fElement.Pairwise (fun h1 h2 => h1.t ≤ h2.t) ∧
      (PMTHitCluster.SortHits unstableSort c).fIsSorted = true) ∧
    (∀ stdSort : List PMTHit → List PMTHit, SortContract stdSort →
      (PMTHitCluster.SortHits stdSort c).fElement.Perm c.fElement ∧
      (PMTHitCluster.SortHits stdSort c).fElement.Pairwise (fun h1 h2 => h1.t ≤ h2.t) ∧
      (PMTHitCluster.SortHits stdSort c).fIsSorted = true) :=
  ⟨⟨List.perm_insertionSort _ _, PMTHitCluster.sorted_key_insertionSort PMTHit.t _, rfl⟩,
    ⟨(PMTHitCluster.SortContract_unstableSort _).1,
      (PMTHitCluster.SortContract_unstableSort _).2, rfl⟩,
    fun _ hs => ⟨(hs _).1, (hs _).2, rfl⟩⟩

/-- C16: for a cluster without a vertex, `SetVertex(V)` followed by `RemoveVertex()` leaves no
vertex attached, and the hits are the original hits in some order, each with exactly its
original time (and charge, channel and flags), with the stored ToF and direction cleared. -/
theorem C16_ToF_round_trip (stdSort : List PMTHit → List PMTHit) (g : Geometry)
    (c : PMTHitCluster) (V : TVector3) (hsort : SortContract stdSort)
    (hv : c.fHasVertex = false) :
    (PMTHitCluster.RemoveVertex g (PMTHitCluster.SetVertex stdSort g c V)).fHasVertex = false ∧
    (PMTHitCluster.RemoveVertex g (PMTHitCluster.SetVertex stdSort g c V)).fElement.Perm
      (c.fElement.map (fun h => { h with fToF := 0, fHitDirection := TVector3.zero })) ∧
    (PMTHitCluster.RemoveVertex g (PMTHitCluster.SetVertex stdSort g c V)).fElement.length =
      c.fElement.length := by
  rw [PMTHitCluster.SetVertex_of_noVertex stdSort g c V hv,
    PMTHitCluster.RemoveVertex_of_vertex g _ rfl]
  simp only
  have hp : ((stdSort (c.fElement.map (PMTHit.SetToFAndDirection g V))).map
      PMTHit.UnsetToFAndDirection).Perm
      (c.fElement.map (fun h => { h with fToF := 0, fHitDirection := TVector3.zero })) := by
    refine ((hsort _).1.map _).trans ?_
    rw [List.map_map]
    have : (PMTHit.UnsetToFAndDirection ∘ PMTHit.SetToFAndDirection g V) =
        (fun h => { h with fToF := 0, fHitDirection := TVector3.zero }) := by
      funext h
      exact PMTHitCluster.Unset_SetToF g V h
    rw [this]
  refine ⟨trivial, hp, ?_⟩
  rw [hp.length_eq, List.length_map]

/-- C16 (witness): the round trip on a two-hit cluster without a vertex. -/
theorem C16_ToF_round_trip_witness :
    SortContract stableSort ∧
    (PMTHitCluster.RemoveVertex exampleGeometry (PMTHitCluster.SetVertex stableSort
      exampleGeometry
      ⟨[PMTHit.mk4 100 1 5 0, PMTHit.mk4 50 2 7000 0], false, false, TVector3.zero⟩
      ⟨10, 20, 30⟩)).fHasVertex = false ∧
    (PMTHitCluster.RemoveVertex exampleGeometry (PMTHitCluster.SetVertex stableSort
      exampleGeometry
      ⟨[PMTHit.mk4 100 1 5 0, PMTHit.mk4 50 2 7000 0], false, false, TVector3.zero⟩
      ⟨10, 20, 30⟩)).fElement.Perm
      ([PMTHit.mk4 100 1 5 0, PMTHit.mk4 50 2 7000 0].map
        (fun h => { h with fToF := 0, fHitDirection := TVector3.zero })) ∧
    (PMTHitCluster.RemoveVertex exampleGeometry (PMTHitCluster.SetVertex stableSort
      exampleGeometry
      ⟨[PMTHit.mk4 100 1 5 0, PMTHit.mk4 50 2 7000 0], false, false, TVector3.zero⟩
      ⟨10, 20, 30⟩)).fElement.length = 2 :=
  ⟨PMTHitCluster.SortContract_stableSort,
    C16_ToF_round_trip stableSort exampleGeometry
      ⟨[PMTHit.mk4 100 1 5 0, PMTHit.mk4 50 2 7000 0], false, false, TVector3.zero⟩
      ⟨10, 20, 30⟩ PMTHitCluster.SortContract_stableSort rfl⟩

/-- C17: for a cluster with vertex `V1` attached and `V2 ≠ V1`, `SetVertex(V2)` leaves the
cluster with vertex `V2` and `fIsSorted` true, the hits in non-decreasing time order, and
the hits are the original hits in some order, each with time equal to its raw time (its
time plus its stored ToF) minus its ToF from `V2`; the result is the same cluster as
`SetVertex(V2)` on the cluster after `RemoveVertex()`. -/
theorem C17_replace_vertex (stdSort : List PMTHit → List PMTHit) (g : Geometry)
    (c : PMTHitCluster) (V2 : TVector3) (hsort : SortContract stdSort)
    (hv : c.fHasVertex = true) (hne : V2 ≠ c.fVertex) :
    (PMTHitCluster.SetVertex stdSort g c V2).fHasVertex = true ∧
    (PMTHitCluster.SetVertex stdSort g c V2).fVertex = V2 ∧
    (PMTHitCluster.SetVertex stdSort g c V2).fIsSorted = true ∧
    (PMTHitCluster.SetVertex stdSort g c V2).fElement.Pairwise (fun h1 h2 => h1.t ≤ h2.t) ∧
    (PMTHitCluster.SetVertex stdSort g c V2).fElement.Perm
      (c.fElement.map (fun h =>
        { h with fT := h.fT + h.fToF - g.tof V2 h.fPMTID, fToF := g.tof V2 h.fPMTID,
                 fHitDirection := g.dir V2 h.fPMTID })) ∧
    PMTHitCluster.SetVertex stdSort g c V2 =
      PMTHitCluster.SetVertex stdSort g (PMTHitCluster.RemoveVertex g c) V2 := by
  have hne' : c.fVertex ≠ V2 := fun h => hne h.symm
  rw [PMTHitCluster.SetVertex_of_vertex stdSort g c V2 hv hne',
    PMTHitCluster.RemoveVertex_of_vertex g c hv,
    PMTHitCluster.SetVertex_of_noVertex stdSort g _ V2 rfl]
  refine ⟨rfl, rfl, rfl, (hsort _).2, ?_, rfl⟩
  refine (hsort _).1.trans ?_
  rw [List.map_map]
  have : (PMTHit.SetToFAndDirection g V2 ∘ PMTHit.UnsetToFAndDirection) =
      (fun h => { h with fT := h.fT + h.fToF - g.tof V2 h.fPMTID, fToF := g.tof V2 h.fPMTID,
                         fHitDirection := g.dir V2 h.fPMTID }) := by
    funext h
    cases h
    simp [PMTHit.SetToFAndDirection, PMTHit.UnsetToFAndDirection]
  rw [this]

/-- C17 (witness): replacing the vertex of a two-hit cluster corrected against `(10, 20, 30)`. -/
theorem C17_replace_vertex_witness :
    SortContract stableSort ∧
    (PMTHitCluster.SetVertex stableSort exampleGeometry
      (PMTHitCluster.SetVertex stableSort exampleGeometry
        ⟨[PMTHit.mk4 100 1 5 0, PMTHit.mk4 50 2 7000 0], false, false, TVector3.zero⟩
        ⟨10, 20, 30⟩) ⟨0, 0, 40⟩).fVertex = ⟨0, 0, 40⟩ ∧
    (PMTHitCluster.SetVertex stableSort exampleGeometry
      (PMTHitCluster.SetVertex stableSort exampleGeometry
        ⟨[PMTHit.mk4 100 1 5 0, PMTHit.mk4 50 2 7000 0], false, false, TVector3.zero⟩
        ⟨10, 20, 30⟩) ⟨0, 0, 40⟩).fElement.map PMTHit.t = [41, 19599 / 200] :=
  ⟨PMTHitCluster.SortContract_stableSort,
    (C17_replace_vertex stableSort exampleGeometry
      (PMTHitCluster.SetVertex stableSort exampleGeometry
        ⟨[PMTHit.mk4 100 1 5 0, PMTHit.mk4 50 2 7000 0], false, false, TVector3.zero⟩
        ⟨10, 20, 30⟩) ⟨0, 0, 40⟩ PMTHitCluster.SortContract_stableSort
      (by decide!) (by decide!)).2.1, by decide!⟩

/-- C19: `AddTimeOffset(d)` keeps the number and order of the hits, adds exactly `d` to the
time of each hit and leaves every other member of each hit (charge, channel, flag bits,
signal and burst flag, stored ToF, direction), the vertex, the vertex flag and the sorted
flag unchanged. -/
theorem C19_AddTimeOffset_frame (c : PMTHitCluster) (d : ℚ) :
    List.Forall₂
      (fun h h' => h'.fT = h.fT + d ∧ h'.fQ = h.fQ ∧ h'.fPMTID = h.fPMTID ∧ h'.fFlag = h.fFlag ∧
        h'.fIsSignal = h.fIsSignal ∧ h'.fIsBurst = h.fIsBurst ∧ h'.fToF = h.fToF ∧
        h'.fHitDirection = h.fHitDirection)
      c.fElement (PMTHitCluster.AddTimeOffset c d).fElement ∧
    (PMTHitCluster.AddTimeOffset c d).fVertex = c.fVertex ∧
    (PMTHitCluster.AddTimeOffset c d).fHasVertex = c.fHasVertex ∧
    (PMTHitCluster.AddTimeOffset c d).fIsSorted = c.fIsSorted := by
  refine ⟨?_, rfl, rfl, rfl⟩
  simp only [PMTHitCluster.AddTimeOffset]
  rw [List.forall₂_map_right_iff]
  exact List.forall₂_same.mpr (fun x _ => ⟨rfl, rfl, rfl, rfl, rfl, rfl, rfl, rfl⟩)

/-- C20: whenever `MinimizeTRMS` returns the value `r` and the vertex `v`, `r` is the RMS of
the hit times corrected against `v`, no search vertex evaluated in any round has a smaller RMS
than `r`, and `v` is one of the search vertices evaluated. -/
theorem C20_grid_fit_result (tk : Tank) (VTXSRCRANGE : ℚ) (T : List ℚ) (PMTID : List Int)
    (r : ℚ) (v : TVector3)
    (hret : NTagEventInfo.MinimizeTRMS tk VTXSRCRANGE T PMTID = some (r, v)) :
    r = NTagEventInfo.GetTRMS tk (NTagEventInfo.GetToFSubtracted tk T PMTID v true) ∧
    (∀ rd ∈ NTagEventInfo.fitTrace tk VTXSRCRANGE T PMTID,
      ∀ p ∈ NTagEventInfo.evaluatedIn tk VTXSRCRANGE rd,
        r ≤ NTagEventInfo.GetTRMS tk (NTagEventInfo.GetToFSubtracted tk T PMTID p true)) ∧
    (∃ rd ∈ NTagEventInfo.fitTrace tk VTXSRCRANGE T PMTID,
      v ∈ NTagEventInfo.evaluatedIn tk VTXSRCRANGE rd) := by
  obtain ⟨_, hptr, _, hr, hv⟩ :=
    (NTagEventInfo.MinimizeTRMS_eq_some tk VTXSRCRANGE T PMTID r v).mp hret
  obtain ⟨h1, _, h3⟩ := NTagEventInfo.fit_invariant tk VTXSRCRANGE
    (NTagEventInfo.fitRMax tk VTXSRCRANGE) (NTagEventInfo.fitZMax tk VTXSRCRANGE) T PMTID
    (fun v => ∃ rd ∈ NTagEventInfo.fitTrace tk VTXSRCRANGE T PMTID,
      v ∈ NTagEventInfo.evaluatedIn tk VTXSRCRANGE rd)
    8 (NTagEventInfo.fitStart VTXSRCRANGE) rfl (Or.inl ⟨rfl, rfl, rfl⟩)
    (fun rd hrd p hp => ⟨rd, hrd, hp⟩)
  have hall : ∀ rd ∈ NTagEventInfo.fitTrace tk VTXSRCRANGE T PMTID,
      ∀ p ∈ NTagEventInfo.evaluatedIn tk VTXSRCRANGE rd,
        (NTagEventInfo.fitEnd tk VTXSRCRANGE T PMTID).minTRMS ≤
          NTagEventInfo.GetTRMS tk (NTagEventInfo.GetToFSubtracted tk T PMTID p true) :=
    fun rd hrd p hp => (h3 rd hrd).2 p hp
  rcases h1 with ⟨_, _, hc⟩ | ⟨_, hb, hc, _⟩
  · have hc' : (NTagEventInfo.fitEnd tk VTXSRCRANGE T PMTID).minTPointer = false := hc
    rw [hc'] at hptr
    exact absurd hptr (by simp)
  · have hb' : (NTagEventInfo.fitEnd tk VTXSRCRANGE T PMTID).minTRMS =
        NTagEventInfo.GetTRMS tk (NTagEventInfo.GetToFSubtracted tk T PMTID
          (NTagEventInfo.fitEnd tk VTXSRCRANGE T PMTID).vecR true) := hb
    rw [hr, hv]
    exact ⟨hb', hall, hc⟩

/-- C20 (witness): six hits at time 1000 on the channels 1 to 6 of the small tank, the plane-
wave travel times from the tank centre, and the search range 4: two rounds with steps 2 and
1, and `MinimizeTRMS` returns the RMS 0.5 with the vertex `(-0.5, -0.5, -0.5)`. -/
theorem C20_grid_fit_result_witness :
    NTagEventInfo.MinimizeTRMS smallTank 4 [1000, 1000, 1000, 1000, 1000, 1000]
      [1, 2, 3, 4, 5, 6] = some (1 / 2, ⟨-1 / 2, -1 / 2, -1 / 2⟩) ∧
    (1 / 2 : ℚ) = NTagEventInfo.GetTRMS smallTank (NTagEventInfo.GetToFSubtracted smallTank
      [1000, 1000, 1000, 1000, 1000, 1000] [1, 2, 3, 4, 5, 6] ⟨-1 / 2, -1 / 2, -1 / 2⟩ true) :=
  ⟨by decide!,
    (C20_grid_fit_result smallTank 4 [1000, 1000, 1000, 1000, 1000, 1000] [1, 2, 3, 4, 5, 6]
      (1 / 2) ⟨-1 / 2, -1 / 2, -1 / 2⟩ (by decide!)).1⟩

/-- C22: `MinimizeTRMS` starts with step 100 for a search range above 200 and with half the
range otherwise; the steps of the rounds it runs are the initial step divided by 1, 2, 4, ...,
each above 0.5, and the step after the last round is at most 0.5; the loop result is one round
per traced round, and allowing more than eight rounds changes nothing (the loop leaves by its
own test); for a range above 200 exactly 8 rounds run; every round evaluates at most
`rMax * rMax * zMax` search vertices, with `rMax` and `zMax` computed from the initial step. -/
theorem C22_grid_fit_schedule (tk : Tank) (VTXSRCRANGE : ℚ) (T : List ℚ) (PMTID : List Int) :
    (NTagEventInfo.fitStart VTXSRCRANGE).delta =
      (if VTXSRCRANGE > 200 then 100 else VTXSRCRANGE / 2) ∧
    (NTagEventInfo.fitTrace tk VTXSRCRANGE T PMTID).map (fun r => r.delta) =
      (List.range (NTagEventInfo.fitTrace tk VTXSRCRANGE T PMTID).length).map
        (fun k => (NTagEventInfo.fitStart VTXSRCRANGE).delta / 2 ^ k) ∧
    (∀ r ∈ NTagEventInfo.fitTrace tk VTXSRCRANGE T PMTID, r.delta > 1 / 2) ∧
    (NTagEventInfo.fitEnd tk VTXSRCRANGE T PMTID).delta =
      (NTagEventInfo.fitStart VTXSRCRANGE).delta /
        2 ^ (NTagEventInfo.fitTrace tk VTXSRCRANGE T PMTID).length ∧
    (NTagEventInfo.fitEnd tk VTXSRCRANGE T PMTID).delta ≤ 1 / 2 ∧
    NTagEventInfo.fitEnd tk VTXSRCRANGE T PMTID =
      (NTagEventInfo.fitTrace tk VTXSRCRANGE T PMTID).foldl
        (fun s _ => NTagEventInfo.fitRound tk VTXSRCRANGE (NTagEventInfo.fitRMax tk VTXSRCRANGE)
          (NTagEventInfo.fitZMax tk VTXSRCRANGE) T PMTID s)
        (NTagEventInfo.fitStart VTXSRCRANGE) ∧
    (∀ extra, NTagEventInfo.fitLoop tk VTXSRCRANGE (NTagEventInfo.fitRMax tk VTXSRCRANGE)
        (NTagEventInfo.fitZMax tk VTXSRCRANGE) T PMTID (8 + extra)
        (NTagEventInfo.fitStart VTXSRCRANGE) = NTagEventInfo.fitEnd tk VTXSRCRANGE T PMTID) ∧
    (VTXSRCRANGE > 200 → (NTagEventInfo.fitTrace tk VTXSRCRANGE T PMTID).length = 8) ∧
    (∀ r ∈ NTagEventInfo.fitTrace tk VTXSRCRANGE T PMTID,
      (NTagEventInfo.evaluatedIn tk VTXSRCRANGE r).length ≤
        (NTagEventInfo.fitRMax tk VTXSRCRANGE).toNat * (NTagEventInfo.fitRMax tk VTXSRCRANGE).toNat *
          (NTagEventInfo.fitZMax tk VTXSRCRANGE).toNat) := by
  obtain ⟨d1, d2, d3⟩ := NTagEventInfo.fitRounds_delta tk VTXSRCRANGE
    (NTagEventInfo.fitRMax tk VTXSRCRANGE) (NTagEventInfo.fitZMax tk VTXSRCRANGE) T PMTID 8
    (NTagEventInfo.fitStart VTXSRCRANGE)
  obtain ⟨f1, f2⟩ := NTagEventInfo.fitLoop_fuel tk VTXSRCRANGE
    (NTagEventInfo.fitRMax tk VTXSRCRANGE) (NTagEventInfo.fitZMax tk VTXSRCRANGE) T PMTID 8
    (NTagEventInfo.fitStart VTXSRCRANGE) (NTagEventInfo.fitDelta_le VTXSRCRANGE)
  refine ⟨rfl, d1, d2, d3, f1, NTagEventInfo.fitLoop_eq_foldl _ _ _ _ _ _ _ _, f2, ?_, ?_⟩
  · intro hR
    apply NTagEventInfo.fitRounds_length
    intro k hk
    have hd : (NTagEventInfo.fitStart VTXSRCRANGE).delta = 100 := by
      simp [NTagEventInfo.fitStart, NTagEventInfo.fitDelta, hR]
    rw [hd]
    have hk8 : k < 8 := hk
    interval_cases k <;> norm_num
  · intro r _
    exact NTagEventInfo.length_gridPoints _ _ _ _ _ _

/-- C23: when the tank constants are such that the tank centre is inside the tank, the vertex
that `MinimizeTRMS` writes to `rmsFitVertex` after the loop, which is the vertex it returns
when it returns, satisfies `sqrt(x^2 + y^2) ≤ RINTK` and `-ZPINTK ≤ z ≤ ZPINTK`; every round
starts with `vecR` equal to the best vertex found so far, and evaluates only search vertices
within `VTXSRCRANGE` of `vecR` (and inside the tank). -/
theorem C23_grid_fit_inside_tank (tk : Tank) (VTXSRCRANGE : ℚ) (T : List ℚ) (PMTID : List Int)
    (hr : tk.sqrt 0 ≤ tk.RINTK) (hz : 0 ≤ tk.ZPINTK) :
    NTagEventInfo.inTank tk (NTagEventInfo.fitEnd tk VTXSRCRANGE T PMTID).vecR ∧
    (∀ r v, NTagEventInfo.MinimizeTRMS tk VTXSRCRANGE T PMTID = some (r, v) →
      v = (NTagEventInfo.fitEnd tk VTXSRCRANGE T PMTID).vecR ∧ NTagEventInfo.inTank tk v) ∧
    (∀ r ∈ NTagEventInfo.fitTrace tk VTXSRCRANGE T PMTID,
      r.vecR = r.tmpVertex ∧
      ∀ p ∈ NTagEventInfo.evaluatedIn tk VTXSRCRANGE r,
        NTagEventInfo.Norm tk (p.x - r.vecR.x) (p.y - r.vecR.y) (p.z - r.vecR.z) ≤ VTXSRCRANGE ∧
        NTagEventInfo.inTank tk p) := by
  obtain ⟨h1, _, h3⟩ := NTagEventInfo.fit_invariant tk VTXSRCRANGE
    (NTagEventInfo.fitRMax tk VTXSRCRANGE) (NTagEventInfo.fitZMax tk VTXSRCRANGE) T PMTID
    (NTagEventInfo.inTank tk)
    8 (NTagEventInfo.fitStart VTXSRCRANGE) rfl (Or.inl ⟨rfl, rfl, rfl⟩)
    (fun r _ p hp => (NTagEventInfo.mem_gridPoints tk _ _ _ _ _ p hp).1)
  have hin : NTagEventInfo.inTank tk (NTagEventInfo.fitEnd tk VTXSRCRANGE T PMTID).vecR := by
    rcases h1 with ⟨_, hb, _⟩ | ⟨_, _, hc, _⟩
    · have hb' : (NTagEventInfo.fitEnd tk VTXSRCRANGE T PMTID).vecR = TVector3.zero := hb
      rw [hb']
      refine ⟨?_, ?_, ?_⟩
      · have : (TVector3.zero.x * TVector3.zero.x + TVector3.zero.y * TVector3.zero.y : ℚ) = 0 := by
          simp [TVector3.zero]
        rw [this]; exact hr
      · simp only [TVector3.zero]; linarith
      · simp only [TVector3.zero]; exact hz
    · exact hc
  refine ⟨hin, ?_, fun r hr' => ⟨(h3 r hr').1, fun p hp => ?_⟩⟩
  · intro r v hret
    obtain ⟨_, _, _, _, hv⟩ :=
      (NTagEventInfo.MinimizeTRMS_eq_some tk VTXSRCRANGE T PMTID r v).mp hret
    rw [hv]
    exact ⟨rfl, hin⟩
  · have := NTagEventInfo.mem_gridPoints tk _ _ _ _ _ p hp
    exact ⟨this.2, this.1⟩

/-- C23 (witness): the small tank has its centre inside, and the vertex returned for six hits
at time 1000 is inside the tank. -/
theorem C23_grid_fit_inside_tank_witness :
    smallTank.sqrt 0 ≤ smallTank.RINTK ∧ 0 ≤ smallTank.ZPINTK ∧
    NTagEventInfo.MinimizeTRMS smallTank 4 [1000, 1000, 1000, 1000, 1000, 1000]
      [1, 2, 3, 4, 5, 6] = some (1 / 2, ⟨-1 / 2, -1 / 2, -1 / 2⟩) ∧
    NTagEventInfo.inTank smallTank ⟨-1 / 2, -1 / 2, -1 / 2⟩ :=
  ⟨by decide!, by decide!, by decide!,
    ((C23_grid_fit_inside_tank smallTank 4 [1000, 1000, 1000, 1000, 1000, 1000]
      [1, 2, 3, 4, 5, 6] (by decide!) (by decide!)).2.1 (1 / 2) ⟨-1 / 2, -1 / 2, -1 / 2⟩
      (by decide!)).2⟩

/-- C24: for a candidate whose counter `n1300hits` (never above 1000) is below 50 or above 999,
the recorded values are the failure values (energy 0, vertex (9999, 9999, 9999), fit time 0,
goodness 0, dirKS 1, likelihood 0, ovaQ -1) whatever the external fit would return, so the
external fit has no part in them; for a counter in [50, 999] the recorded energy, vertex, fit
time, goodness, dirKS and ovaQ are those returned by the external fit called with the hits
of `index1300`. -/
theorem C24_external_fit_sentinel (bonsai_fit other_fit : BonsaiInput → BonsaiFit)
    (bData : Bool) (raw : RawHitVectors) (vUnsortedT_ToF : List ℚ) (dtc : ℚ) :
    NTagEventInfo.n1300hits vUnsortedT_ToF raw.nqiskz dtc ≤ 1000 ∧
    ((NTagEventInfo.n1300hits vUnsortedT_ToF raw.nqiskz dtc < 50 ∨
        NTagEventInfo.n1300hits vUnsortedT_ToF raw.nqiskz dtc > 999) →
      NTagEventInfo.BonsaiOfCandidate bonsai_fit bData raw vUnsortedT_ToF dtc =
        { tbsenergy := 0, tbsvx := 9999, tbsvy := 9999, tbsvz := 9999, tbsvt := 0,
          tbsgood := 0, tbsdirks := 1, tbspatlik := ((0 : ℚ) : WithBot ℚ), tbsovaq := -1 } ∧
      NTagEventInfo.BonsaiOfCandidate bonsai_fit bData raw vUnsortedT_ToF dtc =
        NTagEventInfo.BonsaiOfCandidate other_fit bData raw vUnsortedT_ToF dtc) ∧
    ((50 ≤ NTagEventInfo.n1300hits vUnsortedT_ToF raw.nqiskz dtc ∧
        NTagEventInfo.n1300hits vUnsortedT_ToF raw.nqiskz dtc ≤ 999) →
      (NTagEventInfo.BonsaiOfCandidate bonsai_fit bData raw vUnsortedT_ToF dtc).tbsvx =
        (bonsai_fit (NTagEventInfo.bonsaiArgs bData raw vUnsortedT_ToF dtc)).tbsvx ∧
      (NTagEventInfo.BonsaiOfCandidate bonsai_fit bData raw vUnsortedT_ToF dtc).tbsvy =
        (bonsai_fit (NTagEventInfo.bonsaiArgs bData raw vUnsortedT_ToF dtc)).tbsvy ∧
      (NTagEventInfo.BonsaiOfCandidate bonsai_fit bData raw vUnsortedT_ToF dtc).tbsvz =
        (bonsai_fit (NTagEventInfo.bonsaiArgs bData raw vUnsortedT_ToF dtc)).tbsvz ∧
      (NTagEventInfo.BonsaiOfCandidate bonsai_fit bData raw vUnsortedT_ToF dtc).tbsvt =
        (bonsai_fit (NTagEventInfo.bonsaiArgs bData raw vUnsortedT_ToF dtc)).tbsvt ∧
      (NTagEventInfo.BonsaiOfCandidate bonsai_fit bData raw vUnsortedT_ToF dtc).tbsenergy =
        (bonsai_fit (NTagEventInfo.bonsaiArgs bData raw vUnsortedT_ToF dtc)).tbsenergy ∧
      (NTagEventInfo.BonsaiOfCandidate bonsai_fit bData raw vUnsortedT_ToF dtc).tbsgood =
        (bonsai_fit (NTagEventInfo.bonsaiArgs bData raw vUnsortedT_ToF dtc)).tbsgood ∧
      (NTagEventInfo.BonsaiOfCandidate bonsai_fit bData raw vUnsortedT_ToF dtc).tbsdirks =
        (bonsai_fit (NTagEventInfo.bonsaiArgs bData raw vUnsortedT_ToF dtc)).tbsdirks ∧
      (NTagEventInfo.BonsaiOfCandidate bonsai_fit bData raw vUnsortedT_ToF dtc).tbsovaq =
        (bonsai_fit (NTagEventInfo.bonsaiArgs bData raw vUnsortedT_ToF dtc)).tbsovaq) := by
  refine ⟨NTagEventInfo.n1300hits_le _ _ _, ?_, ?_⟩
  · intro h
    have hb : ∀ f : BonsaiInput → BonsaiFit,
        NTagEventInfo.bonsaiBeforeClamp f bData raw vUnsortedT_ToF dtc =
          NTagEventInfo.bonsaiSentinel := by
      intro f
      unfold NTagEventInfo.bonsaiBeforeClamp
      rw [if_pos (Or.symm h)]
    have hc : ∀ f : BonsaiInput → BonsaiFit,
        NTagEventInfo.BonsaiOfCandidate f bData raw vUnsortedT_ToF dtc =
          NTagEventInfo.bonsaiSentinel := by
      intro f
      unfold NTagEventInfo.BonsaiOfCandidate
      rw [hb f, if_neg NTagEventInfo.sentinel_not_clamped]
    refine ⟨?_, ?_⟩
    · rw [hc]; rfl
    · rw [hc, hc]
  · intro h
    have hb : NTagEventInfo.bonsaiBeforeClamp bonsai_fit bData raw vUnsortedT_ToF dtc =
        bonsai_fit (NTagEventInfo.bonsaiArgs bData raw vUnsortedT_ToF dtc) := by
      unfold NTagEventInfo.bonsaiBeforeClamp
      rw [if_neg]
      intro hc
      rcases hc with hc | hc <;> omega
    unfold NTagEventInfo.BonsaiOfCandidate
    rw [hb]
    split_ifs <;> exact ⟨rfl, rfl, rfl, rfl, rfl, rfl, rfl, rfl⟩

/-- C25: the recorded likelihood is never below -9999: it is the value of the likelihood
variable before the clamp (the value returned by the external fit when the fit is called, the
failure value 0 otherwise) when that value is at least -9999, and -9999 when it is lower,
minus infinity included. -/
theorem C25_likelihood_clamp (bonsai_fit : BonsaiInput → BonsaiFit)
    (bData : Bool) (raw : RawHitVectors) (vUnsortedT_ToF : List ℚ) (dtc : ℚ) :
    ((-9999 : ℚ) : WithBot ℚ) ≤
      (NTagEventInfo.BonsaiOfCandidate bonsai_fit bData raw vUnsortedT_ToF dtc).tbspatlik ∧
    (((-9999 : ℚ) : WithBot ℚ) ≤
        (NTagEventInfo.bonsaiBeforeClamp bonsai_fit bData raw vUnsortedT_ToF dtc).tbspatlik →
      (NTagEventInfo.BonsaiOfCandidate bonsai_fit bData raw vUnsortedT_ToF dtc).tbspatlik =
        (NTagEventInfo.bonsaiBeforeClamp bonsai_fit bData raw vUnsortedT_ToF dtc).tbspatlik) ∧
    ((NTagEventInfo.bonsaiBeforeClamp bonsai_fit bData raw vUnsortedT_ToF dtc).tbspatlik <
        ((-9999 : ℚ) : WithBot ℚ) →
      (NTagEventInfo.BonsaiOfCandidate bonsai_fit bData raw vUnsortedT_ToF dtc).tbspatlik =
        ((-9999 : ℚ) : WithBot ℚ)) ∧
    ((50 ≤ NTagEventInfo.n1300hits vUnsortedT_ToF raw.nqiskz dtc ∧
        NTagEventInfo.n1300hits vUnsortedT_ToF raw.nqiskz dtc ≤ 999) →
      (NTagEventInfo.bonsaiBeforeClamp bonsai_fit bData raw vUnsortedT_ToF dtc).tbspatlik =
        (bonsai_fit (NTagEventInfo.bonsaiArgs bData raw vUnsortedT_ToF dtc)).tbspatlik) ∧
    ((bonsai_fit (NTagEventInfo.bonsaiArgs bData raw vUnsortedT_ToF dtc)).tbspatlik = ⊥ →
      (50 ≤ NTagEventInfo.n1300hits vUnsortedT_ToF raw.nqiskz dtc ∧
        NTagEventInfo.n1300hits vUnsortedT_ToF raw.nqiskz dtc ≤ 999) →
      (NTagEventInfo.BonsaiOfCandidate bonsai_fit bData raw vUnsortedT_ToF dtc).tbspatlik =
        ((-9999 : ℚ) : WithBot ℚ)) := by
  have hin : (50 ≤ NTagEventInfo.n1300hits vUnsortedT_ToF raw.nqiskz dtc ∧
        NTagEventInfo.n1300hits vUnsortedT_ToF raw.nqiskz dtc ≤ 999) →
      NTagEventInfo.bonsaiBeforeClamp bonsai_fit bData raw vUnsortedT_ToF dtc =
        bonsai_fit (NTagEventInfo.bonsaiArgs bData raw vUnsortedT_ToF dtc) := by
    intro h
    unfold NTagEventInfo.bonsaiBeforeClamp
    rw [if_neg]
    intro hc
    rcases hc with hc | hc <;> omega
  have hlt : (NTagEventInfo.bonsaiBeforeClamp bonsai_fit bData raw vUnsortedT_ToF dtc).tbspatlik <
        ((-9999 : ℚ) : WithBot ℚ) →
      (NTagEventInfo.BonsaiOfCandidate bonsai_fit bData raw vUnsortedT_ToF dtc).tbspatlik =
        ((-9999 : ℚ) : WithBot ℚ) := by
    intro h
    unfold NTagEventInfo.BonsaiOfCandidate
    rw [if_pos h]
  have hge : ((-9999 : ℚ) : WithBot ℚ) ≤
        (NTagEventInfo.bonsaiBeforeClamp bonsai_fit bData raw vUnsortedT_ToF dtc).tbspatlik →
      (NTagEventInfo.BonsaiOfCandidate bonsai_fit bData raw vUnsortedT_ToF dtc).tbspatlik =
        (NTagEventInfo.bonsaiBeforeClamp bonsai_fit bData raw vUnsortedT_ToF dtc).tbspatlik := by
    intro h
    unfold NTagEventInfo.BonsaiOfCandidate
    rw [if_neg (not_lt.mpr h)]
  refine ⟨?_, hge, hlt, fun h => by rw [hin h], ?_⟩
  · by_cases h : (NTagEventInfo.bonsaiBeforeClamp bonsai_fit bData raw vUnsortedT_ToF
        dtc).tbspatlik < ((-9999 : ℚ) : WithBot ℚ)
    · rw [hlt h]
    · rw [hge (not_lt.mp h)]; exact not_lt.mp h
  · intro hbot h
    apply hlt
    rw [hin h, hbot]
    exact WithBot.bot_lt_coe _

/-- C26: with `nAllSec` below `MAXNSCNDPRT = 4000`, `IsCapture(c)` returns 1 exactly when some
recorded true capture time is within `TMATCHWINDOW` of `ReconCT(c) - trgOffset`, and 0
otherwise. -/
theorem C26_truth_match_rule (m : MCTruth) (c : Nat) (hbank : m.nAllSec < 4000) :
    (NTagEventInfo.IsCapture m c = 1 ↔
      ∃ t ∈ m.vTrueCT,
        |t - (NTagEventInfo.elemAt m.vReconCT c - m.trgOffset)| < m.TMATCHWINDOW) ∧
    ((¬ ∃ t ∈ m.vTrueCT,
        |t - (NTagEventInfo.elemAt m.vReconCT c - m.trgOffset)| < m.TMATCHWINDOW) →
      NTagEventInfo.IsCapture m c = 0) := by
  have he : NTagEventInfo.IsCapture m c =
      NTagEventInfo.IsCaptureLoop (NTagEventInfo.ReconCaptureTime m c) m.TMATCHWINDOW
        m.vTrueCT := by
    unfold NTagEventInfo.IsCapture NTagEventInfo.MAXNSCNDPRT
    rw [if_neg (not_le.mpr hbank)]
  have hiff := NTagEventInfo.IsCaptureLoop_eq_one_iff (NTagEventInfo.ReconCaptureTime m c)
    m.TMATCHWINDOW m.vTrueCT
  rw [he]
  refine ⟨hiff, fun hn => ?_⟩
  rcases NTagEventInfo.IsCaptureLoop_zero_or_one (NTagEventInfo.ReconCaptureTime m c)
    m.TMATCHWINDOW m.vTrueCT with h | h
  · exact absurd (hiff.mp h) hn
  · exact h

/-- C26 (witness): one true capture at 100 ns, window 40 ns: a candidate at 70 ns matches, a
candidate at 200 ns does not. -/
theorem C26_truth_match_rule_witness :
    NTagEventInfo.IsCapture ⟨10, [100], 0, 40, [70, 200], 2⟩ 0 = 1 ∧
    NTagEventInfo.IsCapture ⟨10, [100], 0, 40, [70, 200], 2⟩ 1 = 0 :=
  ⟨(C26_truth_match_rule ⟨10, [100], 0, 40, [70, 200], 2⟩ 0 (by decide)).1.mpr
      ⟨100, by decide!, by decide!⟩,
    (C26_truth_match_rule ⟨10, [100], 0, 40, [70, 200], 2⟩ 1 (by decide)).2
      (by decide!)⟩

/-- C27 (counterexample): one true capture at 100 ns and two adjacent candidates at 70 ns and
125 ns, both within the window of 40 ns, but `nAllSec = 4000`: both candidates get
`vIsCapture = -1` and `vDoubleCount = 0`. -/
theorem C27_counterexample :
    |(100 : ℚ) - NTagEventInfo.ReconCaptureTime ⟨4000, [100], 0, 40, [70, 125], 2⟩ 0| < 40 ∧
    |(100 : ℚ) - NTagEventInfo.ReconCaptureTime ⟨4000, [100], 0, 40, [70, 125], 2⟩ 1| < 40 ∧
    (NTagEventInfo.SetTrueCaptureInfo ⟨4000, [100], 0, 40, [70, 125], 2⟩
      NTagEventInfo.truthCleared).vIsCapture = [-1, -1] ∧
    (NTagEventInfo.SetTrueCaptureInfo ⟨4000, [100], 0, 40, [70, 125], 2⟩
      NTagEventInfo.truthCleared).vDoubleCount = [0, 0] := by
  refine ⟨by decide!, by decide!, by decide!, by decide!⟩

/-- C27 (amended): with `nAllSec` below 4000, exactly one true capture at time `t`, and a
candidate list in which the adjacent candidates `k` and `k + 1` are within the match window
of `t` and no other candidate is, `SetTrueCaptureInfo` on a cleared event leaves
`vIsCapture = 1` for exactly one of the two, candidate `k + 1` when its absolute time
difference is smaller and candidate `k` otherwise (also on a tie), and `vIsCapture = 0` and
`vDoubleCount = 1` for the other; all other candidates get 0 and 0. -/
theorem C27_dedup_two_candidates (m : MCTruth) (t : ℚ) (k : Nat)
    (hbank : m.nAllSec < 4000) (hT : m.vTrueCT = [t]) (hk : k + 1 < m.nCandidates)
    (h0 : |t - NTagEventInfo.ReconCaptureTime m k| < m.TMATCHWINDOW)
    (h1 : |t - NTagEventInfo.ReconCaptureTime m (k + 1)| < m.TMATCHWINDOW)
    (hrest : ∀ i, i < m.nCandidates → i ≠ k → i ≠ k + 1 →
      ¬ |t - NTagEventInfo.ReconCaptureTime m i| < m.TMATCHWINDOW) :
    (NTagEventInfo.SetTrueCaptureInfo m NTagEventInfo.truthCleared).vIsCapture =
      List.replicate k 0 ++
        (if |NTagEventInfo.ReconCaptureTime m (k + 1) - t| <
            |NTagEventInfo.ReconCaptureTime m k - t| then [0, 1] else [1, 0]) ++
        List.replicate (m.nCandidates - (k + 2)) 0 ∧
    (NTagEventInfo.SetTrueCaptureInfo m NTagEventInfo.truthCleared).vDoubleCount =
      List.replicate k 0 ++
        (if |NTagEventInfo.ReconCaptureTime m (k + 1) - t| <
            |NTagEventInfo.ReconCaptureTime m k - t| then [1, 0] else [0, 1]) ++
        List.replicate (m.nCandidates - (k + 2)) 0 := by
  have hcap : ∀ i, NTagEventInfo.IsCapture m i =
      if |t - NTagEventInfo.ReconCaptureTime m i| < m.TMATCHWINDOW then 1 else 0 :=
    fun i => NTagEventInfo.IsCapture_single m t i hbank hT
  have e2 : List.range' (0 + k) (m.nCandidates - k) =
      k :: (k + 1) :: List.range' (k + 2) (m.nCandidates - (k + 2)) := by
    have : m.nCandidates - k = (m.nCandidates - (k + 2)) + 1 + 1 := by omega
    rw [this, List.range'_succ, List.range'_succ]
    simp
  have hsplit : List.range m.nCandidates =
      List.range' 0 k ++ (k :: (k + 1) :: List.range' (k + 2) (m.nCandidates - (k + 2))) := by
    rw [List.range_eq_range', ← e2, List.range'_append_1]
    congr 1
    omega
  have hs1 : (List.range' 0 k).foldl (NTagEventInfo.truthStep m)
      { NTagEventInfo.truthCleared with checkedCT := [] } =
      { vIsCapture := List.replicate k 0, vDoubleCount := List.replicate k 0,
        vCTDiff := List.replicate k 0, checkedCT := [] } := by
    rw [NTagEventInfo.foldl_truthStep_zeros m k 0 _ (by rfl)
      (fun i _ h2 => by
        rw [hcap i, if_neg (hrest i (by omega) (by omega) (by omega))])]
    simp [NTagEventInfo.truthCleared]
  have hs2 : NTagEventInfo.truthStep m
      { vIsCapture := List.replicate k 0, vDoubleCount := List.replicate k 0,
        vCTDiff := List.replicate k 0, checkedCT := [] } k =
      { vIsCapture := List.replicate k 0 ++ [1], vDoubleCount := List.replicate k 0 ++ [0],
        vCTDiff := List.replicate k 0 ++ [NTagEventInfo.ReconCaptureTime m k - t],
        checkedCT := [t] } := by
    rw [NTagEventInfo.truthStep_new m _ k (by simp) (by rw [hcap k, if_pos h0])
      (fun c hc => by simp at hc)]
    rw [NTagEventInfo.TrueCaptureTime_single m t k hbank hT h0]
    simp
  have hs3 : NTagEventInfo.truthStep m
      { vIsCapture := List.replicate k 0 ++ [1], vDoubleCount := List.replicate k 0 ++ [0],
        vCTDiff := List.replicate k 0 ++ [NTagEventInfo.ReconCaptureTime m k - t],
        checkedCT := [t] } (k + 1) =
      if |NTagEventInfo.ReconCaptureTime m (k + 1) - t| <
          |NTagEventInfo.ReconCaptureTime m k - t| then
        { vIsCapture := List.replicate k 0 ++ [0] ++ [1],
          vDoubleCount := List.replicate k 0 ++ [1] ++ [0],
          vCTDiff := List.replicate k 0 ++ [NTagEventInfo.ReconCaptureTime m k - t] ++
            [NTagEventInfo.ReconCaptureTime m (k + 1) - t],
          checkedCT := [t] }
      else
        { vIsCapture := List.replicate k 0 ++ [1] ++ [0],
          vDoubleCount := List.replicate k 0 ++ [0] ++ [1],
          vCTDiff := List.replicate k 0 ++ [NTagEventInfo.ReconCaptureTime m k - t] ++
            [NTagEventInfo.ReconCaptureTime m (k + 1) - t],
          checkedCT := [t] } := by
    rw [NTagEventInfo.truthStep_dup m _ (k + 1) (by simp) (by simp) (by simp)
      (by rw [hcap (k + 1), if_pos h1])
      ⟨t, List.mem_singleton_self t, by
        rw [NTagEventInfo.TrueCaptureTime_single m t (k + 1) hbank hT h1]; norm_num⟩]
    rw [NTagEventInfo.TrueCaptureTime_single m t (k + 1) hbank hT h1]
    simp only [Nat.add_sub_cancel]
    have hg : (List.replicate k (0 : ℚ) ++ [NTagEventInfo.ReconCaptureTime m k - t] ++
        [NTagEventInfo.ReconCaptureTime m (k + 1) - t]).getD k 0 =
        NTagEventInfo.ReconCaptureTime m k - t := by
      rw [NTagEventInfo.getD_snoc_lt _ _ _ _ (by simp),
        NTagEventInfo.getD_snoc_length _ _ _ _ (by simp)]
    have hset1 : (List.replicate k (0 : Int) ++ [1] ++ [1]).set k 0 =
        List.replicate k 0 ++ [0] ++ [1] := by
      rw [NTagEventInfo.set_snoc_lt _ _ _ _ (by simp),
        NTagEventInfo.set_snoc_length _ _ _ _ (by simp)]
    have hset2 : (List.replicate k (0 : Int) ++ [0] ++ [0]).set k 1 =
        List.replicate k 0 ++ [1] ++ [0] := by
      rw [NTagEventInfo.set_snoc_lt _ _ _ _ (by simp),
        NTagEventInfo.set_snoc_length _ _ _ _ (by simp)]
    rw [hg, hset1, hset2]
  have hrestz : ∀ i, k + 2 ≤ i → i < k + 2 + (m.nCandidates - (k + 2)) →
      NTagEventInfo.IsCapture m i = 0 := fun i h2 h3 => by
    rw [hcap i, if_neg (hrest i (by omega) (by omega) (by omega))]
  unfold NTagEventInfo.SetTrueCaptureInfo
  rw [hsplit, List.foldl_append, List.foldl_cons, List.foldl_cons, hs1, hs2, hs3]
  by_cases hlt : |NTagEventInfo.ReconCaptureTime m (k + 1) - t| <
      |NTagEventInfo.ReconCaptureTime m k - t|
  · rw [if_pos hlt, if_pos hlt, if_pos hlt]
    rw [NTagEventInfo.foldl_truthStep_zeros m _ (k + 2) _ (by simp) hrestz]
    simp
  · rw [if_neg hlt, if_neg hlt, if_neg hlt]
    rw [NTagEventInfo.foldl_truthStep_zeros m _ (k + 2) _ (by simp) hrestz]
    simp

/-- C27 (witness): one true capture at 100 ns, candidates at 10, 70, 125 and 300 ns, window
40 ns: the candidate at 125 ns (difference 25) stays and the one at 70 ns (difference 30) is
marked. -/
theorem C27_dedup_two_candidates_witness :
    (NTagEventInfo.SetTrueCaptureInfo ⟨10, [100], 0, 40, [10, 70, 125, 300], 4⟩
      NTagEventInfo.truthCleared).vIsCapture = [0, 0, 1, 0] ∧
    (NTagEventInfo.SetTrueCaptureInfo ⟨10, [100], 0, 40, [10, 70, 125, 300], 4⟩
      NTagEventInfo.truthCleared).vDoubleCount = [0, 1, 0, 0] :=
  ⟨(C27_dedup_two_candidates ⟨10, [100], 0, 40, [10, 70, 125, 300], 4⟩ 100 1
      (by decide) rfl (by decide) (by decide!) (by decide!)
      (fun i hi h1 h2 => by
        have h4 : i < 4 := hi
        interval_cases i
        · decide!
        · exact absurd rfl h1
        · exact absurd rfl h2
        · decide!)).1.trans (by decide!),
    (C27_dedup_two_candidates ⟨10, [100], 0, 40, [10, 70, 125, 300], 4⟩ 100 1
      (by decide) rfl (by decide) (by decide!) (by decide!)
      (fun i hi h1 h2 => by
        have h4 : i < 4 := hi
        interval_cases i
        · decide!
        · exact absurd rfl h1
        · exact absurd rfl h2
        · decide!)).2.trans (by decide!)⟩

/-- C28 (counterexample): one true capture at 100 and the window 40 of the constructor;
three candidates at 90, 90 and 95, all matched to the true capture.  Candidate 1 does not
beat candidate 0 and is reset; candidate 2 beats candidate 1, which is reset again, and
candidates 0 and 2 are both left with `vIsCapture = 1`. -/
theorem C28_counterexample :
    (NTagEventInfo.SetTrueCaptureInfo ⟨1, [100], 0, 40, [90, 90, 95], 3⟩
      NTagEventInfo.truthCleared).vIsCapture = [1, 0, 1] ∧
    NTagEventInfo.TrueCaptureTime ⟨1, [100], 0, 40, [90, 90, 95], 3⟩ 0 = 100 ∧
    NTagEventInfo.TrueCaptureTime ⟨1, [100], 0, 40, [90, 90, 95], 3⟩ 2 = 100 := by
  refine ⟨by decide!, by decide!, by decide!⟩

/-- C28 (amended): for candidates in strictly increasing time order (the order in which the
peak search records them) and any true capture times, after `SetTrueCaptureInfo` on a cleared
event two different candidates with `vIsCapture = 1` are never matched to the same true
capture time. -/
theorem C28_true_positive_cap (m : MCTruth)
    (horder : ∀ i j, i < j → j < m.nCandidates →
      NTagEventInfo.elemAt m.vReconCT i < NTagEventInfo.elemAt m.vReconCT j)
    (i j : Nat) (hij : i < j) (hj : j < m.nCandidates)
    (hi1 : (NTagEventInfo.SetTrueCaptureInfo m NTagEventInfo.truthCleared).vIsCapture.getD i 0
      = 1)
    (hj1 : (NTagEventInfo.SetTrueCaptureInfo m NTagEventInfo.truthCleared).vIsCapture.getD j 0
      = 1) :
    NTagEventInfo.TrueCaptureTime m i ≠ NTagEventInfo.TrueCaptureTime m j := by
  intro he
  obtain ⟨_, _, _, _, _, hL⟩ := NTagEventInfo.truthInv_range m m.nCandidates
  have hrc : ∀ a b, a < b → b < m.nCandidates →
      NTagEventInfo.ReconCaptureTime m a < NTagEventInfo.ReconCaptureTime m b := by
    intro a b hab hb
    unfold NTagEventInfo.ReconCaptureTime
    have := horder a b hab hb
    linarith
  have hrcle : ∀ a b, a ≤ b → b < m.nCandidates →
      NTagEventInfo.ReconCaptureTime m a ≤ NTagEventInfo.ReconCaptureTime m b := by
    intro a b hab hb
    rcases Nat.lt_or_eq_of_le hab with h | h
    · exact le_of_lt (hrc a b h hb)
    · rw [h]
  obtain ⟨ci, _, k2⟩ := hL i (by omega) hi1
  obtain ⟨cj, k3, _⟩ := hL j hj hj1
  rcases k3 with k3 | ⟨hj0, cp, hlt⟩
  · exact k3 i hij ci he
  · -- candidate `j - 1` lies between `i` and `j`
    obtain ⟨_, tp⟩ := NTagEventInfo.capture_between m i (j - 1) j
      (hrcle i (j - 1) (by omega) (by omega)) (hrcle (j - 1) j (by omega) hj) ci cj he
    -- candidate `i + 1` lies between `i` and `j`
    obtain ⟨cn, tn⟩ := NTagEventInfo.capture_between m i (i + 1) j
      (hrcle i (i + 1) (by omega) (by omega)) (hrcle (i + 1) j (by omega) hj) ci cj he
    have hk2 := k2 (by omega) cn tn
    have dj : NTagEventInfo.ctDiff m j =
        NTagEventInfo.ReconCaptureTime m j - NTagEventInfo.TrueCaptureTime m i := by
      unfold NTagEventInfo.ctDiff; rw [he]
    have dp : NTagEventInfo.ctDiff m (j - 1) =
        NTagEventInfo.ReconCaptureTime m (j - 1) - NTagEventInfo.TrueCaptureTime m i := by
      unfold NTagEventInfo.ctDiff; rw [tp]
    have dn : NTagEventInfo.ctDiff m (i + 1) =
        NTagEventInfo.ReconCaptureTime m (i + 1) - NTagEventInfo.TrueCaptureTime m i := by
      unfold NTagEventInfo.ctDiff; rw [tn]
    have di : NTagEventInfo.ctDiff m i =
        NTagEventInfo.ReconCaptureTime m i - NTagEventInfo.TrueCaptureTime m i := rfl
    rw [dj, dp] at hlt
    rw [dn, di] at hk2
    by_cases hadj : j = i + 1
    · subst hadj
      rw [Nat.add_sub_cancel] at hlt
      exact hk2 hlt
    · have o1 := hrc (j - 1) j (by omega) hj
      have o2 := hrc i (i + 1) (by omega) (by omega)
      have o3 := hrcle (i + 1) (j - 1) (by omega) (by omega)
      -- the difference of `j - 1` is negative, the difference of `i + 1` is positive
      have hneg : NTagEventInfo.ReconCaptureTime m (j - 1) -
          NTagEventInfo.TrueCaptureTime m i < 0 := by
        by_contra hn
        have hn' := not_lt.mp hn
        rw [abs_of_nonneg hn', abs_of_nonneg (by linarith)] at hlt
        linarith
      have hpos : 0 < NTagEventInfo.ReconCaptureTime m (i + 1) -
          NTagEventInfo.TrueCaptureTime m i := by
        by_contra hn
        have hn' := not_lt.mp hn
        apply hk2
        rw [abs_of_nonpos hn', abs_of_nonpos (by linarith)]
        linarith
      linarith

/-- C28 (witness): one true capture at 100 ns, window 100 ns, candidates at 40, 95 and 150 ns
in increasing order: candidates 0 and 2 are not both left with `vIsCapture = 1`. -/
theorem C28_true_positive_cap_witness :
    (NTagEventInfo.SetTrueCaptureInfo ⟨10, [100, 400], 0, 100, [40, 95, 150, 420], 4⟩
        NTagEventInfo.truthCleared).vIsCapture = [0, 1, 0, 1] ∧
    NTagEventInfo.TrueCaptureTime ⟨10, [100, 400], 0, 100, [40, 95, 150, 420], 4⟩ 1 ≠
      NTagEventInfo.TrueCaptureTime ⟨10, [100, 400], 0, 100, [40, 95, 150, 420], 4⟩ 3 :=
  ⟨by decide!,
    C28_true_positive_cap ⟨10, [100, 400], 0, 100, [40, 95, 150, 420], 4⟩
      (fun i j hij hj => by
        have h4 : j < 4 := hj
        interval_cases j <;> interval_cases i <;> decide!)
      1 3 (by decide) (by decide) (by decide!) (by decide!)⟩

/-- C29: with the classifier enabled, `GetTMVAOutput` appends to `vTMVAOutput` one score per
candidate, in candidate order, each equal to the value returned by the external classifier
for that candidate; a returned -9999 is recorded as -9999. -/
theorem C29_classifier_pass_through (GetOutputFromCandidate : Nat → ℚ) (nCandidates : Nat)
    (vTMVAOutput : List ℚ) :
    NTagEventInfo.GetTMVAOutput true GetOutputFromCandidate nCandidates vTMVAOutput =
      vTMVAOutput ++ (List.range nCandidates).map GetOutputFromCandidate ∧
    (NTagEventInfo.GetTMVAOutput true GetOutputFromCandidate nCandidates []).length =
      nCandidates ∧
    (∀ i, i < nCandidates →
      (NTagEventInfo.GetTMVAOutput true GetOutputFromCandidate nCandidates [])[i]? =
        some (GetOutputFromCandidate i)) ∧
    (∀ i, i < nCandidates → GetOutputFromCandidate i = -9999 →
      (NTagEventInfo.GetTMVAOutput true GetOutputFromCandidate nCandidates [])[i]? =
        some (-9999)) := by
  have h : ∀ v : List ℚ,
      NTagEventInfo.GetTMVAOutput true GetOutputFromCandidate nCandidates v =
        v ++ (List.range nCandidates).map GetOutputFromCandidate := by
    intro v
    unfold NTagEventInfo.GetTMVAOutput
    rw [if_pos rfl]
    exact NTagEventInfo.foldl_push _ _ _
  have hi : ∀ i, i < nCandidates →
      (NTagEventInfo.GetTMVAOutput true GetOutputFromCandidate nCandidates [])[i]? =
        some (GetOutputFromCandidate i) := by
    intro i hi
    rw [h]
    simp [hi]
  refine ⟨h _, by rw [h]; simp, hi, fun i h1 h2 => by rw [hi i h1, h2]⟩

/-- C30: `AppendRawHitInfo` stores a hit with the in-gate flag bit set although its channel
ID 0 is in neither valid range; the same hit is rejected by `PMTHitCluster::Append`. -/
theorem C30_invalid_channel_stored :
    NTagEventInfo.AppendRawHitInfo ⟨[], [], [], 0⟩ [⟨1000, 1, 0, 2⟩, ⟨1010, 2, 15000, 2⟩] =
      ⟨[1000, 1010], [1, 2], [0, 15000], 2⟩ ∧
    ¬ PMTHitCluster.accepted exampleGeometry (PMTHit.mk4 1000 1 0 2) ∧
    ¬ PMTHitCluster.accepted exampleGeometry (PMTHit.mk4 1010 2 15000 2) ∧
    (PMTHitCluster.Append exampleGeometry
      (PMTHitCluster.Append exampleGeometry PMTHitCluster.empty (PMTHit.mk4 1000 1 0 2))
      (PMTHit.mk4 1010 2 15000 2)).fElement = [] := by
  refine ⟨by decide!, by decide!, by decide!, by decide!⟩

/-- C31: `PMTHitCluster::GetBetaArray` on a cluster with no hits (with or without a vertex)
and `NTagEventInfo::GetBetaArray` with `nHits = 0` return the array of six zeros; no division
is carried out. -/
theorem C31_beta_of_empty_input (LegendreP : Int → ℚ → ℚ) (fIsSorted fHasVertex : Bool)
    (fVertex : TVector3) (cosTheta : Nat → Nat → ℚ) :
    PMTHitCluster.GetBetaArray LegendreP
      { fElement := [], fIsSorted := fIsSorted, fHasVertex := fHasVertex, fVertex := fVertex } =
      [some 0, some 0, some 0, some 0, some 0, some 0] ∧
    NTagEventInfo.GetBetaArray cosTheta 0 = [some 0, some 0, some 0, some 0, some 0, some 0] := by
  refine ⟨?_, rfl⟩
  unfold PMTHitCluster.GetBetaArray
  cases fHasVertex <;> simp

/-- C32: after `NTagEventInfo::Clear()` the candidate count and the hit count are 0 and the
stored hit vectors, the vectors with one entry per candidate (the classifier variables
included) and the vectors with one entry per true capture are empty; after
`PMTHitCluster::Clear()` the cluster has no hits, no vertex and is not flagged sorted. -/
theorem C32_clear_leaves_nothing (e : EventStore) (c : PMTHitCluster) :
    ((EventStore.Clear e).nCandidates = 0 ∧ (EventStore.Clear e).nqiskz = 0 ∧
      (EventStore.Clear e).nTrueCaptures = 0) ∧
    ((EventStore.Clear e).vTISKZ = [] ∧ (EventStore.Clear e).vQISKZ = [] ∧
      (EventStore.Clear e).vCABIZ = [] ∧ (EventStore.Clear e).vUnsortedT_ToF = [] ∧
      (EventStore.Clear e).vSortedT_ToF = [] ∧ (EventStore.Clear e).vSortedQ = [] ∧
      (EventStore.Clear e).vSortedPMTID = []) ∧
    ((EventStore.Clear e).vFirstHitID = [] ∧ (EventStore.Clear e).vN10n = [] ∧
      (EventStore.Clear e).vN1300 = [] ∧ (EventStore.Clear e).vTRMS10n = [] ∧
      (EventStore.Clear e).vTRMS50 = [] ∧ (EventStore.Clear e).vReconCTn = [] ∧
      (EventStore.Clear e).vNvx = [] ∧ (EventStore.Clear e).vNvy = [] ∧
      (EventStore.Clear e).vNvz = [] ∧ (EventStore.Clear e).vDoubleCount = [] ∧
      (EventStore.Clear e).vBSvx = [] ∧ (EventStore.Clear e).vBSvy = [] ∧
      (EventStore.Clear e).vBSvz = [] ∧ (EventStore.Clear e).vBSReconCT = [] ∧
      (EventStore.Clear e).vBeta14_10 = [] ∧ (EventStore.Clear e).vBeta14_50 = [] ∧
      (EventStore.Clear e).vTMVAOutput = [] ∧ (EventStore.Clear e).vCandidateID = [] ∧
      (EventStore.Clear e).vIsGdCapture = [] ∧ (EventStore.Clear e).vIsCapture = [] ∧
      (EventStore.Clear e).vTrueCapVX = [] ∧ (EventStore.Clear e).vTrueCapVY = [] ∧
      (EventStore.Clear e).vTrueCapVZ = [] ∧ (EventStore.Clear e).vCTDiff = [] ∧
      ∀ name, (EventStore.Clear e).fVariables name = []) ∧
    ((EventStore.Clear e).vNGamma = [] ∧ (EventStore.Clear e).vTrueCT = [] ∧
      (EventStore.Clear e).vCapVX = [] ∧ (EventStore.Clear e).vCapVY = [] ∧
      (EventStore.Clear e).vCapVZ = [] ∧ (EventStore.Clear e).vTotGammaE = []) ∧
    ((PMTHitCluster.Clear c).fElement = [] ∧ (PMTHitCluster.Clear c).fHasVertex = false ∧
      (PMTHitCluster.Clear c).fIsSorted = false) := by
  refine ⟨⟨rfl, rfl, rfl⟩, ⟨rfl, rfl, rfl, rfl, rfl, rfl, rfl⟩, ?_, ⟨rfl, rfl, rfl, rfl, rfl, rfl⟩,
    ⟨rfl, rfl, rfl⟩⟩
  refine ⟨rfl, rfl, rfl, rfl, rfl, rfl, rfl, rfl, rfl, rfl, rfl, rfl, rfl, rfl, rfl, rfl, rfl,
    rfl, rfl, rfl, rfl, rfl, rfl, rfl, fun _ => rfl⟩

/-- C33: for an ascending time sequence `T`, a start index `i` inside it and a width `w ≥ 0`,
`GetNhitsFromStartIndex(T, i, w)` is the number of indices `j ≥ i` with `T[j] - T[i] ≤ w`;
the result `r` satisfies `1 ≤ r ≤ |T| - i`, so `i + r - 1` is an index of `T`. -/
theorem C33_N10_window_count (T : List ℚ) (i : Nat) (w : ℚ)
    (hT : NTagEventInfo.ascending T) (hi : i < T.length) (hw : 0 ≤ w) :
    NTagEventInfo.GetNhitsFromStartIndex T i w = (NTagEventInfo.countFrom T i w : Int) ∧
    1 ≤ NTagEventInfo.GetNhitsFromStartIndex T i w ∧
    NTagEventInfo.GetNhitsFromStartIndex T i w ≤ (T.length : Int) - (i : Int) ∧
    ((i : Int) + NTagEventInfo.GetNhitsFromStartIndex T i w - 1).toNat < T.length := by
  obtain ⟨r, hr, h1, h2, hin, hout⟩ := NTagEventInfo.GetNhitsFromStartIndex_spec T i w hi
  have hcount : NTagEventInfo.countFrom T i w = r := by
    unfold NTagEventInfo.countFrom
    apply NTagEventInfo.filter_range_window _ _ i r h2
    intro j hj
    simp only [decide_eq_true_eq]
    constructor
    · rintro ⟨hij, hle⟩
      refine ⟨hij, ?_⟩
      by_contra hge
      have hge' : i + r ≤ j := not_lt.mp hge
      have hlt : i + r < T.length := by omega
      have h3 := hout hlt
      have h4 := hT i (i + r) (by omega) hlt
      have h5 := hT (i + r) j hge' hj
      rw [abs_of_nonneg (by linarith)] at h3
      linarith
    · rintro ⟨hij, hlt⟩
      refine ⟨hij, ?_⟩
      rcases Nat.lt_or_eq_of_le hij with h | h
      · exact le_trans (le_abs_self _) (hin j h hlt)
      · rw [← h]; simpa using hw
  rw [hr, hcount]
  refine ⟨rfl, by omega, by omega, by omega⟩

/-- C33 (witness): in `[0, 3, 9, 10, 11, 30]` the window of 10 from index 0 holds four hits. -/
theorem C33_N10_window_count_witness :
    NTagEventInfo.GetNhitsFromStartIndex [0, 3, 9, 10, 11, 30] 0 10 = 4 ∧
    NTagEventInfo.countFrom [0, 3, 9, 10, 11, 30] 0 10 = 4 :=
  ⟨(C33_N10_window_count [0, 3, 9, 10, 11, 30] 0 10
      (NTagEventInfo.ascending_of_pairwise _ (by decide!)) (by decide) (by norm_num)).1.trans
      (by decide!),
    by decide!⟩

/-- C34: `GetLegendreP(1, x) = x`, and with `P(0, x) = 1` the values for `k = 1..4` satisfy
`(k+1) P(k+1, x) = (2k+1) x P(k, x) - k P(k-1, x)`; `GetLegendreP(k, 1) = 1` for `k = 1..5`. -/
theorem C34_Legendre_recurrence (x : ℚ) :
    NTagEventInfo.GetLegendreP 1 x = x ∧
    2 * NTagEventInfo.GetLegendreP 2 x = 3 * x * NTagEventInfo.GetLegendreP 1 x - 1 * 1 ∧
    3 * NTagEventInfo.GetLegendreP 3 x =
      5 * x * NTagEventInfo.GetLegendreP 2 x - 2 * NTagEventInfo.GetLegendreP 1 x ∧
    4 * NTagEventInfo.GetLegendreP 4 x =
      7 * x * NTagEventInfo.GetLegendreP 3 x - 3 * NTagEventInfo.GetLegendreP 2 x ∧
    5 * NTagEventInfo.GetLegendreP 5 x =
      9 * x * NTagEventInfo.GetLegendreP 4 x - 4 * NTagEventInfo.GetLegendreP 3 x ∧
    NTagEventInfo.GetLegendreP 1 1 = 1 ∧ NTagEventInfo.GetLegendreP 2 1 = 1 ∧
    NTagEventInfo.GetLegendreP 3 1 = 1 ∧ NTagEventInfo.GetLegendreP 4 1 = 1 ∧
    NTagEventInfo.GetLegendreP 5 1 = 1 := by
  have p1 : NTagEventInfo.GetLegendreP 1 x = x := by simp [NTagEventInfo.GetLegendreP]
  have p2 : NTagEventInfo.GetLegendreP 2 x = (3 * x * x - 1) / 2 := by
    simp [NTagEventInfo.GetLegendreP]
  have p3 : NTagEventInfo.GetLegendreP 3 x = (5 * x * x * x - 3 * x) / 2 := by
    simp [NTagEventInfo.GetLegendreP]
  have p4 : NTagEventInfo.GetLegendreP 4 x = (35 * x * x * x * x - 30 * x * x + 3) / 8 := by
    simp [NTagEventInfo.GetLegendreP]
  have p5 : NTagEventInfo.GetLegendreP 5 x =
      (63 * x * x * x * x * x - 70 * x * x * x + 15 * x) / 8 := by
    simp [NTagEventInfo.GetLegendreP]
  refine ⟨p1, ?_, ?_, ?_, ?_, ?_, ?_, ?_, ?_, ?_⟩
  · rw [p1, p2]; ring
  · rw [p1, p2, p3]; ring
  · rw [p2, p3, p4]; ring
  · rw [p3, p4, p5]; ring
  · simp [NTagEventInfo.GetLegendreP]
  · simp [NTagEventInfo.GetLegendreP]; norm_num
  · simp [NTagEventInfo.GetLegendreP]; norm_num
  · simp [NTagEventInfo.GetLegendreP]; norm_num
  · simp [NTagEventInfo.GetLegendreP]; norm_num

/-- C35: a cluster built by `Append` from one hit on channel `MAXPM = 11146`: the loop of
`ApplyDeadtime` accesses `hitTime[11146]`, which is outside the table of `MAXPM` entries
(valid indices `0 .. MAXPM - 1`); in general every index accessed lies in `1 .. MAXPM`. -/
theorem C35_hitTime_index_past_end :
    (PMTHitCluster.Append exampleGeometry PMTHitCluster.empty
      (PMTHit.mk4 1000 1 11146 0)).fElement = [PMTHit.mk4 1000 1 11146 0] ∧
    hitTimeAccesses exampleGeometry
      (PMTHitCluster.deadtimeInput stableSort
        (PMTHitCluster.Append exampleGeometry PMTHitCluster.empty
          (PMTHit.mk4 1000 1 11146 0))) = [11146] ∧
    ¬ ((11146 : Int) < hitTimeSize exampleGeometry) ∧
    (∀ (g : Geometry) (L : List PMTHit), ∀ idx ∈ hitTimeAccesses g L,
      1 ≤ idx ∧ idx ≤ hitTimeSize g) := by
  refine ⟨by decide!, by decide!, by decide!, ?_⟩
  intro g L idx hidx
  unfold hitTimeAccesses at hidx
  rw [List.mem_map] at hidx
  obtain ⟨h, hh, rfl⟩ := hidx
  rw [List.mem_filter] at hh
  simpa [hitTimeSize] using hh.2

/-- C36: for the cleared event without hits the hit loop does not run, the pending index
stays 0, and the final `SavePeakFromHit(0)` reads `vSortedT_ToF[0]` (for `t0` and for `tEnd`)
although the vector is empty; with the constructor's settings no candidate is recorded, with
`N10TH = 1` the values read there are recorded as a candidate. -/
theorem C36_empty_event_reads_past_end :
    (NTagEventInfo.scanLoop NTagEventInfo.defaultSettings
      (NTagEventInfo.ofSortedHits [] [])).1.iHitPrevious = 0 ∧
    NTagEventInfo.savePeakReads
      (NTagEventInfo.scanLoop NTagEventInfo.defaultSettings
        (NTagEventInfo.ofSortedHits [] [])).2 0 = [0, 0] ∧
    ¬ (0 < (NTagEventInfo.scanLoop NTagEventInfo.defaultSettings
        (NTagEventInfo.ofSortedHits [] [])).2.vSortedT_ToF.length) ∧
    (NTagEventInfo.SearchCaptureCandidates NTagEventInfo.defaultSettings
      (NTagEventInfo.ofSortedHits [] [])).nCandidates = 0 ∧
    (NTagEventInfo.SearchCaptureCandidates ⟨1, 50, 140, 5, 50⟩
      (NTagEventInfo.ofSortedHits [] [])).vFirstHitID = [0] := by
  refine ⟨by decide!, by decide!, by decide!, by decide!, by decide!⟩

/-- C37: for a single hit the normalisation divides by `float(nHits - 1) = 0`: both
`PMTHitCluster::GetBetaArray` on a one-hit cluster with a vertex and
`NTagEventInfo::GetBetaArray` with `nHits = 1` return `beta[0] = 0` and no number in
`beta[1] .. beta[5]`. -/
theorem C37_single_hit_divides_by_zero (LegendreP : Int → ℚ → ℚ) (hit : PMTHit)
    (fIsSorted : Bool) (fVertex : TVector3) (cosTheta : Nat → Nat → ℚ) :
    PMTHitCluster.GetBetaArray LegendreP
      { fElement := [hit], fIsSorted := fIsSorted, fHasVertex := true, fVertex := fVertex } =
      [some 0, none, none, none, none, none] ∧
    NTagEventInfo.GetBetaArray cosTheta 1 = [some 0, none, none, none, none, none] ∧
    (((1 : Nat) : ℚ) - 1 = 0) := by
  refine ⟨?_, ?_, by norm_num⟩
  · simp [PMTHitCluster.GetBetaArray, betaNormalise, betaAccumulate, betaPairs, floatDiv,
      List.range, List.range.loop]
  · simp [NTagEventInfo.GetBetaArray, betaNormalise, betaAccumulate, betaPairs, floatDiv,
      List.range, List.range.loop]

/-- C38: for a non-empty ascending corrected-time sequence `T`, unsorted times `U` that are a
permutation of `T`, and `nqiskz` the number of hits: for every candidate recorded by the peak
search, the counter `n50hits` for its candidate time is at least its recorded N10 and at
least 1, the hit list `tiskz50` passed to `MinimizeTRMS` is non-empty, and the refined N10
pushed to `vN10n` lies between 1 and `n50hits`, whatever vertex `nv` the fit has written. -/
theorem C38_N50_at_least_N10 (s : Settings) (tk : Tank) (nv : TVector3) (T Q U : List ℚ)
    (raw : RawHitVectors) (k : Nat)
    (hT : NTagEventInfo.ascending T) (hne : T ≠ []) (hU : U.Perm T)
    (hn : raw.nqiskz = (U.length : Int))
    (hk : k < (NTagEventInfo.SearchCaptureCandidates s
      (NTagEventInfo.ofSortedHits T Q)).vFirstHitID.length) :
    (NTagEventInfo.SearchCaptureCandidates s (NTagEventInfo.ofSortedHits T Q)).vN10.getD k 0 ≤
      NTagEventInfo.n50hits U raw.nqiskz
        ((NTagEventInfo.SearchCaptureCandidates s
          (NTagEventInfo.ofSortedHits T Q)).vReconCT.getD k 0) ∧
    1 ≤ NTagEventInfo.n50hits U raw.nqiskz
        ((NTagEventInfo.SearchCaptureCandidates s
          (NTagEventInfo.ofSortedHits T Q)).vReconCT.getD k 0) ∧
    NTagEventInfo.tiskz50 raw U
        ((NTagEventInfo.SearchCaptureCandidates s
          (NTagEventInfo.ofSortedHits T Q)).vReconCT.getD k 0) ≠ [] ∧
    1 ≤ NTagEventInfo.refinedN10 tk nv raw U
        ((NTagEventInfo.SearchCaptureCandidates s
          (NTagEventInfo.ofSortedHits T Q)).vReconCT.getD k 0) ∧
    NTagEventInfo.refinedN10 tk nv raw U
        ((NTagEventInfo.SearchCaptureCandidates s
          (NTagEventInfo.ofSortedHits T Q)).vReconCT.getD k 0) ≤
      NTagEventInfo.n50hits U raw.nqiskz
        ((NTagEventInfo.SearchCaptureCandidates s
          (NTagEventInfo.ofSortedHits T Q)).vReconCT.getD k 0) := by
  obtain ⟨hseed, hrecon⟩ := NTagEventInfo.recon_Search s T Q hne
  have hok := NTagEventInfo.candidatesOK_Search s (NTagEventInfo.ofSortedHits T Q)
    ⟨rfl, rfl, rfl, fun n hn => absurd hn (List.not_mem_nil n)⟩
  have hTT : (NTagEventInfo.SearchCaptureCandidates s
      (NTagEventInfo.ofSortedHits T Q)).vSortedT_ToF = T := by
    unfold NTagEventInfo.SearchCaptureCandidates
    simp only
    rw [NTagEventInfo.SavePeakFromHit_T, NTagEventInfo.scanLoop_eq_scanPrefix,
      NTagEventInfo.scanPrefix_T]
    rfl
  generalize NTagEventInfo.SearchCaptureCandidates s (NTagEventInfo.ofSortedHits T Q) = e
    at hk hseed hrecon hok hTT ⊢
  have hN10 : e.vN10.getD k 0 = NTagEventInfo.GetNhitsFromStartIndex T e.vFirstHitID[k] 10 := by
    rw [hok.2.1, hTT, List.getD_eq_getElem _ _ (by rw [List.length_map]; exact hk),
      List.getElem_map]
    rfl
  have hRC : e.vReconCT.getD k 0 = NTagEventInfo.reconOf T e.vFirstHitID[k] := by
    rw [hrecon, List.getD_eq_getElem _ _ (by rw [List.length_map]; exact hk), List.getElem_map]
  have hh : e.vFirstHitID[k] < T.length := hseed _ (List.getElem_mem _)
  have hcount := NTagEventInfo.countP_window_ge T e.vFirstHitID[k] hT hh
  have h50 : NTagEventInfo.n50hits U raw.nqiskz (e.vReconCT.getD k 0) =
      (T.countP (fun t => decide (|t - NTagEventInfo.reconOf T e.vFirstHitID[k]| < 25)) : Int) := by
    rw [hn, hRC, NTagEventInfo.n50hits_eq_countP, hU.countP_eq]
  have hpos := NTagEventInfo.GetNhitsFromStartIndex_pos T e.vFirstHitID[k] 10
  have hge : e.vN10.getD k 0 ≤ NTagEventInfo.n50hits U raw.nqiskz (e.vReconCT.getD k 0) := by
    rw [hN10, h50]; exact hcount
  have hone : 1 ≤ NTagEventInfo.n50hits U raw.nqiskz (e.vReconCT.getD k 0) := by
    rw [h50]; exact le_trans hpos hcount
  have hlen : ((NTagEventInfo.tiskz50 raw U (e.vReconCT.getD k 0)).length : Int) =
      NTagEventInfo.n50hits U raw.nqiskz (e.vReconCT.getD k 0) := by
    unfold NTagEventInfo.tiskz50 NTagEventInfo.n50hits
    rw [List.length_map]
  have hlen1 : 1 ≤ (NTagEventInfo.tiskz50 raw U (e.vReconCT.getD k 0)).length := by
    have := hone
    rw [← hlen] at this
    exact_mod_cast this
  have href := NTagEventInfo.refineScan_bounds
    (NTagEventInfo.GetToFSubtracted tk (NTagEventInfo.tiskz50 raw U (e.vReconCT.getD k 0))
      (NTagEventInfo.cabiz50 raw U (e.vReconCT.getD k 0)) nv true)
    (by rw [NTagEventInfo.length_GetToFSubtracted]; exact hlen1)
  rw [NTagEventInfo.length_GetToFSubtracted, hlen] at href
  refine ⟨hge, hone, ?_, href.1, href.2⟩
  intro hnil
  rw [hnil] at hlen1
  simp at hlen1

/-- C38 (witness): four hits, three of them within 2 ns, settings with `N10TH = 3`: the one
candidate has N10 = 3 and at least as many hits in its 50 ns window. -/
theorem C38_N50_at_least_N10_witness :
    (NTagEventInfo.SearchCaptureCandidates ⟨3, 50, 140, 0, 50⟩
      (NTagEventInfo.ofSortedHits [100, 101, 102, 200] [1, 1, 1, 1])).vN10 = [3] ∧
    (NTagEventInfo.SearchCaptureCandidates ⟨3, 50, 140, 0, 50⟩
        (NTagEventInfo.ofSortedHits [100, 101, 102, 200] [1, 1, 1, 1])).vN10.getD 0 0 ≤
      NTagEventInfo.n50hits [101, 200, 100, 102]
        (⟨[1101, 1200, 1100, 1102], [1, 1, 1, 1], [5, 6, 7, 8], 4⟩ : RawHitVectors).nqiskz
        ((NTagEventInfo.SearchCaptureCandidates ⟨3, 50, 140, 0, 50⟩
          (NTagEventInfo.ofSortedHits [100, 101, 102, 200] [1, 1, 1, 1])).vReconCT.getD 0 0) :=
  ⟨by decide!,
    (C38_N50_at_least_N10 ⟨3, 50, 140, 0, 50⟩ exampleTank TVector3.zero [100, 101, 102, 200]
      [1, 1, 1, 1]
      [101, 200, 100, 102] ⟨[1101, 1200, 1100, 1102], [1, 1, 1, 1], [5, 6, 7, 8], 4⟩ 0
      (NTagEventInfo.ascending_of_pairwise _ (by decide!)) (by decide) (by decide!) rfl
      (by decide!)).1⟩

/-- C39: for a record with one hit the loop body of `AddTQReal` runs for `j = 0` and `j = 1`,
so the three vectors are read at index 1, past their end; when the memory there holds a cable
word with a valid channel, two hits are appended. -/
theorem C39_AddTQReal_reads_past_end :
    AddTQRealIndices [100] = [0, 1] ∧
    ¬ (1 < ([100] : List ℚ).length) ∧
    (PMTHitCluster.AddTQReal exampleGeometry PMTHitCluster.empty [100] [1] [65536 + 5] 0
      (fun _ => 200) (fun _ => 2) (fun _ => 7)).fElement =
      [PMTHit.mk4 100 1 5 0, PMTHit.mk4 200 2 7 0] ∧
    (∀ t : List ℚ, t.length ∈ AddTQRealIndices t) := by
  refine ⟨by decide!, by decide, by decide!, ?_⟩
  intro t
  unfold AddTQRealIndices
  rw [List.mem_range]
  omega

/-- C40: after `Clear()` and the peak search over the single hit at 6000 ns, which is above
`T0TH` = 5 us, `firstHitTime_ToF` is still -9999 and not 6000; for every setting and every
sequence the search leaves the value -9999 set by `Clear()`. -/
theorem C40_first_hit_time_not_recorded :
    ¬ (NTagEventInfo.elemAt [6000] 0 * (1 / 1000) < NTagEventInfo.defaultSettings.T0TH) ∧
    (NTagEventInfo.SearchCaptureCandidates NTagEventInfo.defaultSettings
      (NTagEventInfo.ofSortedHits [6000] [1])).firstHitTime_ToF = -9999 ∧
    (∀ (s : Settings) (T Q : List ℚ),
      (NTagEventInfo.SearchCaptureCandidates s
        (NTagEventInfo.ofSortedHits T Q)).firstHitTime_ToF = -9999) := by
  have hgen : ∀ (s : Settings) (T Q : List ℚ),
      (NTagEventInfo.SearchCaptureCandidates s
        (NTagEventInfo.ofSortedHits T Q)).firstHitTime_ToF = -9999 := by
    intro s T Q
    unfold NTagEventInfo.SearchCaptureCandidates
    simp only
    rw [NTagEventInfo.SavePeakFromHit_firstHitTime, NTagEventInfo.scanLoop_eq_scanPrefix,
      NTagEventInfo.scanPrefix_firstHitTime s _ _ (by simp [NTagEventInfo.ofSortedHits])]
    rfl
  exact ⟨by decide!, hgen _ _ _, hgen⟩

end NTag
